import Mathlib

/-!
Social Learning Algorithm (`SLA.cpp`): embedding and verification.

The C program is embedded as state-passing functions over `Except Fault`.

* In the operators `double` values are exact rationals.  An operation whose IEEE
  result would be non-finite (a floating division by zero, a square root of a
  negative number) is reported as a `Fault` instead of producing NaN or an infinity.
* Where the rounding of `double` decides a property (the value that `t_test`
  returns, the value of `randval` against its bounds), the functions are embedded
  a second time, as `t_test_double`, `randval_double` and `Initialize_double`, over
  IEEE 754 binary64: every operation rounds its exact result to the nearest
  `double`, ties to even, and a result outside the finite range is
  `Fault.fpOverflow`.
* The `int` counter `fes` is an integer of unbounded range; `int_wrap` gives the
  value that a 32-bit `int` holds, and the theorems on the budget state when the
  two agree.
* The hidden state of the C library's `rand()` is the list `State.rng` of the
  values that the successive calls return; a run that asks for more values
  than the list holds ends in `Fault.randExhausted`.
* The `#define`d and `const` parameters, the globals `lbound`, `ubound`,
  `function_name` (written only by `main`), and the library routines `sqrt`,
  `qsort` and `RAND_MAX` are the fields of `Config`.
-/

namespace SLA

/-! ## Data model -/

/-- Reasons for which an execution leaves the model. -/
inductive Fault where
  /-- The supplied sequence of `rand()` values is used up. -/
  | randExhausted
  /-- Integer `%` with a zero divisor. -/
  | intDivZero
  /-- Floating division with a zero divisor (IEEE: NaN or an infinity). -/
  | fpDivZero
  /-- Square root of a negative number (IEEE: NaN). -/
  | fpDomain
  /-- Array access outside the array. -/
  | outOfBounds
  /-- Floating result outside the finite range of `double` (IEEE: an infinity). -/
  | fpOverflow
  deriving DecidableEq, Repr

/-- The struct `Individual`: genes `x[DIMS]` and fitness `fit`. -/
structure Individual where
  x : List ℚ
  fit : ℚ
  deriving DecidableEq, Repr

/-- Parameters of the program and the external routines it calls. -/
structure Config where
  /-- Population size (`#define POPSIZE 30`). -/
  POPSIZE : Nat
  /-- Maximal number of function evaluations (`#define FES 300000`). -/
  FES : Int
  /-- Number of problem variables (`#define DIMS 30`). -/
  DIMS : Nat
  /-- Probability of imitation (`const double p_i = 0.7`). -/
  p_i : ℚ
  /-- Probability of randomization (`const double p_r = 0.2`). -/
  p_r : ℚ
  /-- Number of model members (`const int SN1 = 15`). -/
  SN1 : Nat
  /-- Largest value returned by `rand()`. -/
  RAND_MAX : Nat
  /-- Lower bound of the variables (global `lbound`). -/
  lbound : ℚ
  /-- Upper bound of the variables (global `ubound`). -/
  ubound : ℚ
  /-- Objective function (global function pointer `function_name`). -/
  function_name : List ℚ → Nat → ℚ
  /-- Library routine `sqrt` on the non-negative numbers. -/
  sqrt : ℚ → ℚ
  /-- Library routine `qsort`, applied to the whole array with a comparator. -/
  qsort : (Individual → Individual → Int) → List Individual → List Individual

/-- Number of non-model members (`const int SN2 = POPSIZE - SN1`). -/
def Config.SN2 (cfg : Config) : Nat := cfg.POPSIZE - cfg.SN1

/-- Global variables of the program together with the state of `rand()`. -/
structure State where
  pop : List Individual
  newpop : List Individual
  fes : Int
  gbestval : ℚ
  gbestind : Nat
  t_Val : List ℚ
  AT : ℚ
  mAT : ℚ
  rng : List Nat
  deriving DecidableEq, Repr

/-- Result of a computation that may fault. -/
abbrev M (α : Type) := Except Fault α

deriving instance DecidableEq for Except

/-! ## Primitive operations -/

/-- Floating division `a / b`; a zero divisor is a fault. -/
def fdiv (a b : ℚ) : M ℚ :=
  if b = 0 then .error Fault.fpDivZero else .ok (a / b)

/-- Call `sqrt(a)`; a negative argument is a fault. -/
def fsqrt (sqrt : ℚ → ℚ) (a : ℚ) : M ℚ :=
  if a < 0 then .error Fault.fpDomain else .ok (sqrt a)

/-- Array read `a[i]`. -/
def readAt {α : Type} (a : List α) (i : Nat) : M α :=
  match a[i]? with
  | some v => .ok v
  | none => .error Fault.outOfBounds

/-- Array write `a[i] = v`. -/
def writeAt {α : Type} (a : List α) (i : Nat) (v : α) : M (List α) :=
  if i < a.length then .ok (a.set i v) else .error Fault.outOfBounds

/-- Read `p[i].x[j]`. -/
def gene (p : List Individual) (i j : Nat) : M ℚ :=
  match readAt p i with
  | .ok ind => readAt ind.x j
  | .error e => .error e

/-- Write `p[i].x[j] = v`. -/
def setGene (p : List Individual) (i j : Nat) (v : ℚ) : M (List Individual) :=
  match readAt p i with
  | .ok ind =>
    match writeAt ind.x j v with
    | .ok xs => writeAt p i { ind with x := xs }
    | .error e => .error e
  | .error e => .error e

/-- Write `p[i].fit = v`. -/
def setFit (p : List Individual) (i : Nat) (v : ℚ) : M (List Individual) :=
  match readAt p i with
  | .ok ind => writeAt p i { ind with fit := v }
  | .error e => .error e

/-- The loop `for (i = i0; i < i0 + k; i++) body(i)`. -/
def forLoop {σ : Type} (body : Nat → σ → M σ) : Nat → Nat → σ → M σ
  | 0, _, s => .ok s
  | k + 1, i, s =>
    match body i s with
    | .ok s1 => forLoop body k (i + 1) s1
    | .error e => .error e

/-- Call `rand()`: the next value of the sequence. -/
def rand (s : State) : M (Nat × State) :=
  match s.rng with
  | [] => .error Fault.randExhausted
  | v :: rest => .ok (v, { s with rng := rest })

/-- Function `randval`: `(double(rand())/RAND_MAX) * (high-low) + low`. -/
def randval (cfg : Config) (low high : ℚ) (s : State) : M (ℚ × State) :=
  match rand s with
  | .ok (v, s1) =>
    match fdiv (v : ℚ) (cfg.RAND_MAX : ℚ) with
    | .ok q => .ok (q * (high - low) + low, s1)
    | .error e => .error e
  | .error e => .error e

/-- Function `cmp`: `(p->fit - q->fit > 0) ? 1 : -1`. -/
def cmp (p q : Individual) : Int :=
  if p.fit - q.fit > 0 then 1 else -1

/-! ## Student's t-test -/

/-- The loop `for (i = i0; i < i0 + k; i++) acc += g(sample[i])`. -/
def accumulate (g : ℚ → ℚ) (sample : List ℚ) : Nat → Nat → ℚ → M ℚ
  | 0, _, acc => .ok acc
  | k + 1, i, acc =>
    match readAt sample i with
    | .ok v => accumulate g sample k (i + 1) (acc + g v)
    | .error e => .error e

/-- Function `t_test`. -/
def t_test (sqrt : ℚ → ℚ) (sample1 : List ℚ) (SIZE1 : Nat) (sample2 : List ℚ) (SIZE2 : Nat) :
    M ℚ := do
  let df : Int := (SIZE1 : Int) - 1 + (SIZE2 : Int) - 1
  let sum_1 ← accumulate id sample1 SIZE1 0 0
  let sum_2 ← accumulate id sample2 SIZE2 0 0
  let mean_1 ← fdiv sum_1 (SIZE1 : ℚ)
  let mean_2 ← fdiv sum_2 (SIZE2 : ℚ)
  let SS_1 ← accumulate (fun v => (v - mean_1) * (v - mean_1)) sample1 SIZE1 0 0
  let SS_2 ← accumulate (fun v => (v - mean_2) * (v - mean_2)) sample2 SIZE2 0 0
  let q ← fdiv (SS_1 + SS_2) (df : ℚ)
  let w1 ← fdiv 1 (SIZE1 : ℚ)
  let w2 ← fdiv 1 (SIZE2 : ℚ)
  let SS_1_2 := q * (w1 + w2)
  let S_1_2 ← fsqrt sqrt SS_1_2
  if S_1_2 = 0 then .ok 0 else fdiv (mean_1 - mean_2) S_1_2

/-! ## Operators of the algorithm -/

/-- Body of the inner loop of `Initialize`: `pop[i].x[j] = randval(lbound,ubound)`. -/
def Initialize_gene (cfg : Config) (i j : Nat) (s : State) : M State :=
  match randval cfg cfg.lbound cfg.ubound s with
  | .ok (v, s1) =>
    match setGene s1.pop i j v with
    | .ok p => .ok { s1 with pop := p }
    | .error e => .error e
  | .error e => .error e

/-- Function `Initialize`. -/
def Initialize (cfg : Config) (s : State) : M State :=
  match forLoop (fun i => forLoop (Initialize_gene cfg i) cfg.DIMS 0) cfg.POPSIZE 0
      { s with fes := 0 } with
  | .ok s1 => .ok { s1 with gbestval := (10 : ℚ) ^ 300 }
  | .error e => .error e

/-- Body of the loop of `Evaluate`. -/
def Evaluate_body (cfg : Config) (i : Nat) (s : State) : M State :=
  match readAt s.pop i with
  | .ok ind =>
    let fit := cfg.function_name ind.x cfg.DIMS
    match setFit s.pop i fit with
    | .ok p =>
      let s1 : State := { s with fes := s.fes + 1, pop := p }
      if fit - s1.gbestval < 0 then .ok { s1 with gbestind := i, gbestval := fit }
      else .ok s1
    | .error e => .error e
  | .error e => .error e

/-- Function `Evaluate`. -/
def Evaluate (cfg : Config) (s : State) : M State :=
  forLoop (Evaluate_body cfg) cfg.POPSIZE 0 s

/-- The loop `for (i = 0; i < k; i++) s[i] = pop[i1++].x[j]` filling a local array,
started at `i1 = start`. -/
def copy_column (pop : List Individual) (j : Nat) : Nat → Nat → M (List ℚ)
  | 0, _ => .ok []
  | k + 1, start =>
    match gene pop start j with
    | .ok v =>
      match copy_column pop j k (start + 1) with
      | .ok rest => .ok (v :: rest)
      | .error e => .error e
    | .error e => .error e

/-- Body of the loop over the dimensions in `Attention`. -/
def Attention_dim (cfg : Config) (j : Nat) (s : State) : M State :=
  match copy_column s.pop j cfg.SN1 0 with
  | .ok s1 =>
    match copy_column s.pop j cfg.SN2 cfg.SN1 with
    | .ok s2 =>
      match t_test cfg.sqrt s1 cfg.SN1 s2 cfg.SN2 with
      | .ok t =>
        match writeAt s.t_Val j t with
        | .ok tv => .ok { s with t_Val := tv }
        | .error e => .error e
      | .error e => .error e
    | .error e => .error e
  | .error e => .error e

/-- Function `Attention`. -/
def Attention (cfg : Config) (s : State) : M State :=
  match forLoop (Attention_dim cfg) cfg.DIMS 0 { s with pop := cfg.qsort cmp s.pop } with
  | .ok s1 =>
    match rand s1 with
    | .ok (v, s2) =>
      if cfg.DIMS = 0 then .error Fault.intDivZero
      else
        match readAt s2.t_Val (v % cfg.DIMS) with
        | .ok t => .ok { s2 with AT := |t|, mAT := 0 - |t| }
        | .error e => .error e
    | .error e => .error e
  | .error e => .error e

/-- The loop `do { r = rand() % m; } while (r == i);` on the sequence of `rand()` values. -/
def draw_other (m i : Nat) : List Nat → M (Nat × List Nat)
  | [] => .error Fault.randExhausted
  | v :: rest =>
    if m = 0 then .error Fault.intDivZero
    else if v % m = i then draw_other m i rest
    else .ok (v % m, rest)

/-- The loop `do { r = rand() % m; } while (r == i);` on the state. -/
def draw_excluding (m i : Nat) (s : State) : M (Nat × State) :=
  match draw_other m i s.rng with
  | .ok (r, rest) => .ok (r, { s with rng := rest })
  | .error e => .error e

/-- Exploration branch of `Reproduction_and_Reinforcement` (lines 160-167). -/
def explore (cfg : Config) (i j r1 : Nat) (s : State) : M (ℚ × State) :=
  match randval cfg 0 1 s with
  | .ok (u1, s1) =>
    if u1 < cfg.p_i then
      match gene s1.pop r1 j with
      | .ok v => .ok (v, s1)
      | .error e => .error e
    else
      match randval cfg 0 1 s1 with
      | .ok (u2, s2) =>
        if u2 < cfg.p_r then randval cfg cfg.lbound cfg.ubound s2
        else
          match gene s2.pop i j with
          | .ok v => .ok (v, s2)
          | .error e => .error e
      | .error e => .error e
  | .error e => .error e

/-- Value assigned to `newpop[i].x[j]` before the boundary control (lines 146-168). -/
def reproduce (cfg : Config) (i j : Nat) (s : State) : M (ℚ × State) :=
  match draw_excluding cfg.SN1 i s with
  | .ok (r, s1) =>
    match draw_excluding cfg.POPSIZE i s1 with
    | .ok (r1, s2) =>
      match randval cfg 0 1 s2 with
      | .ok (nd, s3) =>
        match gene s3.pop r j with
        | .ok xr =>
          match gene s3.pop i j with
          | .ok xi =>
            let delta := |xr - xi|
            match readAt s3.t_Val j with
            | .ok t =>
              if t ≥ s3.AT then .ok (xr + nd * delta, s3)
              else if t ≤ s3.mAT then .ok (xr - nd * delta, s3)
              else explore cfg i j r1 s3
            | .error e => .error e
          | .error e => .error e
        | .error e => .error e
      | .error e => .error e
    | .error e => .error e
  | .error e => .error e

/-- Boundary control (lines 171-174). -/
def boundary_control (lbound ubound v : ℚ) : ℚ :=
  if v > ubound then ubound - (1 / 2) * (v - ubound)
  else if v < lbound then lbound + (1 / 2) * (lbound - v)
  else v

/-- Body of the inner loop of `Reproduction_and_Reinforcement`. -/
def Reproduction_gene (cfg : Config) (i j : Nat) (s : State) : M State :=
  match reproduce cfg i j s with
  | .ok (v, s1) =>
    match setGene s1.newpop i j (boundary_control cfg.lbound cfg.ubound v) with
    | .ok np => .ok { s1 with newpop := np }
    | .error e => .error e
  | .error e => .error e

/-- Function `Reproduction_and_Reinforcement`. -/
def Reproduction_and_Reinforcement (cfg : Config) (s : State) : M State :=
  forLoop (fun i => forLoop (Reproduction_gene cfg i) cfg.DIMS 0) cfg.POPSIZE 0 s

/-- Body of the loop of `Motivation`. -/
def Motivation_body (cfg : Config) (i : Nat) (s : State) : M State :=
  match readAt s.newpop i with
  | .ok child0 =>
    let child : Individual := { child0 with fit := cfg.function_name child0.x cfg.DIMS }
    match writeAt s.newpop i child with
    | .ok np =>
      let s1 : State := { s with fes := s.fes + 1, newpop := np }
      match readAt s1.pop i with
      | .ok parent =>
        if child.fit - parent.fit ≤ 0 then
          match writeAt s1.pop i child with
          | .ok p =>
            let s2 : State := { s1 with pop := p }
            if child.fit - s2.gbestval ≤ 0 then
              .ok { s2 with gbestind := i, gbestval := child.fit }
            else .ok s2
          | .error e => .error e
        else .ok s1
      | .error e => .error e
    | .error e => .error e
  | .error e => .error e

/-- Function `Motivation`. -/
def Motivation (cfg : Config) (s : State) : M State :=
  forLoop (Motivation_body cfg) cfg.POPSIZE 0 s

/-- One generation: the body of the `while` loop of `Process`. -/
def generation (cfg : Config) (s : State) : M State :=
  match Attention cfg s with
  | .ok s1 =>
    match Reproduction_and_Reinforcement cfg s1 with
    | .ok s2 => Motivation cfg s2
    | .error e => .error e
  | .error e => .error e

/-- The loop `while (fes < FES) { ... }` of `Process`, run for at most the given
number of generations.  The result is `none` when that number does not suffice;
otherwise it is the outcome of the loop: a fault raised inside a generation, or
the list of the state at loop entry followed by the state after each
generation, whose last entry is the state at loop exit. -/
def Process_loop (cfg : Config) : Nat → State → Option (M (List State))
  | 0, s => if s.fes < cfg.FES then none else some (.ok [s])
  | fuel + 1, s =>
    if s.fes < cfg.FES then
      match generation cfg s with
      | .ok s1 =>
        match Process_loop cfg fuel s1 with
        | some (.ok tr) => some (.ok (s :: tr))
        | some (.error e) => some (.error e)
        | none => none
      | .error e => some (.error e)
    else some (.ok [s])

/-- Function `Process`, with the states observed after `Evaluate` and after each
generation. -/
def Process_trace (cfg : Config) (fuel : Nat) (s : State) : Option (M (List State)) :=
  match Initialize cfg s with
  | .ok s1 =>
    match Evaluate cfg s1 with
    | .ok s2 => Process_loop cfg fuel s2
    | .error e => some (.error e)
  | .error e => some (.error e)

/-- Function `Process`: the state in which it returns. -/
def Process (cfg : Config) (fuel : Nat) (s : State) : Option (M State) :=
  match Process_trace cfg fuel s with
  | some (.ok tr) =>
    match tr.getLast? with
    | some s1 => some (.ok s1)
    | none => none
  | some (.error e) => some (.error e)
  | none => none

/-! ## Arithmetic of `double`

The type `double` is IEEE 754 binary64: 53 significant bits, exponents `-1022 .. 1023`,
gradual underflow, round to nearest with ties to even.  A `double` that is finite is the
rational number it denotes; an operation whose result is not finite is a fault. -/

/-- Number of halvings that bring `n` below `2`: `⌊log2 n⌋` for `1 ≤ n < 2 ^ fuel`. -/
def ilog2 : Nat → Nat → Nat
  | 0, _ => 0
  | fuel + 1, n => if n < 2 then 0 else ilog2 fuel (n / 2) + 1

/-- The power `2 ^ e` for an integer exponent. -/
def pow2 (e : Int) : ℚ := (2 : ℚ) ^ e

/-- Nearest integer of a non-negative rational, ties to the even one. -/
def roundEven (q : ℚ) : Int :=
  let f : Int := q.num / (q.den : Int)
  let r : ℚ := q - (f : ℚ)
  if r < 1 / 2 then f else if 1 / 2 < r then f + 1 else if f % 2 = 0 then f else f + 1

/-- Exponent `e` of a positive rational `q`, `2 ^ e ≤ q < 2 ^ (e + 1)`. -/
def binade (q : ℚ) : Int :=
  let e0 : Int := (ilog2 q.num.natAbs q.num.natAbs : Int) - (ilog2 q.den q.den : Int)
  if pow2 e0 ≤ q then e0 else e0 - 1

/-- Nearest multiple of the spacing of the `double`s around the positive rational `q`:
`2 ^ (e - 52)` in the binade `e` of `q`, and `2 ^ (-1074)` below `2 ^ (-1022)`. -/
def round64 (q : ℚ) : ℚ :=
  let quantum := pow2 (max (binade q) (-1022) - 52)
  (roundEven (q / quantum) : ℚ) * quantum

/-- Nearest value to the rational `q` in the format of `double` with the exponent range
unbounded above. -/
def round_real (q : ℚ) : ℚ :=
  if q = 0 then 0 else if 0 < q then round64 q else -round64 (-q)

/-- The `double` nearest to the real result `q` of an operation; a result that rounds to
`2 ^ 1024` or more in magnitude is not finite. -/
@[irreducible]
def round_double (q : ℚ) : M ℚ :=
  if |round_real q| < pow2 1024 then .ok (round_real q) else .error Fault.fpOverflow

/-- Integer square root of `n < 4 ^ b`, bit by bit from bit `b - 1` down. -/
def isqrtAux (n : Nat) : Nat → Nat → Nat
  | 0, acc => acc
  | b + 1, acc =>
    if (acc + 2 ^ b) * (acc + 2 ^ b) ≤ n then isqrtAux n b (acc + 2 ^ b) else isqrtAux n b acc

/-- The `double` nearest to the square root of the non-negative `double` `q`. -/
def sqrt64 (q : ℚ) : ℚ :=
  if q ≤ 0 then 0
  else
    let k : Int := binade q / 2 - 52
    let Q : ℚ := q / (pow2 k * pow2 k)
    let m : Nat := isqrtAux (Q.num / (Q.den : Int)).toNat 60 0
    if Q < ((m : ℚ) + 1 / 2) * ((m : ℚ) + 1 / 2) then (m : ℚ) * pow2 k
    else ((m : ℚ) + 1) * pow2 k

/-- Operation `a + b` on `double`. -/
def dadd (a b : ℚ) : M ℚ := round_double (a + b)

/-- Operation `a - b` on `double`. -/
def dsub (a b : ℚ) : M ℚ := round_double (a - b)

/-- Operation `a * b` on `double`. -/
def dmul (a b : ℚ) : M ℚ := round_double (a * b)

/-- Operation `a / b` on `double`; a zero divisor is a fault. -/
def ddiv (a b : ℚ) : M ℚ :=
  if b = 0 then .error Fault.fpDivZero else round_double (a / b)

/-- Call `sqrt(a)` on `double`; a negative argument is a fault. -/
def dsqrt (a : ℚ) : M ℚ :=
  if a < 0 then .error Fault.fpDomain else .ok (sqrt64 a)

/-- The loops `for (i = 0; i < SIZE; i++) acc += g(sample[i])` of `t_test`, on `double`. -/
def accumulate_double (g : ℚ → M ℚ) (sample : List ℚ) : Nat → Nat → ℚ → M ℚ
  | 0, _, acc => .ok acc
  | k + 1, i, acc =>
    match readAt sample i with
    | .ok v =>
      match g v with
      | .ok w =>
        match dadd acc w with
        | .ok acc1 => accumulate_double g sample k (i + 1) acc1
        | .error e => .error e
      | .error e => .error e
    | .error e => .error e

/-- Function `t_test`, every operation carried out on `double`. -/
def t_test_double (sample1 : List ℚ) (SIZE1 : Nat) (sample2 : List ℚ) (SIZE2 : Nat) :
    M ℚ := do
  let df : Int := (SIZE1 : Int) - 1 + (SIZE2 : Int) - 1
  let sum_1 ← accumulate_double (fun v => .ok v) sample1 SIZE1 0 0
  let sum_2 ← accumulate_double (fun v => .ok v) sample2 SIZE2 0 0
  let n1 ← round_double (SIZE1 : ℚ)
  let n2 ← round_double (SIZE2 : ℚ)
  let mean_1 ← ddiv sum_1 n1
  let mean_2 ← ddiv sum_2 n2
  let SS_1 ← accumulate_double (fun v => dsub v mean_1 >>= fun d => dmul d d) sample1 SIZE1 0 0
  let SS_2 ← accumulate_double (fun v => dsub v mean_2 >>= fun d => dmul d d) sample2 SIZE2 0 0
  let ss ← dadd SS_1 SS_2
  let dfd ← round_double (df : ℚ)
  let q ← ddiv ss dfd
  let w1 ← ddiv 1 n1
  let w2 ← ddiv 1 n2
  let w ← dadd w1 w2
  let SS_1_2 ← dmul q w
  let S_1_2 ← dsqrt SS_1_2
  if S_1_2 = 0 then .ok 0 else dsub mean_1 mean_2 >>= fun d => ddiv d S_1_2

/-- Function `randval` on `double`:
`(double(rand())/RAND_MAX) * (high-low) + low`, every operation rounded. -/
def randval_double (cfg : Config) (low high : ℚ) (s : State) : M (ℚ × State) := do
  let (v, s1) ← rand s
  let a ← round_double (v : ℚ)
  let m ← round_double (cfg.RAND_MAX : ℚ)
  let q ← ddiv a m
  let d ← dsub high low
  let p ← dmul q d
  let r ← dadd p low
  pure (r, s1)

/-- Body of the inner loop of `Initialize`, with `randval` on `double`. -/
def Initialize_gene_double (cfg : Config) (i j : Nat) (s : State) : M State :=
  match randval_double cfg cfg.lbound cfg.ubound s with
  | .ok (v, s1) =>
    match setGene s1.pop i j v with
    | .ok p => .ok { s1 with pop := p }
    | .error e => .error e
  | .error e => .error e

/-- Function `Initialize`, with `randval` on `double`. -/
def Initialize_double (cfg : Config) (s : State) : M State :=
  match forLoop (fun i => forLoop (Initialize_gene_double cfg i) cfg.DIMS 0) cfg.POPSIZE 0
      { s with fes := 0 } with
  | .ok s1 => .ok { s1 with gbestval := (10 : ℚ) ^ 300 }
  | .error e => .error e

/-! ## Shapes, bounds and library contracts -/

/-- The arrays of the state have their declared sizes: `pop[POPSIZE]`,
`newpop[POPSIZE]`, `x[DIMS]` and `t_Val[DIMS]`. -/
def State.WF (cfg : Config) (s : State) : Prop :=
  s.pop.length = cfg.POPSIZE ∧ (∀ ind ∈ s.pop, ind.x.length = cfg.DIMS) ∧
  s.newpop.length = cfg.POPSIZE ∧ (∀ ind ∈ s.newpop, ind.x.length = cfg.DIMS) ∧
  s.t_Val.length = cfg.DIMS

/-- Every gene of every individual of `p` lies in `[lbound, ubound]`. -/
def GenesIn (cfg : Config) (p : List Individual) : Prop :=
  ∀ ind ∈ p, ∀ g ∈ ind.x, cfg.lbound ≤ g ∧ g ≤ cfg.ubound

/-- Every value that `rand()` will return lies in `[0, RAND_MAX]`. -/
def RandOK (cfg : Config) (s : State) : Prop :=
  ∀ v ∈ s.rng, v ≤ cfg.RAND_MAX

/-- Invariant of a trial: the arrays have their declared sizes, the values of `rand()`
lie in `[0, RAND_MAX]`, and every gene of `pop` lies in `[lbound, ubound]`. -/
def TrialInv (cfg : Config) (s : State) : Prop :=
  s.WF cfg ∧ RandOK cfg s ∧ GenesIn cfg s.pop

/-- Contract of the library routine `qsort`: for a comparator whose relation
`c a b ≤ 0` is total and transitive, the result is a rearrangement of the array
in which `c a b ≤ 0` holds for every `a` placed before `b`. -/
def QsortSpec (qsort : (Individual → Individual → Int) → List Individual → List Individual) :
    Prop :=
  ∀ (c : Individual → Individual → Int) (l : List Individual),
    (∀ a b, c a b ≤ 0 ∨ c b a ≤ 0) →
    (∀ a b d, c a b ≤ 0 → c b d ≤ 0 → c a d ≤ 0) →
    (qsort c l).Perm l ∧ (qsort c l).Pairwise (fun a b => c a b ≤ 0)

/-- Outcome of `Motivation` for individual `i`, between the state `s` before the call
and the state `t` after it: `newpop[i]` holds the offspring with its evaluated fitness,
and `pop[i]` is that offspring if its fitness is `≤` the fitness of the parent, the
unchanged parent otherwise. -/
def Replaced (cfg : Config) (s t : State) (i : Nat) : Prop :=
  ∃ parent child0, readAt s.pop i = .ok parent ∧ readAt s.newpop i = .ok child0 ∧
    readAt t.newpop i =
      .ok { child0 with fit := cfg.function_name child0.x cfg.DIMS } ∧
    (cfg.function_name child0.x cfg.DIMS ≤ parent.fit →
      readAt t.pop i = .ok { child0 with fit := cfg.function_name child0.x cfg.DIMS }) ∧
    (¬ cfg.function_name child0.x cfg.DIMS ≤ parent.fit → readAt t.pop i = .ok parent) ∧
    ∃ after, readAt t.pop i = .ok after ∧ after.fit ≤ parent.fit

/-- After `Attention`, `t_Val[j]` is the result of `t_test` on the local arrays `s1`
(the values of the first `SN1` individuals of `pop` on dimension `j`) and `s2` (the
values of the following `SN2` individuals). -/
def StatisticAt (cfg : Config) (t : State) (j : Nat) : Prop :=
  ∃ (s1 s2 : List ℚ) (tv : ℚ),
    (s1.length = cfg.SN1 ∧ ∀ i, i < cfg.SN1 → readAt s1 i = gene t.pop i j) ∧
    (s2.length = cfg.SN2 ∧ ∀ i, i < cfg.SN2 → readAt s2 i = gene t.pop (cfg.SN1 + i) j) ∧
    t_test cfg.sqrt s1 cfg.SN1 s2 cfg.SN2 = .ok tv ∧ readAt t.t_Val j = .ok tv

/-- What `Reproduction_and_Reinforcement` leaves alone between the state `s` before and
the state `t` after: `pop`, `fes`, `gbestval`, `gbestind`, `t_Val`, `AT`, `mAT`, and the
sizes and fitness fields of `newpop`; the values of `rand()` left are a final part of
those of `s`. -/
def ReproductionFrame (s t : State) : Prop :=
  t.pop = s.pop ∧ t.fes = s.fes ∧ t.gbestval = s.gbestval ∧ t.gbestind = s.gbestind ∧
  t.t_Val = s.t_Val ∧ t.AT = s.AT ∧ t.mAT = s.mAT ∧ t.rng <:+ s.rng ∧
  t.newpop.map (fun ind => (ind.x.length, ind.fit)) =
    s.newpop.map (fun ind => (ind.x.length, ind.fit))

/-- What the loops of `Initialize` leave alone between the state `s` before and the
state `t` after: `newpop`, `fes`, `gbestval`, `gbestind`, `t_Val`, `AT`, `mAT`, and the
sizes and fitness fields of `pop`; the values of `rand()` left are a final part of those
of `s`. -/
def InitializeFrame (s t : State) : Prop :=
  t.newpop = s.newpop ∧ t.fes = s.fes ∧ t.gbestval = s.gbestval ∧ t.gbestind = s.gbestind ∧
  t.t_Val = s.t_Val ∧ t.AT = s.AT ∧ t.mAT = s.mAT ∧ t.rng <:+ s.rng ∧
  t.pop.map (fun ind => (ind.x.length, ind.fit)) =
    s.pop.map (fun ind => (ind.x.length, ind.fit))

/-- The genes `np[a].x[b]` visited by the nested loops before they reach `(i, j)` are
present and lie in `[lbound, ubound]`. -/
def GenesDone (cfg : Config) (np : List Individual) (i j : Nat) : Prop :=
  ∀ a b, (a < i ∧ b < cfg.DIMS) ∨ (a = i ∧ b < j) →
    ∃ v, gene np a b = .ok v ∧ cfg.lbound ≤ v ∧ v ≤ cfg.ubound

/-- A configuration in which no operator can fault except by using up the values of
`rand()`: at least one dimension, `1 ≤ SN1 < POPSIZE`, at least three individuals (so
that `df = POPSIZE - 2 ≥ 1`) and `RAND_MAX ≥ 1`. -/
def Config.Valid (cfg : Config) : Prop :=
  1 ≤ cfg.DIMS ∧ 1 ≤ cfg.SN1 ∧ cfg.SN1 < cfg.POPSIZE ∧ 3 ≤ cfg.POPSIZE ∧ cfg.RAND_MAX ≠ 0

/-- The computation returns, or it stops because the values of `rand()` are used up. -/
def OkOrStarved {α : Type} (r : M α) : Prop :=
  (∃ a, r = .ok a) ∨ r = .error Fault.randExhausted

/-- The gene computation for individual `i` and dimension `j` took one of the two
reinforcement branches: after the draws of `r`, `r1` and `nd = k0 / RAND_MAX` no further
value of `rand()` was used, and the value is `pop[r].x[j] + nd * delta` or
`pop[r].x[j] - nd * delta` with `delta = |pop[r].x[j] - pop[i].x[j]|`. -/
def Reinforced (cfg : Config) (i j : Nat) (u : State) (v : ℚ) (u' : State) : Prop :=
  ∃ (r r1 k0 : Nat) (l1 l2 : List Nat) (xr xi : ℚ),
    draw_other cfg.SN1 i u.rng = .ok (r, l1) ∧
    draw_other cfg.POPSIZE i l1 = .ok (r1, k0 :: l2) ∧
    gene u.pop r j = .ok xr ∧ gene u.pop i j = .ok xi ∧ u' = { u with rng := l2 } ∧
    (v = xr + (k0 : ℚ) / (cfg.RAND_MAX : ℚ) * |xr - xi| ∨
      v = xr - (k0 : ℚ) / (cfg.RAND_MAX : ℚ) * |xr - xi|)

/-- The value `g` is the minimum of the fitness values of the population `p`: no
individual has a lower fitness and some individual has exactly this fitness. -/
def IsPopMin (p : List Individual) (g : ℚ) : Prop :=
  (∀ ind ∈ p, g ≤ ind.fit) ∧ ∃ ind ∈ p, ind.fit = g

instance (p : List Individual) (g : ℚ) : Decidable (IsPopMin p g) := by
  unfold IsPopMin
  infer_instance

/-- The gene `np[i].x[j]` holds the value that the gene computation for `(i, j)` produced
in some state `u` reached from `s` by `Reproduction_and_Reinforcement`, after boundary
control. -/
def Written (cfg : Config) (s : State) (i j : Nat) (g : M ℚ) : Prop :=
  ∃ (u : State) (v : ℚ) (u1 : State), ReproductionFrame s u ∧
    reproduce cfg i j u = .ok (v, u1) ∧
    g = .ok (boundary_control cfg.lbound cfg.ubound v)

/-- State `t` of the loop of `Evaluate`, started in `s`, before iteration `n`: the
individuals below `n` carry their objective value, `gbestval` is not above any of these
values, and either the global best is still that of `s`, or `gbestval` is below that of
`s`, `gbestind < n` holds it, and every individual before `gbestind` is strictly
worse. -/
def EvaluatedTo (cfg : Config) (s t : State) (n : Nat) : Prop :=
  (∀ i, i < n →
    ∃ ind, readAt t.pop i = .ok ind ∧ ind.fit = cfg.function_name ind.x cfg.DIMS) ∧
  (∀ i ind, i < n → readAt t.pop i = .ok ind → t.gbestval ≤ ind.fit) ∧
  ((t.gbestval = s.gbestval ∧ t.gbestind = s.gbestind) ∨
    (t.gbestval < s.gbestval ∧ t.gbestind < n ∧
      (∃ ind, readAt t.pop t.gbestind = .ok ind ∧ ind.fit = t.gbestval) ∧
      ∀ i ind, i < t.gbestind → readAt t.pop i = .ok ind → t.gbestval < ind.fit))

/-- The library routine `qsort` returns a rearrangement of the array it is given, whatever
the order in which the comparator `cmp` leaves it. -/
def QsortPermutes
    (qsort : (Individual → Individual → Int) → List Individual → List Individual) : Prop :=
  ∀ l : List Individual, (qsort cmp l).Perm l

/-- The results of the comparator `c` on the array `l` are consistent with one another and
define a total ordering of the array (ISO C, `qsort`): for two elements at different
positions the two orders of comparison give opposite signs or both give `0`, and the
relation `c a b ≤ 0` is transitive on the elements. -/
def Consistent (c : Individual → Individual → Int) (l : List Individual) : Prop :=
  l.Pairwise (fun a b =>
    (c a b < 0 ∧ 0 < c b a) ∨ (0 < c a b ∧ c b a < 0) ∨ (c a b = 0 ∧ c b a = 0)) ∧
  ∀ a ∈ l, ∀ b ∈ l, ∀ d ∈ l, c a b ≤ 0 → c b d ≤ 0 → c a d ≤ 0

instance (c : Individual → Individual → Int) (l : List Individual) :
    Decidable (Consistent c l) := by
  unfold Consistent
  infer_instance

/-- No two consecutive values of the sequence `l` of `rand()` values are congruent modulo
`SN1` or modulo `POPSIZE`. -/
def Spread (cfg : Config) (l : List Nat) : Prop :=
  l.Chain' (fun a b => a % cfg.SN1 ≠ b % cfg.SN1 ∧ a % cfg.POPSIZE ≠ b % cfg.POPSIZE)

/-- The computation `r`, started with the values `l` of `rand()` at hand, returns a result
with the property `P` and leaves a final part of `l` that is at most `k` values shorter, or
it stops for lack of values, and then fewer than `k` were at hand. -/
def Fed {α : Type} (rest : α → List Nat) (P : α → Prop) (k : Nat) (l : List Nat)
    (r : M α) : Prop :=
  (∃ a, r = .ok a ∧ P a ∧ rest a <:+ l ∧ l.length ≤ (rest a).length + k) ∨
    (r = .error Fault.randExhausted ∧ l.length < k)

/-- Value held by an `int` (32 bits, two's complement) after an arithmetic result `z`. -/
def int_wrap (z : Int) : Int := (z + 2147483648) % 4294967296 - 2147483648

/-! ## Two executions of a trial -/

/-- The second computation returns whenever the first does, with results related by `R`. -/
def OkSim {α : Type} (R : α → α → Prop) (r1 r2 : M α) : Prop :=
  ∀ a, r1 = .ok a → ∃ b, r2 = .ok b ∧ R a b

/-- The array `p` has its declared sizes: `POPSIZE` individuals of `DIMS` genes. -/
def Shaped (cfg : Config) (p : List Individual) : Prop :=
  p.length = cfg.POPSIZE ∧ ∀ ind ∈ p, ind.x.length = cfg.DIMS

/-- The genes of `p` and `q` visited by the nested loops before they reach `(i, j)`
agree. -/
def CellsAgree (d : Nat) (p q : List Individual) (i j : Nat) : Prop :=
  ∀ a b, (a < i ∧ b < d) ∨ (a = i ∧ b < j) → gene p a b = gene q a b

/-- Two states of two executions of a trial agree on everything that the rest of the
trial reads: `pop`, `fes`, `gbestval` and the values of `rand()` left; `newpop` and `t_Val`
have their declared sizes in both. -/
def SameTrial (cfg : Config) (a b : State) : Prop :=
  a.pop = b.pop ∧ a.fes = b.fes ∧ a.gbestval = b.gbestval ∧ a.rng = b.rng ∧
  a.t_Val.length = b.t_Val.length ∧ Shaped cfg a.newpop ∧ Shaped cfg b.newpop

/-- Two states agree as `SameTrial` and moreover on what `Attention` computes: the
entries of `t_Val` below `DIMS`, `AT` and `mAT`. -/
def SameAttended (cfg : Config) (a b : State) : Prop :=
  SameTrial cfg a b ∧ (∀ j, j < cfg.DIMS → readAt a.t_Val j = readAt b.t_Val j) ∧
  a.AT = b.AT ∧ a.mAT = b.mAT

/-- What is observed of a state of a trial: `gbestval`, the population with its fitness
values, and `fes`. -/
def observed (t : State) : ℚ × List Individual × Int := (t.gbestval, t.pop, t.fes)

/-! ## The pooled two-sample statistic, as the specification words it -/

/-- Arithmetic mean of a sample. -/
def sample_mean (l : List ℚ) : ℚ := l.sum / (l.length : ℚ)

/-- Sum of the squared deviations of a sample from its mean. -/
def sample_SS (l : List ℚ) : ℚ := (l.map (fun v => (v - sample_mean l) ^ 2)).sum

/-- The pooled term `sqrt(((SS1+SS2)/df) * (1/SIZE1 + 1/SIZE2))` with
`df = SIZE1 + SIZE2 - 2`. -/
def pooled_S (sqrt : ℚ → ℚ) (s1 s2 : List ℚ) : ℚ :=
  sqrt (((sample_SS s1 + sample_SS s2) / ((s1.length : ℚ) + (s2.length : ℚ) - 2)) *
    (1 / (s1.length : ℚ) + 1 / (s2.length : ℚ)))

/-! ## Concrete instances for the runs shown below -/

/-- Insertion of one element by the comparator. -/
def qsort_insert (c : Individual → Individual → Int) (a : Individual) :
    List Individual → List Individual
  | [] => [a]
  | b :: l => if c a b ≤ 0 then a :: b :: l else b :: qsort_insert c a l

/-- A comparison sort driven by the comparator only, used as `qsort` in concrete runs. -/
def qsort_ref (c : Individual → Individual → Int) (l : List Individual) : List Individual :=
  l.foldr (qsort_insert c) []

/-- Sum of squares, used as objective function in concrete runs. -/
def sphere (pos : List ℚ) (dim : Nat) : ℚ :=
  ((pos.take dim).map (fun v => v * v)).sum

/-- Heron's iteration `x ↦ (x + a / x) / 2` for the square root of `a`. -/
def heron (a : ℚ) : Nat → ℚ → ℚ
  | 0, x => x
  | k + 1, x => heron a k ((x + a / x) / 2)

/-- A rational stand-in for `sqrt`, used in concrete runs: `0` at `0`, and three steps
of Heron's iteration from `(1 + a) / 2` on the positive numbers. -/
def sqrt_ref (a : ℚ) : ℚ := if a ≤ 0 then 0 else heron a 3 ((1 + a) / 2)

/-- A small configuration for concrete runs: three individuals, two of them models, one
dimension, one generation; the probabilities and the bounds are those of the source. -/
def demo : Config :=
  { POPSIZE := 3, FES := 6, DIMS := 1, p_i := 7 / 10, p_r := 2 / 10, SN1 := 2,
    RAND_MAX := 32767, lbound := -100, ubound := 100,
    function_name := sphere, sqrt := sqrt_ref, qsort := qsort_ref }

/-- The configuration `demo` with the probability of imitation forced to `1`. -/
def demo_pi1 : Config := { demo with p_i := 1 }

/-- The configuration `demo` with a single model member (`SN1 = POPSIZE / 2 = 1`). -/
def demo_sn1 : Config := { demo with SN1 := 1 }

/-- The globals as the C runtime zero-initializes them for `demo`, with a sequence of
values for `rand()`. -/
def demo_start (rng : List Nat) : State :=
  { pop := List.replicate 3 { x := [0], fit := 0 },
    newpop := List.replicate 3 { x := [0], fit := 0 },
    fes := 0, gbestval := 0, gbestind := 0, t_Val := [0], AT := 0, mAT := 0, rng := rng }

/-- A state of `demo` in the middle of a trial, in which dimension `0` is explored
(`mAT < t_Val[0] < AT`), with a sequence of values for `rand()`. -/
def demo_mid (rng : List Nat) : State :=
  { pop := [{ x := [1], fit := 1 }, { x := [2], fit := 4 }, { x := [3], fit := 9 }],
    newpop := List.replicate 3 { x := [0], fit := 0 },
    fes := 3, gbestval := 1, gbestind := 0, t_Val := [0], AT := 1, mAT := -1, rng := rng }

/-- A state of `demo` between `Reproduction_and_Reinforcement` and `Motivation`. -/
def demo_children : State :=
  { demo_mid [] with
    newpop := [{ x := [2], fit := 0 }, { x := [1], fit := 0 }, { x := [3], fit := 0 }] }

/-- The state that `Motivation` reaches from `demo_children`. -/
def demo_survivors : State :=
  { demo_mid [] with
    pop := [{ x := [1], fit := 1 }, { x := [1], fit := 1 }, { x := [3], fit := 9 }],
    newpop := [{ x := [2], fit := 4 }, { x := [1], fit := 1 }, { x := [3], fit := 9 }],
    fes := 6, gbestind := 1 }

/-- A state of `demo` whose population is not sorted and holds two individuals of equal
fitness. -/
def demo_tied : State :=
  { demo_mid [0, 7] with
    pop := [{ x := [3], fit := 9 }, { x := [1], fit := 1 }, { x := [-1], fit := 1 }] }

/-- The state that `Attention` reaches from `demo_tied`. -/
def demo_attended : State :=
  match Attention demo demo_tied with
  | .ok t => t
  | .error _ => demo_tied

/-- A sequence of values of `rand()` for one trial of `demo`. -/
def demo_rng : List Nat :=
  [0, 32767, 16384, 7, 1, 1, 100, 4000, 3, 4, 5, 6, 7, 8, 9, 10, 11, 12, 13, 14, 15, 16]

/-- The states observed in the trial of `demo` on `demo_rng`. -/
def demo_trace : List State :=
  match Process_trace demo 1 (demo_start demo_rng) with
  | some (.ok tr) => tr
  | _ => []

/-- The state of the trial of `demo_sn1` on `demo_rng` after `Initialize`, `Evaluate` and
the `Attention` of the first generation. -/
def demo_sn1_attended : State :=
  match Initialize demo_sn1 (demo_start demo_rng) >>= Evaluate demo_sn1 >>=
      Attention demo_sn1 with
  | .ok t => t
  | .error _ => demo_start []

/-- The state that one generation of `demo` reaches from `demo_mid demo_rng`. -/
def demo_next : State :=
  match generation demo (demo_mid demo_rng) with
  | .ok t => t
  | .error _ => demo_mid []

/-- The state that `Reproduction_and_Reinforcement` reaches from `demo_mid demo_rng`. -/
def demo_offspring : State :=
  match Reproduction_and_Reinforcement demo (demo_mid demo_rng) with
  | .ok t => t
  | .error _ => demo_mid []

/-- The configuration `demo` with an objective function that is `10 ^ 301` everywhere. -/
def demo_huge : Config := { demo with function_name := fun _ _ => (10 : ℚ) ^ 301 }

/-- The state of `demo_huge` after `Initialize` and `Evaluate` on `demo_rng`. -/
def demo_huge_evaluated : State :=
  match Initialize demo_huge (demo_start demo_rng) >>= Evaluate demo_huge with
  | .ok t => t
  | .error _ => demo_start []

/-- The state in which the trial of `demo` on `demo_rng` returns. -/
def demo_final : State :=
  match Process demo 1 (demo_start demo_rng) with
  | some (.ok t) => t
  | _ => demo_start []

/-- The configuration `demo` with the bounds exchanged (`lbound = 100 > ubound = -100`). -/
def demo_reversed : Config := { demo with lbound := 100, ubound := -100 }

/-- The states observed in the trial of `demo_reversed` on `demo_rng`. -/
def demo_reversed_trace : List State :=
  match Process_trace demo_reversed 1 (demo_start demo_rng) with
  | some (.ok tr) => tr
  | _ => []

/-- The configuration `demo` with no dimension (`DIMS = 0`). -/
def demo_flat : Config := { demo with DIMS := 0 }

/-- The state of `demo_flat` after `Initialize` and `Evaluate` on `demo_rng`. -/
def demo_flat_evaluated : State :=
  match Initialize demo_flat (demo_start demo_rng) >>= Evaluate demo_flat with
  | .ok t => t
  | .error _ => demo_start []

/-- Globals of `demo` as an earlier trial left them, with the sequence `demo_rng` of values
for `rand()`. -/
def demo_leftover : State := { demo_survivors with rng := demo_rng }

/-- The state `demo_mid` with the statistic of dimension `0` set to `t`. -/
def demo_stat (t : ℚ) (rng : List Nat) : State := { demo_mid rng with t_Val := [t] }

/-- The `double` nearest to `0.1`. -/
def double_0_1 : ℚ := 3602879701896397 / 36028797018963968

/-- The `double` nearest to `0.2`. -/
def double_0_2 : ℚ := 3602879701896397 / 18014398509481984

/-- The configuration `demo` with the bounds `lbound = -2`, `ubound = 0.1`. -/
def demo_narrow : Config := { demo with lbound := -2, ubound := double_0_1 }

/-- The state that `Initialize` on `double` reaches in `demo_narrow` when `rand()` returns
`RAND_MAX`, `0` and `16384`. -/
def demo_narrow_initialized : State :=
  match Initialize_double demo_narrow (demo_start [32767, 0, 16384]) with
  | .ok t => t
  | .error _ => demo_start []

/-- The shipped population sizes with the largest budget that an `int` can hold:
`POPSIZE = 30`, `SN1 = 15`, `FES = INT_MAX`. -/
def demo_maxbudget : Config := { demo with POPSIZE := 30, SN1 := 15, FES := 2147483647 }

/-- The globals as the C runtime zero-initializes them for `demo_maxbudget`, with a
sequence of values for `rand()`. -/
def demo_maxbudget_start (rng : List Nat) : State :=
  { pop := List.replicate 30 { x := [0], fit := 0 },
    newpop := List.replicate 30 { x := [0], fit := 0 },
    fes := 0, gbestval := 0, gbestind := 0, t_Val := [0], AT := 0, mAT := 0, rng := rng }

/-! # Theorems -/

/-! ## Arrays -/

theorem readAt_eq_ok {α : Type} (a : List α) (i : Nat) (v : α) :
    readAt a i = .ok v ↔ a[i]? = some v := by
  unfold readAt
  cases h : a[i]? <;> simp

theorem readAt_lt {α : Type} {a : List α} {i : Nat} {v : α} (h : readAt a i = .ok v) :
    i < a.length := by
  rw [readAt_eq_ok] at h
  exact (List.getElem?_eq_some.mp h).1

theorem readAt_mem {α : Type} {a : List α} {i : Nat} {v : α} (h : readAt a i = .ok v) :
    v ∈ a := by
  rw [readAt_eq_ok] at h
  obtain ⟨hi, rfl⟩ := List.getElem?_eq_some.mp h
  exact List.getElem_mem hi

theorem readAt_of_lt {α : Type} {a : List α} {i : Nat} (h : i < a.length) :
    ∃ v, readAt a i = .ok v := by
  refine ⟨a[i], ?_⟩
  rw [readAt_eq_ok]
  exact List.getElem?_eq_getElem h

theorem writeAt_eq_ok {α : Type} (a : List α) (i : Nat) (v : α) (a' : List α) :
    writeAt a i v = .ok a' ↔ i < a.length ∧ a' = a.set i v := by
  unfold writeAt
  split <;> simp [*, eq_comm]

theorem readAt_set_self {α : Type} {a : List α} {i : Nat} (v : α) (h : i < a.length) :
    readAt (a.set i v) i = .ok v := by
  rw [readAt_eq_ok]
  simp [h]

theorem readAt_set_ne {α : Type} (a : List α) {i k : Nat} (v : α) (h : i ≠ k) :
    readAt (a.set i v) k = readAt a k := by
  unfold readAt
  rw [List.getElem?_set_ne h]

theorem gene_eq_ok (p : List Individual) (i j : Nat) (v : ℚ) :
    gene p i j = .ok v ↔ ∃ ind, readAt p i = .ok ind ∧ readAt ind.x j = .ok v := by
  unfold gene
  cases h : readAt p i <;> simp

theorem setGene_eq_ok (p : List Individual) (i j : Nat) (v : ℚ) (p' : List Individual) :
    setGene p i j v = .ok p' ↔
      ∃ ind, readAt p i = .ok ind ∧ j < ind.x.length ∧
        p' = p.set i { ind with x := ind.x.set j v } := by
  unfold setGene
  cases h : readAt p i with
  | error e => simp
  | ok ind =>
    have hi := readAt_lt h
    cases hw : writeAt ind.x j v with
    | error e =>
      have : ¬ j < ind.x.length := by
        intro hj
        simp [writeAt, hj] at hw
      simp [hw, this]
    | ok xs =>
      simp only [hw]
      rw [writeAt_eq_ok] at hw
      obtain ⟨hj, rfl⟩ := hw
      simp [writeAt_eq_ok, hi, hj]

theorem setFit_eq_ok (p : List Individual) (i : Nat) (v : ℚ) (p' : List Individual) :
    setFit p i v = .ok p' ↔
      ∃ ind, readAt p i = .ok ind ∧ p' = p.set i { ind with fit := v } := by
  unfold setFit
  cases h : readAt p i with
  | error e => simp
  | ok ind =>
    have hi := readAt_lt h
    simp [writeAt_eq_ok, hi]

/-! ## Loops -/

theorem forLoop_inv {σ : Type} (body : Nat → σ → M σ) (P : Nat → σ → Prop) :
    ∀ (k i : Nat) (s s' : σ), P i s →
      (∀ n t t', i ≤ n → n < i + k → P n t → body n t = .ok t' → P (n + 1) t') →
      forLoop body k i s = .ok s' → P (i + k) s' := by
  intro k
  induction k with
  | zero =>
    intro i s s' h0 _ h
    simp [forLoop] at h
    subst h
    simpa using h0
  | succ k ih =>
    intro i s s' h0 hstep h
    unfold forLoop at h
    cases hb : body i s with
    | error e => simp [hb] at h
    | ok s1 =>
      simp only [hb] at h
      have h1 : P (i + 1) s1 := hstep i s s1 (le_refl _) (by omega) h0 hb
      have := ih (i + 1) s1 s' h1
        (fun n t t' hn hn' => hstep n t t' (by omega) (by omega)) h
      have e : i + 1 + k = i + (k + 1) := by omega
      rwa [e] at this

theorem forLoop_total {σ : Type} (body : Nat → σ → M σ) (P : Nat → σ → Prop) :
    ∀ (k i : Nat) (s : σ), P i s →
      (∀ n t, i ≤ n → n < i + k → P n t → ∃ t', body n t = .ok t' ∧ P (n + 1) t') →
      ∃ s', forLoop body k i s = .ok s' := by
  intro k
  induction k with
  | zero =>
    intro i s _ _
    exact ⟨s, rfl⟩
  | succ k ih =>
    intro i s h0 hstep
    obtain ⟨s1, hb, h1⟩ := hstep i s (le_refl _) (by omega) h0
    obtain ⟨s', hs'⟩ := ih (i + 1) s1 h1
      (fun n t hn hn' => hstep n t (by omega) (by omega))
    exact ⟨s', by simp [forLoop, hb, hs']⟩

/-! ## Random values -/

theorem rand_eq_ok (s : State) (v : Nat) (s' : State) :
    rand s = .ok (v, s') ↔ ∃ rest, s.rng = v :: rest ∧ s' = { s with rng := rest } := by
  unfold rand
  cases h : s.rng with
  | nil => simp
  | cons a rest =>
    simp only [Except.ok.injEq, Prod.mk.injEq, List.cons.injEq]
    constructor
    · rintro ⟨rfl, rfl⟩
      exact ⟨rest, ⟨rfl, rfl⟩, rfl⟩
    · rintro ⟨rest', ⟨rfl, rfl⟩, rfl⟩
      exact ⟨rfl, rfl⟩

theorem randval_eq_ok (cfg : Config) (low high : ℚ) (s : State) (v : ℚ) (s' : State) :
    randval cfg low high s = .ok (v, s') ↔
      ∃ k rest, s.rng = k :: rest ∧ cfg.RAND_MAX ≠ 0 ∧
        v = (k : ℚ) / (cfg.RAND_MAX : ℚ) * (high - low) + low ∧
        s' = { s with rng := rest } := by
  unfold randval rand fdiv
  cases h : s.rng with
  | nil => simp
  | cons a rest =>
    by_cases hR : cfg.RAND_MAX = 0
    · simp [hR]
    · simp only [Nat.cast_eq_zero, hR, if_false, Except.ok.injEq, Prod.mk.injEq,
        List.cons.injEq, ne_eq, not_false_eq_true, true_and]
      constructor
      · rintro ⟨rfl, rfl⟩
        exact ⟨a, rest, ⟨rfl, rfl⟩, rfl, rfl⟩
      · rintro ⟨k, rest', ⟨rfl, rfl⟩, rfl, rfl⟩
        exact ⟨rfl, rfl⟩

theorem draw_other_spec (m i : Nat) :
    ∀ (l : List Nat) (r : Nat) (rest : List Nat), draw_other m i l = .ok (r, rest) →
      r < m ∧ r ≠ i ∧ ∃ used, l = used ++ rest := by
  intro l
  induction l with
  | nil => intro r rest h; simp [draw_other] at h
  | cons v l ih =>
    intro r rest h
    unfold draw_other at h
    by_cases hm : m = 0
    · simp [hm] at h
    · by_cases hv : v % m = i
      · simp only [hm, hv, if_true, if_false] at h
        obtain ⟨h1, h2, used, h3⟩ := ih r rest h
        exact ⟨h1, h2, v :: used, by simp [h3]⟩
      · simp only [hm, hv, if_false] at h
        simp at h
        obtain ⟨rfl, rfl⟩ := h
        exact ⟨Nat.mod_lt _ (Nat.pos_of_ne_zero hm), hv, [v], by simp⟩

theorem draw_excluding_eq_ok (m i : Nat) (s : State) (r : Nat) (s' : State) :
    draw_excluding m i s = .ok (r, s') ↔
      ∃ rest, draw_other m i s.rng = .ok (r, rest) ∧ s' = { s with rng := rest } := by
  unfold draw_excluding
  cases h : draw_other m i s.rng with
  | error e => simp
  | ok pr =>
    obtain ⟨a, b⟩ := pr
    simp only [Except.ok.injEq, Prod.mk.injEq]
    constructor
    · rintro ⟨rfl, rfl⟩
      exact ⟨b, ⟨rfl, rfl⟩, rfl⟩
    · rintro ⟨rest', ⟨rfl, rfl⟩, rfl⟩
      exact ⟨rfl, rfl⟩

/-! ## Student's t-test -/

theorem accumulate_eq (g : ℚ → ℚ) (l : List ℚ) :
    ∀ (k i : Nat) (acc : ℚ), i + k ≤ l.length →
      accumulate g l k i acc = .ok (acc + (((l.drop i).take k).map g).sum) := by
  intro k
  induction k with
  | zero => intro i acc _; simp [accumulate]
  | succ k ih =>
    intro i acc h
    have hi : i < l.length := by omega
    have hr : readAt l i = .ok l[i] := by
      rw [readAt_eq_ok]
      exact List.getElem?_eq_getElem hi
    unfold accumulate
    simp only [hr]
    rw [ih (i + 1) _ (by omega), List.drop_eq_getElem_cons hi, List.take_succ_cons,
      List.map_cons, List.sum_cons, add_assoc]

theorem accumulate_all (g : ℚ → ℚ) (l : List ℚ) :
    accumulate g l l.length 0 0 = .ok ((l.map g).sum) := by
  rw [accumulate_eq g l l.length 0 0 (by omega)]
  simp

theorem sample_SS_nonneg (l : List ℚ) : 0 ≤ sample_SS l := by
  unfold sample_SS
  apply List.sum_nonneg
  intro x hx
  obtain ⟨v, _, rfl⟩ := List.mem_map.mp hx
  positivity

theorem pooled_arg_nonneg (s1 s2 : List ℚ)
    (hdf : 0 < (s1.length : Int) + (s2.length : Int) - 2) :
    0 ≤ ((sample_SS s1 + sample_SS s2) / ((s1.length : ℚ) + (s2.length : ℚ) - 2)) *
      (1 / (s1.length : ℚ) + 1 / (s2.length : ℚ)) := by
  have h1 := sample_SS_nonneg s1
  have h2 := sample_SS_nonneg s2
  have hd : (0 : ℚ) < (s1.length : ℚ) + (s2.length : ℚ) - 2 := by
    have : ((0 : Int) : ℚ) < (((s1.length : Int) + (s2.length : Int) - 2 : Int) : ℚ) := by
      exact_mod_cast hdf
    push_cast at this
    exact this
  have ha : (0 : ℚ) ≤ (s1.length : ℚ) := Nat.cast_nonneg _
  have hb : (0 : ℚ) ≤ (s2.length : ℚ) := Nat.cast_nonneg _
  positivity

theorem t_test_eq (sqrt : ℚ → ℚ) (s1 s2 : List ℚ) (h1 : 1 ≤ s1.length) (h2 : 1 ≤ s2.length)
    (hdf : 0 < (s1.length : Int) + (s2.length : Int) - 2) :
    t_test sqrt s1 s1.length s2 s2.length =
      .ok (if pooled_S sqrt s1 s2 = 0 then 0
        else (sample_mean s1 - sample_mean s2) / pooled_S sqrt s1 s2) := by
  have hn1 : (s1.length : ℚ) ≠ 0 := by
    have : 0 < s1.length := h1
    exact_mod_cast this.ne'
  have hn2 : (s2.length : ℚ) ≠ 0 := by
    have : 0 < s2.length := h2
    exact_mod_cast this.ne'
  have hdfq : (((s1.length : Int) - 1 + (s2.length : Int) - 1 : Int) : ℚ) =
      (s1.length : ℚ) + (s2.length : ℚ) - 2 := by
    push_cast
    ring
  have hdf0 : (s1.length : ℚ) + (s2.length : ℚ) - 2 ≠ 0 := by
    have : ((0 : Int) : ℚ) < (((s1.length : Int) + (s2.length : Int) - 2 : Int) : ℚ) := by
      exact_mod_cast hdf
    push_cast at this
    exact this.ne'
  have hss1 : ((s1.map (fun v => (v - sample_mean s1) * (v - sample_mean s1))).sum) =
      sample_SS s1 := by
    unfold sample_SS
    congr 1
    apply List.map_congr_left
    intro v _
    ring
  have hss2 : ((s2.map (fun v => (v - sample_mean s2) * (v - sample_mean s2))).sum) =
      sample_SS s2 := by
    unfold sample_SS
    congr 1
    apply List.map_congr_left
    intro v _
    ring
  have hnn := pooled_arg_nonneg s1 s2 hdf
  unfold t_test
  simp only [accumulate_all, bind, Except.bind, fdiv, hn1, hn2, if_false, List.map_id, id]
  rw [hdfq]
  simp only [hdf0, if_false]
  have hm1 : s1.sum / (s1.length : ℚ) = sample_mean s1 := rfl
  have hm2 : s2.sum / (s2.length : ℚ) = sample_mean s2 := rfl
  simp only [hm1, hm2, hss1, hss2, fsqrt, not_lt.mpr hnn, if_false]
  have hS : sqrt (((sample_SS s1 + sample_SS s2) / ((s1.length : ℚ) + (s2.length : ℚ) - 2)) *
      (1 / (s1.length : ℚ) + 1 / (s2.length : ℚ))) = pooled_S sqrt s1 s2 := rfl
  rw [hS]
  by_cases h0 : pooled_S sqrt s1 s2 = 0
  · simp [h0]
  · simp [h0]

theorem sample_constant (l : List ℚ) (a : ℚ) (h : ∀ v ∈ l, v = a) (hl : 1 ≤ l.length) :
    sample_mean l = a ∧ sample_SS l = 0 := by
  have hrep : l = List.replicate l.length a := List.eq_replicate_iff.mpr ⟨rfl, h⟩
  have hn : (l.length : ℚ) ≠ 0 := by
    have : 0 < l.length := hl
    exact_mod_cast this.ne'
  have hm : sample_mean l = a := by
    unfold sample_mean
    rw [hrep]
    simp only [List.sum_replicate, List.length_replicate, nsmul_eq_mul]
    field_simp
  refine ⟨hm, ?_⟩
  unfold sample_SS
  rw [hm]
  apply List.sum_eq_zero
  intro x hx
  obtain ⟨v, hv, rfl⟩ := List.mem_map.mp hx
  rw [h v hv]
  ring

theorem explore_spec (cfg : Config) (i j r1 : Nat) (s : State) (v : ℚ) (s' : State)
    (h : explore cfg i j r1 s = .ok (v, s')) :
    ∃ (k1 : Nat) (l1 : List Nat), s.rng = k1 :: l1 ∧ cfg.RAND_MAX ≠ 0 ∧
      ((k1 : ℚ) / (cfg.RAND_MAX : ℚ) < cfg.p_i →
        gene s.pop r1 j = .ok v ∧ s' = { s with rng := l1 }) ∧
      (¬ (k1 : ℚ) / (cfg.RAND_MAX : ℚ) < cfg.p_i →
        ∃ (k2 : Nat) (l2 : List Nat), l1 = k2 :: l2 ∧
          ((k2 : ℚ) / (cfg.RAND_MAX : ℚ) < cfg.p_r →
            ∃ (k3 : Nat) (l3 : List Nat), l2 = k3 :: l3 ∧
              v = (k3 : ℚ) / (cfg.RAND_MAX : ℚ) * (cfg.ubound - cfg.lbound) + cfg.lbound ∧
              s' = { s with rng := l3 }) ∧
          (¬ (k2 : ℚ) / (cfg.RAND_MAX : ℚ) < cfg.p_r →
            gene s.pop i j = .ok v ∧ s' = { s with rng := l2 })) := by
  unfold explore at h
  cases h1 : randval cfg 0 1 s with
  | error e => simp [h1] at h
  | ok p1 =>
    obtain ⟨u1, s1⟩ := p1
    simp only [h1] at h
    obtain ⟨k1, l1, hrng, hR, hu1, rfl⟩ := (randval_eq_ok cfg 0 1 s u1 s1).mp h1
    have hu1' : u1 = (k1 : ℚ) / (cfg.RAND_MAX : ℚ) := by rw [hu1]; ring
    subst hu1'
    refine ⟨k1, l1, hrng, hR, ?_, ?_⟩
    · intro hlt
      simp only [hlt, if_true] at h
      cases hg : gene s.pop r1 j with
      | error e => simp [hg] at h
      | ok w =>
        simp only [hg, Except.ok.injEq, Prod.mk.injEq] at h
        exact ⟨by rw [h.1], h.2.symm⟩
    · intro hlt
      simp only [hlt, if_false] at h
      cases h2 : randval cfg 0 1 { s with rng := l1 } with
      | error e => simp [h2] at h
      | ok p2 =>
        obtain ⟨u2, s2⟩ := p2
        simp only [h2] at h
        obtain ⟨k2, l2, hrng2, _, hu2, rfl⟩ := (randval_eq_ok cfg 0 1 _ u2 s2).mp h2
        have hu2' : u2 = (k2 : ℚ) / (cfg.RAND_MAX : ℚ) := by rw [hu2]; ring
        subst hu2'
        simp only at hrng2
        refine ⟨k2, l2, hrng2, ?_, ?_⟩
        · intro hlt2
          simp only [hlt2, if_true] at h
          obtain ⟨k3, l3, hrng3, _, hv, rfl⟩ := (randval_eq_ok cfg _ _ _ v s').mp h
          exact ⟨k3, l3, hrng3, hv, rfl⟩
        · intro hlt2
          simp only [hlt2, if_false] at h
          cases hg : gene s.pop i j with
          | error e => simp [hg] at h
          | ok w =>
            simp only [hg, Except.ok.injEq, Prod.mk.injEq] at h
            exact ⟨by rw [h.1], h.2.symm⟩

theorem reproduce_spec (cfg : Config) (i j : Nat) (s : State) (v : ℚ) (s' : State)
    (h : reproduce cfg i j s = .ok (v, s')) :
    ∃ (r r1 k0 : Nat) (l1 l2 : List Nat) (xr xi t : ℚ),
      draw_other cfg.SN1 i s.rng = .ok (r, l1) ∧
      draw_other cfg.POPSIZE i l1 = .ok (r1, k0 :: l2) ∧
      r < cfg.SN1 ∧ r ≠ i ∧ r1 < cfg.POPSIZE ∧ r1 ≠ i ∧ cfg.RAND_MAX ≠ 0 ∧
      (k0 ≤ cfg.RAND_MAX →
        0 ≤ (k0 : ℚ) / (cfg.RAND_MAX : ℚ) ∧ (k0 : ℚ) / (cfg.RAND_MAX : ℚ) ≤ 1) ∧
      gene s.pop r j = .ok xr ∧ gene s.pop i j = .ok xi ∧ readAt s.t_Val j = .ok t ∧
      (t ≥ s.AT →
        v = xr + (k0 : ℚ) / (cfg.RAND_MAX : ℚ) * |xr - xi| ∧ s' = { s with rng := l2 }) ∧
      (¬ t ≥ s.AT → t ≤ s.mAT →
        v = xr - (k0 : ℚ) / (cfg.RAND_MAX : ℚ) * |xr - xi| ∧ s' = { s with rng := l2 }) ∧
      (¬ t ≥ s.AT → ¬ t ≤ s.mAT →
        ∃ (k1 : Nat) (l3 : List Nat), l2 = k1 :: l3 ∧
          ((k1 : ℚ) / (cfg.RAND_MAX : ℚ) < cfg.p_i →
            gene s.pop r1 j = .ok v ∧ s' = { s with rng := l3 }) ∧
          (¬ (k1 : ℚ) / (cfg.RAND_MAX : ℚ) < cfg.p_i →
            ∃ (k2 : Nat) (l4 : List Nat), l3 = k2 :: l4 ∧
              ((k2 : ℚ) / (cfg.RAND_MAX : ℚ) < cfg.p_r →
                ∃ (k3 : Nat) (l5 : List Nat), l4 = k3 :: l5 ∧
                  v = (k3 : ℚ) / (cfg.RAND_MAX : ℚ) * (cfg.ubound - cfg.lbound) +
                    cfg.lbound ∧
                  s' = { s with rng := l5 }) ∧
              (¬ (k2 : ℚ) / (cfg.RAND_MAX : ℚ) < cfg.p_r →
                v = xi ∧ s' = { s with rng := l4 }))) := by
  unfold reproduce at h
  cases h1 : draw_excluding cfg.SN1 i s with
  | error e => simp [h1] at h
  | ok p1 =>
    obtain ⟨r, s1⟩ := p1
    simp only [h1] at h
    obtain ⟨l1, hd1, rfl⟩ := (draw_excluding_eq_ok _ _ _ _ _).mp h1
    cases h2 : draw_excluding cfg.POPSIZE i { s with rng := l1 } with
    | error e => simp [h2] at h
    | ok p2 =>
      obtain ⟨r1, s2⟩ := p2
      simp only [h2] at h
      obtain ⟨l1', hd2, rfl⟩ := (draw_excluding_eq_ok _ _ _ _ _).mp h2
      simp only at hd2
      cases h3 : randval cfg 0 1 { s with rng := l1' } with
      | error e => simp [h3] at h
      | ok p3 =>
        obtain ⟨nd, s3⟩ := p3
        simp only [h3] at h
        obtain ⟨k0, l2, hrng, hR, hnd, rfl⟩ := (randval_eq_ok cfg 0 1 _ nd s3).mp h3
        have hnd' : nd = (k0 : ℚ) / (cfg.RAND_MAX : ℚ) := by rw [hnd]; ring
        subst hnd'
        simp only at hrng
        subst hrng
        simp only at h
        cases h4 : gene s.pop r j with
        | error e => simp [h4] at h
        | ok xr =>
          simp only [h4] at h
          cases h5 : gene s.pop i j with
          | error e => simp [h5] at h
          | ok xi =>
            simp only [h5] at h
            cases h6 : readAt s.t_Val j with
            | error e => simp [h6] at h
            | ok t =>
              simp only [h6] at h
              obtain ⟨hr1, hr2, _⟩ := draw_other_spec _ _ _ _ _ hd1
              obtain ⟨hr3, hr4, _⟩ := draw_other_spec _ _ _ _ _ hd2
              have hRpos : (0 : ℚ) < (cfg.RAND_MAX : ℚ) := by
                exact_mod_cast Nat.pos_of_ne_zero hR
              refine ⟨r, r1, k0, l1, l2, xr, xi, t, hd1, hd2, hr1, hr2, hr3, hr4, hR, ?_,
                h4, rfl, rfl, ?_, ?_, ?_⟩
              · intro hk
                have hk' : (k0 : ℚ) ≤ (cfg.RAND_MAX : ℚ) := by exact_mod_cast hk
                exact ⟨by positivity, (div_le_one hRpos).mpr hk'⟩
              · intro ht
                simp only [ht, if_true, Except.ok.injEq, Prod.mk.injEq] at h
                exact ⟨h.1.symm, h.2.symm⟩
              · intro ht ht2
                simp only [ht, ht2, if_true, if_false, Except.ok.injEq, Prod.mk.injEq] at h
                exact ⟨h.1.symm, h.2.symm⟩
              · intro ht ht2
                simp only [ht, ht2, if_false] at h
                obtain ⟨k1, l3, e1, _, ha, hb⟩ := explore_spec cfg i j r1 _ v s' h
                simp only at e1 ha hb
                refine ⟨k1, l3, e1, ha, ?_⟩
                intro hlt
                obtain ⟨k2, l4, e2, hc, hd⟩ := hb hlt
                refine ⟨k2, l4, e2, hc, ?_⟩
                intro hlt2
                obtain ⟨hg, hs⟩ := hd hlt2
                rw [h5] at hg
                exact ⟨by injection hg with hg; exact hg.symm, hs⟩

/-- C8 fails when `rand()` returns `RAND_MAX`: with `p_i = 1`, in the exploring
dimension `0` of `demo_mid` (`mAT < t_Val[0] < AT`) the draws give `r1 = 2`, the first
uniform draw is `32767 / 32767 = 1`, which is not `< p_i`, and the gene is retained
(`pop[0].x[0] = 1`) instead of being set to `pop[2].x[0] = 3`. -/
theorem C8_counterexample :
    demo_pi1.p_i = 1 ∧
    readAt (demo_mid []).t_Val 0 = .ok 0 ∧ (demo_mid []).mAT < 0 ∧ 0 < (demo_mid []).AT ∧
    draw_other demo_pi1.POPSIZE 0 [2, 16384, 32767, 32767] = .ok (2, [16384, 32767, 32767]) ∧
    reproduce demo_pi1 0 0 (demo_mid [1, 2, 16384, 32767, 32767]) = .ok (1, demo_mid []) ∧
    gene (demo_mid []).pop 2 0 = .ok 3 := by
  decide!

/-- C8 (amended): with `p_i = 1`, for every value `k < RAND_MAX` that `rand()` returns
in the first draw `randval(0,1)` of the exploration branch, the exploring gene is
`pop[r1].x[j]` and no further draw is made, so neither the reinitialization nor the
retain branch is reached. -/
theorem C8_forced_imitation (cfg : Config) (hp : cfg.p_i = 1) (i j r1 : Nat) (s : State)
    (k : Nat) (rest : List Nat) (hrng : s.rng = k :: rest) (hk : k < cfg.RAND_MAX)
    (x1 : ℚ) (hg : gene s.pop r1 j = .ok x1) :
    explore cfg i j r1 s = .ok (x1, { s with rng := rest }) := by
  have hR : cfg.RAND_MAX ≠ 0 := by omega
  have hRq : (0 : ℚ) < (cfg.RAND_MAX : ℚ) := by exact_mod_cast Nat.pos_of_ne_zero hR
  have hrv : randval cfg 0 1 s = .ok ((k : ℚ) / (cfg.RAND_MAX : ℚ), { s with rng := rest }) := by
    rw [randval_eq_ok]
    exact ⟨k, rest, hrng, hR, by ring, rfl⟩
  have hlt : (k : ℚ) / (cfg.RAND_MAX : ℚ) < cfg.p_i := by
    rw [hp, div_lt_one hRq]
    exact_mod_cast hk
  unfold explore
  simp only [hrv, hlt, if_true, hg]

/-- Witness of C8 (amended): `rand()` returns `32766 < RAND_MAX` in `demo_pi1`. -/
theorem C8_witness :
    explore demo_pi1 0 0 2 (demo_mid [32766, 7]) = .ok (3, demo_mid [7]) :=
  C8_forced_imitation demo_pi1 rfl 0 0 2 (demo_mid [32766, 7]) 32766 [7] rfl (by decide) 3
    (by decide!)

/-! ## Evaluate and Motivation: one individual -/

theorem Evaluate_body_spec (cfg : Config) (i : Nat) (s s' : State)
    (h : Evaluate_body cfg i s = .ok s') :
    ∃ ind, readAt s.pop i = .ok ind ∧
      s'.pop = s.pop.set i { ind with fit := cfg.function_name ind.x cfg.DIMS } ∧
      s'.newpop = s.newpop ∧ s'.fes = s.fes + 1 ∧ s'.t_Val = s.t_Val ∧ s'.AT = s.AT ∧
      s'.mAT = s.mAT ∧ s'.rng = s.rng ∧
      ((cfg.function_name ind.x cfg.DIMS < s.gbestval ∧
          s'.gbestval = cfg.function_name ind.x cfg.DIMS ∧ s'.gbestind = i) ∨
        (¬ cfg.function_name ind.x cfg.DIMS < s.gbestval ∧
          s'.gbestval = s.gbestval ∧ s'.gbestind = s.gbestind)) := by
  unfold Evaluate_body at h
  cases h1 : readAt s.pop i with
  | error e => simp [h1] at h
  | ok ind =>
    simp only [h1] at h
    have hi := readAt_lt h1
    have h2 : setFit s.pop i (cfg.function_name ind.x cfg.DIMS) =
        .ok (s.pop.set i { ind with fit := cfg.function_name ind.x cfg.DIMS }) := by
      rw [setFit_eq_ok]
      exact ⟨ind, h1, rfl⟩
    simp only [h2] at h
    refine ⟨ind, rfl, ?_⟩
    by_cases hlt : cfg.function_name ind.x cfg.DIMS < s.gbestval
    · have hlt' : cfg.function_name ind.x cfg.DIMS - s.gbestval < 0 := by linarith
      simp only [hlt', if_true, Except.ok.injEq] at h
      subst h
      exact ⟨rfl, rfl, rfl, rfl, rfl, rfl, rfl, Or.inl ⟨hlt, rfl, rfl⟩⟩
    · have hlt' : ¬ cfg.function_name ind.x cfg.DIMS - s.gbestval < 0 := by
        intro hc
        exact hlt (by linarith)
      simp only [hlt', if_false, Except.ok.injEq] at h
      subst h
      exact ⟨rfl, rfl, rfl, rfl, rfl, rfl, rfl, Or.inr ⟨hlt, rfl, rfl⟩⟩

theorem Motivation_body_spec (cfg : Config) (i : Nat) (s s' : State)
    (h : Motivation_body cfg i s = .ok s') :
    ∃ child0 parent, readAt s.newpop i = .ok child0 ∧ readAt s.pop i = .ok parent ∧
      s'.newpop = s.newpop.set i { child0 with fit := cfg.function_name child0.x cfg.DIMS } ∧
      s'.fes = s.fes + 1 ∧ s'.t_Val = s.t_Val ∧ s'.AT = s.AT ∧ s'.mAT = s.mAT ∧
      s'.rng = s.rng ∧
      ((cfg.function_name child0.x cfg.DIMS ≤ parent.fit ∧
          s'.pop = s.pop.set i { child0 with fit := cfg.function_name child0.x cfg.DIMS } ∧
          ((cfg.function_name child0.x cfg.DIMS ≤ s.gbestval ∧
              s'.gbestval = cfg.function_name child0.x cfg.DIMS ∧ s'.gbestind = i) ∨
            (¬ cfg.function_name child0.x cfg.DIMS ≤ s.gbestval ∧
              s'.gbestval = s.gbestval ∧ s'.gbestind = s.gbestind))) ∨
        (¬ cfg.function_name child0.x cfg.DIMS ≤ parent.fit ∧ s'.pop = s.pop ∧
          s'.gbestval = s.gbestval ∧ s'.gbestind = s.gbestind)) := by
  unfold Motivation_body at h
  cases h1 : readAt s.newpop i with
  | error e => simp [h1] at h
  | ok child0 =>
    simp only [h1] at h
    have hi := readAt_lt h1
    have h2 : writeAt s.newpop i { child0 with fit := cfg.function_name child0.x cfg.DIMS } =
        .ok (s.newpop.set i { child0 with fit := cfg.function_name child0.x cfg.DIMS }) := by
      rw [writeAt_eq_ok]
      exact ⟨hi, rfl⟩
    simp only [h2] at h
    cases h3 : readAt s.pop i with
    | error e => simp [h3] at h
    | ok parent =>
      simp only [h3] at h
      have hp := readAt_lt h3
      refine ⟨child0, parent, rfl, rfl, ?_⟩
      by_cases hle : cfg.function_name child0.x cfg.DIMS ≤ parent.fit
      · have hle' : cfg.function_name child0.x cfg.DIMS - parent.fit ≤ 0 := by linarith
        have h4 : writeAt s.pop i
            { child0 with fit := cfg.function_name child0.x cfg.DIMS } =
            .ok (s.pop.set i { child0 with fit := cfg.function_name child0.x cfg.DIMS }) := by
          rw [writeAt_eq_ok]
          exact ⟨hp, rfl⟩
        simp only [hle', if_true, h4] at h
        by_cases hg : cfg.function_name child0.x cfg.DIMS ≤ s.gbestval
        · have hg' : cfg.function_name child0.x cfg.DIMS - s.gbestval ≤ 0 := by linarith
          simp only [hg', if_true, Except.ok.injEq] at h
          subst h
          exact ⟨rfl, rfl, rfl, rfl, rfl, rfl, Or.inl ⟨hle, rfl, Or.inl ⟨hg, rfl, rfl⟩⟩⟩
        · have hg' : ¬ cfg.function_name child0.x cfg.DIMS - s.gbestval ≤ 0 := by
            intro hc
            exact hg (by linarith)
          simp only [hg', if_false, Except.ok.injEq] at h
          subst h
          exact ⟨rfl, rfl, rfl, rfl, rfl, rfl, Or.inl ⟨hle, rfl, Or.inr ⟨hg, rfl, rfl⟩⟩⟩
      · have hle' : ¬ cfg.function_name child0.x cfg.DIMS - parent.fit ≤ 0 := by
          intro hc
          exact hle (by linarith)
        simp only [hle', if_false, Except.ok.injEq] at h
        subst h
        exact ⟨rfl, rfl, rfl, rfl, rfl, rfl, Or.inr ⟨hle, rfl, rfl, rfl⟩⟩

theorem forLoop_rel {σ : Type} (body : Nat → σ → M σ) (R : σ → σ → Prop)
    (hrefl : ∀ s, R s s) (htrans : ∀ a b c, R a b → R b c → R a c)
    (hstep : ∀ n t t', body n t = .ok t' → R t t') :
    ∀ (k i : Nat) (s s' : σ), forLoop body k i s = .ok s' → R s s' := by
  intro k i s s' h
  exact forLoop_inv body (fun _ t => R s t) k i s s' (hrefl s)
    (fun n t t' _ _ hP hb => htrans _ _ _ hP (hstep n t t' hb)) h

theorem forLoop_count {σ : Type} (body : Nat → σ → M σ) (f : σ → Int)
    (hstep : ∀ n t t', body n t = .ok t' → f t' = f t + 1) :
    ∀ (k i : Nat) (s s' : σ), forLoop body k i s = .ok s' → f s' = f s + (k : Int) := by
  intro k i s s' h
  have := forLoop_inv body (fun n t => f t = f s + ((n : Int) - (i : Int))) k i s s'
    (by simp) (fun n t t' _ _ hP hb => by
      have hP' : f t = f s + ((n : Int) - (i : Int)) := hP
      show f t' = f s + (((n + 1 : Nat) : Int) - (i : Int))
      rw [hstep n t t' hb, hP']
      push_cast
      ring) h
  have this' : f s' = f s + (((i + k : Nat) : Int) - (i : Int)) := this
  rw [this']
  push_cast
  ring

theorem map_x_set (l : List Individual) (i : Nat) (ind a : Individual)
    (h : readAt l i = .ok ind) (hx : a.x = ind.x) :
    (l.set i a).map Individual.x = l.map Individual.x := by
  rw [readAt_eq_ok] at h
  apply List.ext_getElem?
  intro n
  by_cases hn : i = n
  · subst hn
    simp only [List.getElem?_map, List.getElem?_set_self (List.getElem?_eq_some.mp h).1, h,
      Option.map_some', hx]
  · simp only [List.getElem?_map, List.getElem?_set_ne hn]

theorem GenesIn_of_map_x (cfg : Config) (p p' : List Individual)
    (h : p'.map Individual.x = p.map Individual.x) (hg : GenesIn cfg p) : GenesIn cfg p' := by
  intro ind hind g hgx
  have : ind.x ∈ p.map Individual.x := by
    rw [← h]
    exact List.mem_map_of_mem _ hind
  obtain ⟨ind0, h0, hx0⟩ := List.mem_map.mp this
  exact hg ind0 h0 g (by rw [hx0]; exact hgx)

theorem shape_of_map_x (n : Nat) (p p' : List Individual)
    (h : p'.map Individual.x = p.map Individual.x) (hs : ∀ ind ∈ p, ind.x.length = n) :
    ∀ ind ∈ p', ind.x.length = n := by
  intro ind hind
  have : ind.x ∈ p.map Individual.x := by
    rw [← h]
    exact List.mem_map_of_mem _ hind
  obtain ⟨ind0, h0, hx0⟩ := List.mem_map.mp this
  rw [← hx0]
  exact hs ind0 h0

theorem length_of_map_x (p p' : List Individual)
    (h : p'.map Individual.x = p.map Individual.x) : p'.length = p.length := by
  have := congrArg List.length h
  simpa using this

/-! ## Evaluate -/

theorem Evaluate_spec (cfg : Config) (s s' : State) (h : Evaluate cfg s = .ok s') :
    s'.fes = s.fes + (cfg.POPSIZE : Int) ∧ s'.gbestval ≤ s.gbestval ∧
    s'.newpop = s.newpop ∧ s'.t_Val = s.t_Val ∧ s'.AT = s.AT ∧ s'.mAT = s.mAT ∧
    s'.rng = s.rng ∧ s'.pop.map Individual.x = s.pop.map Individual.x := by
  unfold Evaluate at h
  refine ⟨forLoop_count _ State.fes ?_ _ _ _ _ h, ?_⟩
  · intro n t t' hb
    obtain ⟨_, _, _, _, hf, _⟩ := Evaluate_body_spec cfg n t t' hb
    exact hf
  · refine forLoop_rel (Evaluate_body cfg)
      (fun a b => b.gbestval ≤ a.gbestval ∧ b.newpop = a.newpop ∧ b.t_Val = a.t_Val ∧
        b.AT = a.AT ∧ b.mAT = a.mAT ∧ b.rng = a.rng ∧
        b.pop.map Individual.x = a.pop.map Individual.x) ?_ ?_ ?_ _ _ _ _ h
    · intro a
      exact ⟨le_refl _, rfl, rfl, rfl, rfl, rfl, rfl⟩
    · rintro a b c ⟨h1, h2, h3, h4, h5, h6, h7⟩ ⟨g1, g2, g3, g4, g5, g6, g7⟩
      exact ⟨le_trans g1 h1, g2.trans h2, g3.trans h3, g4.trans h4, g5.trans h5,
        g6.trans h6, g7.trans h7⟩
    · intro n t t' hb
      obtain ⟨ind, hr, hp, hn, _, ht, hA, hm, hrng, hg⟩ := Evaluate_body_spec cfg n t t' hb
      refine ⟨?_, hn, ht, hA, hm, hrng, ?_⟩
      · rcases hg with ⟨hlt, hv, _⟩ | ⟨_, hv, _⟩
        · rw [hv]; exact le_of_lt hlt
        · rw [hv]
      · rw [hp]
        exact map_x_set _ _ ind _ hr rfl

/-! ## Motivation -/

theorem Motivation_spec (cfg : Config) (s s' : State) (h : Motivation cfg s = .ok s') :
    s'.fes = s.fes + (cfg.POPSIZE : Int) ∧ s'.gbestval ≤ s.gbestval ∧
    s'.t_Val = s.t_Val ∧ s'.AT = s.AT ∧ s'.mAT = s.mAT ∧ s'.rng = s.rng ∧
    s'.newpop.map Individual.x = s.newpop.map Individual.x ∧
    s'.pop.length = s.pop.length ∧
    (∀ ind ∈ s'.pop, ind ∈ s.pop ∨ ∃ c ∈ s.newpop, ind.x = c.x) := by
  unfold Motivation at h
  refine ⟨forLoop_count _ State.fes ?_ _ _ _ _ h, ?_⟩
  · intro n t t' hb
    obtain ⟨_, _, _, _, _, hf, _⟩ := Motivation_body_spec cfg n t t' hb
    exact hf
  · have key := forLoop_inv (Motivation_body cfg)
      (fun _ t => t.gbestval ≤ s.gbestval ∧ t.t_Val = s.t_Val ∧ t.AT = s.AT ∧
        t.mAT = s.mAT ∧ t.rng = s.rng ∧
        t.newpop.map Individual.x = s.newpop.map Individual.x ∧
        t.pop.length = s.pop.length ∧
        (∀ ind ∈ t.pop, ind ∈ s.pop ∨ ∃ c ∈ s.newpop, ind.x = c.x))
      cfg.POPSIZE 0 s s'
      ⟨le_refl _, rfl, rfl, rfl, rfl, rfl, rfl, fun ind hi => Or.inl hi⟩ ?_ h
    · exact key
    · rintro n t t' _ _ ⟨g1, g2, g3, g4, g5, g6, g7, g8⟩ hb
      obtain ⟨child0, parent, hc, hpar, hnp, _, ht, hA, hm, hrng, hcase⟩ :=
        Motivation_body_spec cfg n t t' hb
      have hnp' : t'.newpop.map Individual.x = s.newpop.map Individual.x := by
        rw [hnp]
        exact (map_x_set _ _ child0 _ hc (by rfl)).trans g6
      have hcmem : ∃ c ∈ s.newpop, child0.x = c.x := by
        have : child0.x ∈ s.newpop.map Individual.x := by
          rw [← g6]
          exact List.mem_map_of_mem _ (readAt_mem hc)
        obtain ⟨c, hc1, hc2⟩ := List.mem_map.mp this
        exact ⟨c, hc1, hc2.symm⟩
      rcases hcase with ⟨_, hp, hg⟩ | ⟨_, hp, hv, _⟩
      · refine ⟨?_, ht.trans g2, hA.trans g3, hm.trans g4, hrng.trans g5, hnp', ?_, ?_⟩
        · rcases hg with ⟨hle, hv, _⟩ | ⟨_, hv, _⟩
          · rw [hv]; exact le_trans hle g1
          · rw [hv]; exact g1
        · rw [hp, List.length_set]; exact g7
        · intro ind hind
          rw [hp] at hind
          rcases List.mem_or_eq_of_mem_set hind with h1 | h1
          · exact g8 ind h1
          · right
            rw [h1]
            exact hcmem
      · refine ⟨by rw [hv]; exact g1, ht.trans g2, hA.trans g3, hm.trans g4, hrng.trans g5,
          hnp', by rw [hp]; exact g7, ?_⟩
        intro ind hind
        rw [hp] at hind
        exact g8 ind hind

theorem Motivation_index (cfg : Config) (s s' : State) (h : Motivation cfg s = .ok s') :
    ∀ i, i < cfg.POPSIZE → Replaced cfg s s' i := by
  unfold Motivation at h
  have key := forLoop_inv (Motivation_body cfg)
    (fun n t => ∀ i, (i < n → Replaced cfg s t i) ∧
      (n ≤ i → readAt t.pop i = readAt s.pop i ∧ readAt t.newpop i = readAt s.newpop i))
    cfg.POPSIZE 0 s s' (fun i => ⟨fun hi => absurd hi (Nat.not_lt_zero _), fun _ => ⟨rfl, rfl⟩⟩)
    ?_ h
  · intro i hi
    exact (key i).1 (by omega)
  · intro n t t' _ _ hP hb i
    obtain ⟨child0, parent, hc, hpar, hnp, _, _, _, _, _, hcase⟩ :=
      Motivation_body_spec cfg n t t' hb
    have hnl := readAt_lt hc
    have hpl := readAt_lt hpar
    have hpop_ne : ∀ k, n ≠ k → readAt t'.pop k = readAt t.pop k := by
      intro k hk
      rcases hcase with ⟨_, hp, _⟩ | ⟨_, hp, _⟩
      · rw [hp, readAt_set_ne _ _ hk]
      · rw [hp]
    have hnew_ne : ∀ k, n ≠ k → readAt t'.newpop k = readAt t.newpop k := by
      intro k hk
      rw [hnp, readAt_set_ne _ _ hk]
    constructor
    · intro hi
      by_cases hin : i = n
      · subst hin
        have hu := ((hP i).2 (le_refl _))
        rw [hpar] at hu
        rw [hc] at hu
        refine ⟨parent, child0, hu.1.symm, hu.2.symm, ?_, ?_, ?_, ?_⟩
        · rw [hnp]
          exact readAt_set_self _ hnl
        · intro hle
          rcases hcase with ⟨_, hp, _⟩ | ⟨hn, _⟩
          · rw [hp]
            exact readAt_set_self _ hpl
          · exact absurd hle hn
        · intro hle
          rcases hcase with ⟨hn, _⟩ | ⟨_, hp, _⟩
          · exact absurd hn hle
          · rw [hp]
            exact hpar
        · rcases hcase with ⟨hle, hp, _⟩ | ⟨hle, hp, _⟩
          · refine ⟨_, by rw [hp]; exact readAt_set_self _ hpl, hle⟩
          · exact ⟨parent, by rw [hp]; exact hpar, le_refl _⟩
      · have hlt : i < n := by omega
        obtain ⟨par, ch, h1, h2, h3, h4, h5, aft, h6, h7⟩ := (hP i).1 hlt
        have hne : n ≠ i := fun e => hin e.symm
        refine ⟨par, ch, h1, h2, ?_, ?_, ?_, aft, ?_, h7⟩
        · rw [hnew_ne i hne]; exact h3
        · intro hle; rw [hpop_ne i hne]; exact h4 hle
        · intro hle; rw [hpop_ne i hne]; exact h5 hle
        · rw [hpop_ne i hne]; exact h6
    · intro hi
      have hne : n ≠ i := by omega
      have hu := (hP i).2 (by omega)
      exact ⟨(hpop_ne i hne).trans hu.1, (hnew_ne i hne).trans hu.2⟩

/-- C9: for every index `i < POPSIZE`, after `Motivation` the entry `pop[i]` equals the
offspring `newpop[i]` (its genes and its newly evaluated fitness) if the offspring's
fitness is `≤` the fitness `pop[i]` had before the call, and is the unchanged parent
otherwise; so `pop[i].fit` after the call is `≤` `pop[i].fit` before it. -/
theorem C9_elitist_replacement (cfg : Config) (s s' : State)
    (h : Motivation cfg s = .ok s') (i : Nat) (hi : i < cfg.POPSIZE) :
    ∃ parent child0, readAt s.pop i = .ok parent ∧ readAt s.newpop i = .ok child0 ∧
      readAt s'.newpop i =
        .ok { child0 with fit := cfg.function_name child0.x cfg.DIMS } ∧
      (cfg.function_name child0.x cfg.DIMS ≤ parent.fit →
        readAt s'.pop i = .ok { child0 with fit := cfg.function_name child0.x cfg.DIMS }) ∧
      (¬ cfg.function_name child0.x cfg.DIMS ≤ parent.fit →
        readAt s'.pop i = .ok parent) ∧
      ∃ after, readAt s'.pop i = .ok after ∧ after.fit ≤ parent.fit :=
  Motivation_index cfg s s' h i hi

/-- Witness of C9 in `demo`: the offspring of individual `1` (fitness `1`) replaces its
parent (fitness `4`). -/
theorem C9_witness :
    Motivation demo demo_children = .ok demo_survivors ∧
    Replaced demo demo_children demo_survivors 1 :=
  ⟨by decide!,
    C9_elitist_replacement demo demo_children demo_survivors (by decide!) 1 (by decide)⟩

/-! ## The comparator and the reference sort -/

theorem cmp_le_iff (a b : Individual) : cmp a b ≤ 0 ↔ a.fit ≤ b.fit := by
  unfold cmp
  by_cases h : a.fit - b.fit > 0
  · simp only [h, if_true]
    constructor
    · intro hc; omega
    · intro hc; linarith
  · simp only [h, if_false]
    constructor
    · intro _; linarith
    · intro _; omega

theorem qsort_insert_perm (c : Individual → Individual → Int) (a : Individual) :
    ∀ l, (qsort_insert c a l).Perm (a :: l) := by
  intro l
  induction l with
  | nil => simp [qsort_insert]
  | cons b l ih =>
    unfold qsort_insert
    by_cases h : c a b ≤ 0
    · simp [h]
    · simp only [h, if_false]
      exact (List.Perm.cons b ih).trans (List.Perm.swap a b l)

theorem qsort_insert_pairwise (c : Individual → Individual → Int)
    (htot : ∀ a b, c a b ≤ 0 ∨ c b a ≤ 0)
    (htr : ∀ a b d, c a b ≤ 0 → c b d ≤ 0 → c a d ≤ 0) (a : Individual) :
    ∀ l, l.Pairwise (fun x y => c x y ≤ 0) →
      (qsort_insert c a l).Pairwise (fun x y => c x y ≤ 0) := by
  intro l
  induction l with
  | nil => intro _; simp [qsort_insert]
  | cons b l ih =>
    intro hl
    rw [List.pairwise_cons] at hl
    unfold qsort_insert
    by_cases h : c a b ≤ 0
    · simp only [h, if_true]
      rw [List.pairwise_cons]
      refine ⟨?_, List.pairwise_cons.mpr hl⟩
      intro y hy
      rcases List.mem_cons.mp hy with rfl | hy'
      · exact h
      · exact htr _ _ _ h (hl.1 y hy')
    · simp only [h, if_false]
      rw [List.pairwise_cons]
      refine ⟨?_, ih hl.2⟩
      intro y hy
      have hy' := (qsort_insert_perm c a l).subset hy
      rcases List.mem_cons.mp hy' with rfl | hy''
      · rcases htot y b with h1 | h1
        · exact absurd h1 h
        · exact h1
      · exact hl.1 y hy''

theorem qsort_ref_spec : QsortSpec qsort_ref := by
  intro c l htot htr
  induction l with
  | nil => simp [qsort_ref]
  | cons a l ih =>
    have e : qsort_ref c (a :: l) = qsort_insert c a (qsort_ref c l) := rfl
    rw [e]
    exact ⟨(qsort_insert_perm c a _).trans (List.Perm.cons a ih.1),
      qsort_insert_pairwise c htot htr a _ ih.2⟩

theorem qsort_cmp_spec (qsort : (Individual → Individual → Int) → List Individual →
    List Individual) (hq : QsortSpec qsort) (l : List Individual) :
    (qsort cmp l).Perm l ∧ (qsort cmp l).Pairwise (fun a b => a.fit ≤ b.fit) := by
  have h := hq cmp l
    (fun a b => by
      rw [cmp_le_iff, cmp_le_iff]
      exact le_total _ _)
    (fun a b d h1 h2 => by
      rw [cmp_le_iff] at *
      exact le_trans h1 h2)
  refine ⟨h.1, h.2.imp ?_⟩
  intro a b hab
  exact (cmp_le_iff a b).mp hab

/-! ## Attention -/

theorem copy_column_spec (pop : List Individual) (j : Nat) :
    ∀ (k start : Nat) (l : List ℚ), copy_column pop j k start = .ok l →
      l.length = k ∧ ∀ i, i < k → readAt l i = gene pop (start + i) j := by
  intro k
  induction k with
  | zero =>
    intro start l h
    simp [copy_column] at h
    subst h
    exact ⟨rfl, fun i hi => absurd hi (Nat.not_lt_zero _)⟩
  | succ k ih =>
    intro start l h
    unfold copy_column at h
    cases h1 : gene pop start j with
    | error e => simp [h1] at h
    | ok v =>
      simp only [h1] at h
      cases h2 : copy_column pop j k (start + 1) with
      | error e => simp [h2] at h
      | ok rest =>
        simp only [h2, Except.ok.injEq] at h
        subst h
        obtain ⟨hl, hr⟩ := ih (start + 1) rest h2
        refine ⟨by simp [hl], ?_⟩
        intro i hi
        cases i with
        | zero => simpa [readAt] using h1.symm
        | succ i =>
          have := hr i (by omega)
          have e : start + (i + 1) = start + 1 + i := by omega
          rw [e, ← this]
          simp [readAt]

theorem copy_column_bound (pop : List Individual) (j k start : Nat) (l : List ℚ)
    (h : copy_column pop j k start = .ok l) (hk : 0 < k) : start + k ≤ pop.length := by
  obtain ⟨hl, hr⟩ := copy_column_spec pop j k start l h
  have h1 := hr (k - 1) (by omega)
  obtain ⟨v, hv⟩ := readAt_of_lt (a := l) (i := k - 1) (by omega)
  rw [hv] at h1
  obtain ⟨ind, hi, _⟩ := (gene_eq_ok _ _ _ _).mp h1.symm
  have := readAt_lt hi
  omega

theorem Attention_dim_spec (cfg : Config) (j : Nat) (s s' : State)
    (h : Attention_dim cfg j s = .ok s') :
    ∃ (s1 s2 : List ℚ) (tv : ℚ), copy_column s.pop j cfg.SN1 0 = .ok s1 ∧
      copy_column s.pop j cfg.SN2 cfg.SN1 = .ok s2 ∧
      t_test cfg.sqrt s1 cfg.SN1 s2 cfg.SN2 = .ok tv ∧ j < s.t_Val.length ∧
      s' = { s with t_Val := s.t_Val.set j tv } := by
  unfold Attention_dim at h
  cases h1 : copy_column s.pop j cfg.SN1 0 with
  | error e => simp [h1] at h
  | ok s1 =>
    simp only [h1] at h
    cases h2 : copy_column s.pop j cfg.SN2 cfg.SN1 with
    | error e => simp [h2] at h
    | ok s2 =>
      simp only [h2] at h
      cases h3 : t_test cfg.sqrt s1 cfg.SN1 s2 cfg.SN2 with
      | error e => simp [h3] at h
      | ok tv =>
        simp only [h3] at h
        cases h4 : writeAt s.t_Val j tv with
        | error e => simp [h4] at h
        | ok w =>
          simp only [h4, Except.ok.injEq] at h
          obtain ⟨hj, rfl⟩ := (writeAt_eq_ok _ _ _ _).mp h4
          exact ⟨s1, s2, tv, rfl, rfl, h3, hj, h.symm⟩

theorem StatisticAt_of_dim (cfg : Config) (j : Nat) (s s' : State)
    (h : Attention_dim cfg j s = .ok s') : StatisticAt cfg s' j := by
  obtain ⟨s1, s2, tv, h1, h2, h3, hj, rfl⟩ := Attention_dim_spec cfg j s s' h
  obtain ⟨a1, a2⟩ := copy_column_spec _ _ _ _ _ h1
  obtain ⟨b1, b2⟩ := copy_column_spec _ _ _ _ _ h2
  refine ⟨s1, s2, tv, ⟨a1, ?_⟩, ⟨b1, b2⟩, h3, readAt_set_self _ hj⟩
  intro i hi
  simpa using a2 i hi

theorem Attention_loop_spec (cfg : Config) (s s' : State)
    (h : forLoop (Attention_dim cfg) cfg.DIMS 0 s = .ok s') :
    s' = { s with t_Val := s'.t_Val } ∧ s'.t_Val.length = s.t_Val.length ∧
    (∀ j, j < cfg.DIMS → StatisticAt cfg s' j) ∧
    (0 < cfg.DIMS → cfg.SN1 ≤ s.pop.length) := by
  have key := forLoop_inv (Attention_dim cfg)
    (fun n t => t = { s with t_Val := t.t_Val } ∧ t.t_Val.length = s.t_Val.length ∧
      (∀ j, j < n → StatisticAt cfg t j) ∧ (0 < n → cfg.SN1 ≤ s.pop.length))
    cfg.DIMS 0 s s'
    ⟨rfl, rfl, fun j hj => absurd hj (Nat.not_lt_zero _), fun h0 => absurd h0 (lt_irrefl _)⟩
    ?_ h
  · simpa using key
  · rintro n t t' _ _ ⟨g1, g2, g3, g4⟩ hb
    have hst := StatisticAt_of_dim cfg n t t' hb
    obtain ⟨s1, s2, tv, h1, h2, h3, hj, rfl⟩ := Attention_dim_spec cfg n t t' hb
    have hpop : t.pop = s.pop := by rw [g1]
    refine ⟨?_, ?_, ?_, ?_⟩
    · rw [g1]
    · simp only [List.length_set]
      exact g2
    · intro j hj'
      by_cases hjn : j = n
      · subst hjn
        exact hst
      · obtain ⟨a, b, c, ha, hb', hc, hd⟩ := g3 j (by omega)
        exact ⟨a, b, c, ha, hb', hc, by
          show readAt (t.t_Val.set n tv) j = .ok c
          rw [readAt_set_ne _ _ (fun e => hjn e.symm)]
          exact hd⟩
    · intro _
      by_cases hS : cfg.SN1 = 0
      · omega
      · have := copy_column_bound _ _ _ _ _ h1 (Nat.pos_of_ne_zero hS)
        rw [hpop] at this
        omega

theorem Attention_spec (cfg : Config) (s s' : State) (h : Attention cfg s = .ok s') :
    s'.pop = cfg.qsort cmp s.pop ∧ s'.newpop = s.newpop ∧ s'.fes = s.fes ∧
    s'.gbestval = s.gbestval ∧ s'.gbestind = s.gbestind ∧
    s'.t_Val.length = s.t_Val.length ∧ cfg.DIMS ≠ 0 ∧
    (∃ v, s.rng = v :: s'.rng ∧
      ∃ t, readAt s'.t_Val (v % cfg.DIMS) = .ok t ∧ s'.AT = |t| ∧ s'.mAT = 0 - |t|) ∧
    (∀ j, j < cfg.DIMS → StatisticAt cfg s' j) ∧
    cfg.SN1 ≤ (cfg.qsort cmp s.pop).length := by
  unfold Attention at h
  cases h1 : forLoop (Attention_dim cfg) cfg.DIMS 0 { s with pop := cfg.qsort cmp s.pop } with
  | error e => simp [h1] at h
  | ok s1 =>
    simp only [h1] at h
    obtain ⟨g1, g2, g3, g4⟩ := Attention_loop_spec cfg _ s1 h1
    cases h2 : rand s1 with
    | error e => simp [h2] at h
    | ok pr =>
      obtain ⟨v, s2⟩ := pr
      simp only [h2] at h
      obtain ⟨rest, hr, rfl⟩ := (rand_eq_ok _ _ _).mp h2
      by_cases hD : cfg.DIMS = 0
      · simp [hD] at h
      · simp only [hD, if_false] at h
        cases h3 : readAt s1.t_Val (v % cfg.DIMS) with
        | error e => simp [h3] at h
        | ok t =>
          simp only [h3, Except.ok.injEq] at h
          subst h
          have hrng : s.rng = v :: rest := by
            rw [g1] at hr
            exact hr
          refine ⟨by rw [g1], by rw [g1], by rw [g1], by rw [g1], by rw [g1], g2, hD,
            ⟨v, hrng, t, h3, rfl, rfl⟩, ?_, g4 (Nat.pos_of_ne_zero hD)⟩
          intro j hj
          exact g3 j hj

/-! ## Reproduction and reinforcement: frame and bounds -/

theorem gene_mem {p : List Individual} {i j : Nat} {v : ℚ} (h : gene p i j = .ok v) :
    ∃ ind ∈ p, v ∈ ind.x := by
  obtain ⟨ind, h1, h2⟩ := (gene_eq_ok _ _ _ _).mp h
  exact ⟨ind, readAt_mem h1, readAt_mem h2⟩

theorem boundary_control_range (l u v : ℚ)
    (h1 : l - 2 * (u - l) ≤ v) (h2 : v ≤ u + 2 * (u - l)) :
    l ≤ boundary_control l u v ∧ boundary_control l u v ≤ u := by
  unfold boundary_control
  by_cases ha : v > u
  · simp only [ha, if_true]
    constructor <;> linarith
  · simp only [ha, if_false]
    by_cases hb : v < l
    · simp only [hb, if_true]
      constructor <;> linarith
    · simp only [hb, if_false]
      constructor <;> linarith

theorem randval_value_range (l u : ℚ) (k R : Nat) (hlu : l ≤ u) (hR : R ≠ 0) (hk : k ≤ R) :
    l ≤ (k : ℚ) / (R : ℚ) * (u - l) + l ∧ (k : ℚ) / (R : ℚ) * (u - l) + l ≤ u := by
  have hRq : (0 : ℚ) < (R : ℚ) := by exact_mod_cast Nat.pos_of_ne_zero hR
  have hk' : (k : ℚ) ≤ (R : ℚ) := by exact_mod_cast hk
  have h0 : 0 ≤ (k : ℚ) / (R : ℚ) := by positivity
  have h1 : (k : ℚ) / (R : ℚ) ≤ 1 := (div_le_one hRq).mpr hk'
  have hd : 0 ≤ u - l := by linarith
  constructor
  · nlinarith
  · nlinarith

theorem reinforce_range (l u xr xi nd : ℚ) (h0 : 0 ≤ nd) (h1 : nd ≤ 1)
    (hr : l ≤ xr ∧ xr ≤ u) (hi : l ≤ xi ∧ xi ≤ u) :
    (l - 2 * (u - l) ≤ xr + nd * |xr - xi| ∧ xr + nd * |xr - xi| ≤ u + 2 * (u - l)) ∧
    (l - 2 * (u - l) ≤ xr - nd * |xr - xi| ∧ xr - nd * |xr - xi| ≤ u + 2 * (u - l)) := by
  have ha : 0 ≤ |xr - xi| := abs_nonneg _
  have hb : |xr - xi| ≤ u - l := by
    rw [abs_le]
    constructor <;> linarith [hr.1, hr.2, hi.1, hi.2]
  have hc : nd * |xr - xi| ≤ u - l := by nlinarith
  have hd : 0 ≤ nd * |xr - xi| := mul_nonneg h0 ha
  refine ⟨⟨?_, ?_⟩, ⟨?_, ?_⟩⟩ <;> linarith [hr.1, hr.2]

theorem reproduce_facts (cfg : Config) (i j : Nat) (s : State) (v : ℚ) (s' : State)
    (h : reproduce cfg i j s = .ok (v, s')) :
    s' = { s with rng := s'.rng } ∧ s'.rng <:+ s.rng ∧
    (cfg.lbound ≤ cfg.ubound → RandOK cfg s → GenesIn cfg s.pop →
      cfg.lbound - 2 * (cfg.ubound - cfg.lbound) ≤ v ∧
      v ≤ cfg.ubound + 2 * (cfg.ubound - cfg.lbound)) := by
  obtain ⟨r, r1, k0, l1, l2, xr, xi, t, hd1, hd2, _, _, _, _, hR, hnd, hxr, hxi, _, c1, c2, c3⟩ :=
    reproduce_spec cfg i j s v s' h
  obtain ⟨_, _, u1, hu1⟩ := draw_other_spec _ _ _ _ _ hd1
  obtain ⟨_, _, u2, hu2⟩ := draw_other_spec _ _ _ _ _ hd2
  have hs2 : s.rng = (u1 ++ u2 ++ [k0]) ++ l2 := by
    rw [hu1, hu2]
    simp
  have suf2 : l2 <:+ s.rng := ⟨_, hs2.symm⟩
  have hk0 : k0 ∈ s.rng := by
    rw [hs2]
    simp
  have hrange : cfg.lbound ≤ cfg.ubound → RandOK cfg s → GenesIn cfg s.pop →
      (cfg.lbound ≤ xr ∧ xr ≤ cfg.ubound) ∧ (cfg.lbound ≤ xi ∧ xi ≤ cfg.ubound) ∧
      0 ≤ (k0 : ℚ) / (cfg.RAND_MAX : ℚ) ∧ (k0 : ℚ) / (cfg.RAND_MAX : ℚ) ≤ 1 := by
    intro _ hro hg
    obtain ⟨a, ha1, ha2⟩ := gene_mem hxr
    obtain ⟨b, hb1, hb2⟩ := gene_mem hxi
    exact ⟨hg a ha1 xr ha2, hg b hb1 xi hb2, hnd (hro k0 hk0)⟩
  by_cases ht1 : t ≥ s.AT
  · obtain ⟨hv, hs⟩ := c1 ht1
    subst hs
    refine ⟨rfl, suf2, ?_⟩
    intro hlu hro hg
    obtain ⟨hr, hi, h0, h1⟩ := hrange hlu hro hg
    rw [hv]
    exact (reinforce_range _ _ xr xi _ h0 h1 hr hi).1
  · by_cases ht2 : t ≤ s.mAT
    · obtain ⟨hv, hs⟩ := c2 ht1 ht2
      subst hs
      refine ⟨rfl, suf2, ?_⟩
      intro hlu hro hg
      obtain ⟨hr, hi, h0, h1⟩ := hrange hlu hro hg
      rw [hv]
      exact (reinforce_range _ _ xr xi _ h0 h1 hr hi).2
    · obtain ⟨k1, l3, e3, d1, d2⟩ := c3 ht1 ht2
      have suf3 : l3 <:+ s.rng := ⟨u1 ++ u2 ++ [k0] ++ [k1], by rw [hs2, e3]; simp⟩
      by_cases hp : (k1 : ℚ) / (cfg.RAND_MAX : ℚ) < cfg.p_i
      · obtain ⟨hg1, hs⟩ := d1 hp
        subst hs
        refine ⟨rfl, suf3, ?_⟩
        intro _ _ hg
        obtain ⟨a, ha1, ha2⟩ := gene_mem hg1
        have := hg a ha1 v ha2
        constructor <;> linarith [this.1, this.2]
      · obtain ⟨k2, l4, e4, f1, f2⟩ := d2 hp
        have suf4 : l4 <:+ s.rng :=
          ⟨u1 ++ u2 ++ [k0] ++ [k1] ++ [k2], by rw [hs2, e3, e4]; simp⟩
        by_cases hq : (k2 : ℚ) / (cfg.RAND_MAX : ℚ) < cfg.p_r
        · obtain ⟨k3, l5, e5, hv, hs⟩ := f1 hq
          subst hs
          have hk3 : k3 ∈ s.rng := by
            rw [hs2, e3, e4, e5]
            simp
          refine ⟨rfl, ⟨u1 ++ u2 ++ [k0] ++ [k1] ++ [k2] ++ [k3], by
            rw [hs2, e3, e4, e5]; simp⟩, ?_⟩
          intro hlu hro _
          have := randval_value_range cfg.lbound cfg.ubound k3 cfg.RAND_MAX hlu hR
            (hro k3 hk3)
          rw [hv]
          constructor <;> linarith [this.1, this.2]
        · obtain ⟨hv, hs⟩ := f2 hq
          subst hs
          refine ⟨rfl, suf4, ?_⟩
          intro hlu hro hg
          obtain ⟨_, hi, _, _⟩ := hrange hlu hro hg
          rw [hv]
          constructor <;> linarith [hi.1, hi.2]

theorem map_set_of_eq {β : Type} (f : Individual → β) (l : List Individual) (i : Nat)
    (ind a : Individual) (h : readAt l i = .ok ind) (hf : f a = f ind) :
    (l.set i a).map f = l.map f := by
  rw [readAt_eq_ok] at h
  apply List.ext_getElem?
  intro n
  by_cases hn : i = n
  · subst hn
    simp only [List.getElem?_map, List.getElem?_set_self (List.getElem?_eq_some.mp h).1, h,
      Option.map_some', hf]
  · simp only [List.getElem?_map, List.getElem?_set_ne hn]

theorem setGene_facts (p : List Individual) (i j : Nat) (v : ℚ) (p' : List Individual)
    (h : setGene p i j v = .ok p') :
    gene p' i j = .ok v ∧
    (∀ a b, ¬ (a = i ∧ b = j) → gene p' a b = gene p a b) ∧
    p'.map (fun ind => (ind.x.length, ind.fit)) = p.map (fun ind => (ind.x.length, ind.fit)) ∧
    i < p.length ∧ (∀ ind, readAt p i = .ok ind → j < ind.x.length) := by
  obtain ⟨ind, hr, hj, rfl⟩ := (setGene_eq_ok _ _ _ _ _).mp h
  have hi := readAt_lt hr
  refine ⟨?_, ?_, ?_, hi, ?_⟩
  · rw [gene_eq_ok]
    exact ⟨_, readAt_set_self _ hi, readAt_set_self _ hj⟩
  · intro a b hab
    by_cases ha : a = i
    · subst ha
      have hb : j ≠ b := fun e => hab ⟨rfl, e.symm⟩
      unfold gene
      rw [readAt_set_self _ hi, hr]
      exact readAt_set_ne _ _ hb
    · unfold gene
      rw [readAt_set_ne _ _ (fun e => ha e.symm)]
  · exact map_set_of_eq _ _ _ ind _ hr (by simp)
  · intro ind' hr'
    rw [hr] at hr'
    injection hr' with e
    rw [← e]
    exact hj

theorem ReproductionFrame_refl (s : State) : ReproductionFrame s s :=
  ⟨rfl, rfl, rfl, rfl, rfl, rfl, rfl, List.suffix_refl _, rfl⟩

theorem ReproductionFrame_trans (a b c : State) (h1 : ReproductionFrame a b)
    (h2 : ReproductionFrame b c) : ReproductionFrame a c := by
  obtain ⟨a1, a2, a3, a4, a5, a6, a7, a8, a9⟩ := h1
  obtain ⟨b1, b2, b3, b4, b5, b6, b7, b8, b9⟩ := h2
  exact ⟨b1.trans a1, b2.trans a2, b3.trans a3, b4.trans a4, b5.trans a5, b6.trans a6,
    b7.trans a7, b8.trans a8, b9.trans a9⟩

theorem Reproduction_gene_facts (cfg : Config) (i j : Nat) (s s' : State)
    (h : Reproduction_gene cfg i j s = .ok s') :
    ReproductionFrame s s' ∧
    (∀ a b, ¬ (a = i ∧ b = j) → gene s'.newpop a b = gene s.newpop a b) ∧
    ∃ w, gene s'.newpop i j = .ok w ∧
      (cfg.lbound ≤ cfg.ubound → RandOK cfg s → GenesIn cfg s.pop →
        cfg.lbound ≤ w ∧ w ≤ cfg.ubound) := by
  unfold Reproduction_gene at h
  cases h1 : reproduce cfg i j s with
  | error e => simp [h1] at h
  | ok pr =>
    obtain ⟨v, s1⟩ := pr
    simp only [h1] at h
    obtain ⟨hfr, hsuf, hrange⟩ := reproduce_facts cfg i j s v s1 h1
    cases h2 : setGene s1.newpop i j (boundary_control cfg.lbound cfg.ubound v) with
    | error e => simp [h2] at h
    | ok np =>
      simp only [h2, Except.ok.injEq] at h
      subst h
      have hnp : s1.newpop = s.newpop := by rw [hfr]
      rw [hnp] at h2
      obtain ⟨g1, g2, g3, _, _⟩ := setGene_facts _ _ _ _ _ h2
      refine ⟨⟨by rw [hfr], by rw [hfr], by rw [hfr], by rw [hfr], by rw [hfr], by rw [hfr],
        by rw [hfr], hsuf, g3⟩, g2, _, g1, ?_⟩
      intro hlu hro hg
      obtain ⟨r1, r2⟩ := hrange hlu hro hg
      exact boundary_control_range _ _ _ r1 r2

theorem RandOK_of_suffix (cfg : Config) (s t : State) (h : t.rng <:+ s.rng)
    (hs : RandOK cfg s) : RandOK cfg t :=
  fun v hv => hs v (h.subset hv)

theorem Reproduction_row (cfg : Config) (s0 : State) (i : Nat) (s s' : State)
    (hlu : cfg.lbound ≤ cfg.ubound) (hro : RandOK cfg s0) (hg : GenesIn cfg s0.pop)
    (hf : ReproductionFrame s0 s) (hd : GenesDone cfg s.newpop i 0)
    (h : forLoop (Reproduction_gene cfg i) cfg.DIMS 0 s = .ok s') :
    ReproductionFrame s0 s' ∧ GenesDone cfg s'.newpop (i + 1) 0 := by
  have key := forLoop_inv (Reproduction_gene cfg i)
    (fun n t => ReproductionFrame s0 t ∧ GenesDone cfg t.newpop i n)
    cfg.DIMS 0 s s' ⟨hf, hd⟩ ?_ h
  · obtain ⟨k1, k2⟩ := key
    refine ⟨k1, ?_⟩
    intro a b hab
    apply k2 a b
    rcases hab with ⟨h1, h2⟩ | ⟨_, h2⟩
    · by_cases ha : a = i
      · right; exact ⟨ha, by omega⟩
      · left; exact ⟨by omega, h2⟩
    · exact absurd h2 (Nat.not_lt_zero _)
  · rintro n t t' _ _ ⟨f1, d1⟩ hb
    obtain ⟨g1, g2, w, g3, g4⟩ := Reproduction_gene_facts cfg i n t t' hb
    refine ⟨ReproductionFrame_trans _ _ _ f1 g1, ?_⟩
    intro a b hab
    by_cases hc : a = i ∧ b = n
    · obtain ⟨rfl, rfl⟩ := hc
      refine ⟨w, g3, g4 hlu (RandOK_of_suffix cfg s0 t f1.2.2.2.2.2.2.2.1 hro) ?_⟩
      rw [f1.1]
      exact hg
    · rw [g2 a b hc]
      apply d1 a b
      rcases hab with h1 | ⟨h1, h2⟩
      · left; exact h1
      · right
        refine ⟨h1, ?_⟩
        by_contra hcon
        exact hc ⟨h1, by omega⟩

theorem Reproduction_spec (cfg : Config) (s s' : State)
    (h : Reproduction_and_Reinforcement cfg s = .ok s') : ReproductionFrame s s' := by
  unfold Reproduction_and_Reinforcement at h
  refine forLoop_rel _ ReproductionFrame ReproductionFrame_refl ReproductionFrame_trans ?_
    _ _ _ _ h
  intro i t t' hrow
  refine forLoop_rel _ ReproductionFrame ReproductionFrame_refl ReproductionFrame_trans ?_
    _ _ _ _ hrow
  intro j u u' hb
  exact (Reproduction_gene_facts cfg i j u u' hb).1

theorem Reproduction_bounds (cfg : Config) (s s' : State)
    (hlu : cfg.lbound ≤ cfg.ubound) (hro : RandOK cfg s) (hg : GenesIn cfg s.pop)
    (h : Reproduction_and_Reinforcement cfg s = .ok s') :
    ∀ i j, i < cfg.POPSIZE → j < cfg.DIMS →
      ∃ v, gene s'.newpop i j = .ok v ∧ cfg.lbound ≤ v ∧ v ≤ cfg.ubound := by
  unfold Reproduction_and_Reinforcement at h
  have key := forLoop_inv (fun i => forLoop (Reproduction_gene cfg i) cfg.DIMS 0)
    (fun n t => ReproductionFrame s t ∧ GenesDone cfg t.newpop n 0)
    cfg.POPSIZE 0 s s'
    ⟨ReproductionFrame_refl s, fun a b hab => by
      rcases hab with ⟨h1, _⟩ | ⟨_, h2⟩
      · exact absurd h1 (Nat.not_lt_zero _)
      · exact absurd h2 (Nat.not_lt_zero _)⟩ ?_ h
  · intro i j hi hj
    exact key.2 i j (Or.inl ⟨by omega, hj⟩)
  · rintro n t t' _ _ ⟨f1, d1⟩ hrow
    exact Reproduction_row cfg s n t t' hlu hro hg f1 d1 hrow

/-! ## Initialize -/

theorem InitializeFrame_refl (s : State) : InitializeFrame s s :=
  ⟨rfl, rfl, rfl, rfl, rfl, rfl, rfl, List.suffix_refl _, rfl⟩

theorem InitializeFrame_trans (a b c : State) (h1 : InitializeFrame a b)
    (h2 : InitializeFrame b c) : InitializeFrame a c := by
  obtain ⟨a1, a2, a3, a4, a5, a6, a7, a8, a9⟩ := h1
  obtain ⟨b1, b2, b3, b4, b5, b6, b7, b8, b9⟩ := h2
  exact ⟨b1.trans a1, b2.trans a2, b3.trans a3, b4.trans a4, b5.trans a5, b6.trans a6,
    b7.trans a7, b8.trans a8, b9.trans a9⟩

theorem Initialize_gene_facts (cfg : Config) (i j : Nat) (s s' : State)
    (h : Initialize_gene cfg i j s = .ok s') :
    InitializeFrame s s' ∧
    (∀ a b, ¬ (a = i ∧ b = j) → gene s'.pop a b = gene s.pop a b) ∧
    ∃ w, gene s'.pop i j = .ok w ∧
      (cfg.lbound ≤ cfg.ubound → RandOK cfg s → cfg.lbound ≤ w ∧ w ≤ cfg.ubound) := by
  unfold Initialize_gene at h
  cases h1 : randval cfg cfg.lbound cfg.ubound s with
  | error e => simp [h1] at h
  | ok pr =>
    obtain ⟨v, s1⟩ := pr
    simp only [h1] at h
    obtain ⟨k, rest, hrng, hR, hv, rfl⟩ := (randval_eq_ok _ _ _ _ _ _).mp h1
    cases h2 : setGene s.pop i j v with
    | error e => simp [h2] at h
    | ok np =>
      simp only [h2, Except.ok.injEq] at h
      subst h
      obtain ⟨g1, g2, g3, _, _⟩ := setGene_facts _ _ _ _ _ h2
      refine ⟨⟨rfl, rfl, rfl, rfl, rfl, rfl, rfl, ⟨[k], by simp [hrng]⟩, g3⟩, g2, v, g1, ?_⟩
      intro hlu hro
      rw [hv]
      exact randval_value_range _ _ k _ hlu hR (hro k (by simp [hrng]))

theorem Initialize_row (cfg : Config) (s0 : State) (i : Nat) (s s' : State)
    (hlu : cfg.lbound ≤ cfg.ubound) (hro : RandOK cfg s0)
    (hf : InitializeFrame s0 s) (hd : GenesDone cfg s.pop i 0)
    (h : forLoop (Initialize_gene cfg i) cfg.DIMS 0 s = .ok s') :
    InitializeFrame s0 s' ∧ GenesDone cfg s'.pop (i + 1) 0 := by
  have key := forLoop_inv (Initialize_gene cfg i)
    (fun n t => InitializeFrame s0 t ∧ GenesDone cfg t.pop i n)
    cfg.DIMS 0 s s' ⟨hf, hd⟩ ?_ h
  · obtain ⟨k1, k2⟩ := key
    refine ⟨k1, ?_⟩
    intro a b hab
    apply k2 a b
    rcases hab with ⟨h1, h2⟩ | ⟨_, h2⟩
    · by_cases ha : a = i
      · right; exact ⟨ha, by omega⟩
      · left; exact ⟨by omega, h2⟩
    · exact absurd h2 (Nat.not_lt_zero _)
  · rintro n t t' _ _ ⟨f1, d1⟩ hb
    obtain ⟨g1, g2, w, g3, g4⟩ := Initialize_gene_facts cfg i n t t' hb
    refine ⟨InitializeFrame_trans _ _ _ f1 g1, ?_⟩
    intro a b hab
    by_cases hc : a = i ∧ b = n
    · obtain ⟨rfl, rfl⟩ := hc
      exact ⟨w, g3, g4 hlu (RandOK_of_suffix cfg s0 t f1.2.2.2.2.2.2.2.1 hro)⟩
    · rw [g2 a b hc]
      apply d1 a b
      rcases hab with h1 | ⟨h1, h2⟩
      · left; exact h1
      · right
        refine ⟨h1, ?_⟩
        by_contra hcon
        exact hc ⟨h1, by omega⟩

theorem Initialize_spec (cfg : Config) (s s' : State) (h : Initialize cfg s = .ok s') :
    s'.fes = 0 ∧ s'.gbestval = (10 : ℚ) ^ 300 ∧ s'.newpop = s.newpop ∧
    s'.gbestind = s.gbestind ∧ s'.t_Val = s.t_Val ∧ s'.AT = s.AT ∧ s'.mAT = s.mAT ∧
    s'.rng <:+ s.rng ∧
    s'.pop.map (fun ind => (ind.x.length, ind.fit)) =
      s.pop.map (fun ind => (ind.x.length, ind.fit)) ∧
    (cfg.lbound ≤ cfg.ubound → RandOK cfg s →
      ∀ i j, i < cfg.POPSIZE → j < cfg.DIMS →
        ∃ v, gene s'.pop i j = .ok v ∧ cfg.lbound ≤ v ∧ v ≤ cfg.ubound) := by
  unfold Initialize at h
  cases h1 : forLoop (fun i => forLoop (Initialize_gene cfg i) cfg.DIMS 0) cfg.POPSIZE 0
      { s with fes := 0 } with
  | error e => simp [h1] at h
  | ok s1 =>
    simp only [h1, Except.ok.injEq] at h
    subst h
    have hfr : InitializeFrame { s with fes := 0 } s1 := by
      refine forLoop_rel _ InitializeFrame InitializeFrame_refl InitializeFrame_trans ?_
        _ _ _ _ h1
      intro i t t' hrow
      refine forLoop_rel _ InitializeFrame InitializeFrame_refl InitializeFrame_trans ?_
        _ _ _ _ hrow
      intro j u u' hb
      exact (Initialize_gene_facts cfg i j u u' hb).1
    obtain ⟨a1, a2, _, a4, a5, a6, a7, a8, a9⟩ := hfr
    refine ⟨a2, rfl, a1, a4, a5, a6, a7, a8, a9, ?_⟩
    intro hlu hro i j hi hj
    have key := forLoop_inv (fun i => forLoop (Initialize_gene cfg i) cfg.DIMS 0)
      (fun n t => InitializeFrame { s with fes := 0 } t ∧ GenesDone cfg t.pop n 0)
      cfg.POPSIZE 0 { s with fes := 0 } s1
      ⟨InitializeFrame_refl _, fun a b hab => by
        rcases hab with ⟨h1, _⟩ | ⟨_, h2⟩
        · exact absurd h1 (Nat.not_lt_zero _)
        · exact absurd h2 (Nat.not_lt_zero _)⟩ ?_ h1
    · exact key.2 i j (Or.inl ⟨by omega, hj⟩)
    · rintro n t t' _ _ ⟨f1, d1⟩ hrow
      exact Initialize_row cfg _ n t t' hlu hro f1 d1 hrow

/-! ## The invariant of a trial -/

theorem shape_length (p p' : List Individual)
    (h : p'.map (fun ind => (ind.x.length, ind.fit)) =
      p.map (fun ind => (ind.x.length, ind.fit))) : p'.length = p.length := by
  have := congrArg List.length h
  simpa using this

theorem shape_dims (n : Nat) (p p' : List Individual)
    (h : p'.map (fun ind => (ind.x.length, ind.fit)) =
      p.map (fun ind => (ind.x.length, ind.fit)))
    (hs : ∀ ind ∈ p, ind.x.length = n) : ∀ ind ∈ p', ind.x.length = n := by
  intro ind hind
  have : (ind.x.length, ind.fit) ∈ p.map (fun ind => (ind.x.length, ind.fit)) := by
    rw [← h]
    exact List.mem_map_of_mem (fun ind => (ind.x.length, ind.fit)) hind
  obtain ⟨ind0, h0, hx0⟩ := List.mem_map.mp this
  have e : ind0.x.length = ind.x.length := congrArg Prod.fst hx0
  rw [← e]
  exact hs ind0 h0

theorem GenesIn_of_index (cfg : Config) (p : List Individual)
    (hlen : p.length = cfg.POPSIZE) (hdim : ∀ ind ∈ p, ind.x.length = cfg.DIMS)
    (h : ∀ i j, i < cfg.POPSIZE → j < cfg.DIMS →
      ∃ v, gene p i j = .ok v ∧ cfg.lbound ≤ v ∧ v ≤ cfg.ubound) : GenesIn cfg p := by
  intro ind hind g hg
  obtain ⟨i, hi, rfl⟩ := List.getElem_of_mem hind
  obtain ⟨j, hj, rfl⟩ := List.getElem_of_mem hg
  have hj' : j < cfg.DIMS := by
    rw [← hdim _ (List.getElem_mem hi)]
    exact hj
  obtain ⟨v, hv, hb⟩ := h i j (by omega) hj'
  have : gene p i j = .ok (p[i].x[j]) := by
    rw [gene_eq_ok]
    exact ⟨p[i], (readAt_eq_ok _ _ _).mpr (List.getElem?_eq_getElem hi),
      (readAt_eq_ok _ _ _).mpr (List.getElem?_eq_getElem hj)⟩
  rw [this] at hv
  injection hv with e
  rw [e]
  exact hb

theorem Initialize_inv (cfg : Config) (s s' : State) (hlu : cfg.lbound ≤ cfg.ubound)
    (hwf : s.WF cfg) (hro : RandOK cfg s) (h : Initialize cfg s = .ok s') :
    TrialInv cfg s' := by
  obtain ⟨_, _, a3, _, a5, _, _, a8, a9, a10⟩ := Initialize_spec cfg s s' h
  obtain ⟨w1, w2, w3, w4, w5⟩ := hwf
  have hl : s'.pop.length = cfg.POPSIZE := by rw [shape_length _ _ a9, w1]
  have hd := shape_dims cfg.DIMS _ _ a9 w2
  refine ⟨⟨hl, hd, by rw [a3]; exact w3, by rw [a3]; exact w4, by rw [a5]; exact w5⟩,
    RandOK_of_suffix cfg s s' a8 hro, GenesIn_of_index cfg _ hl hd (a10 hlu hro)⟩

theorem Evaluate_inv (cfg : Config) (s s' : State) (hinv : TrialInv cfg s)
    (h : Evaluate cfg s = .ok s') : TrialInv cfg s' := by
  obtain ⟨_, _, a3, a4, _, _, a7, a8⟩ := Evaluate_spec cfg s s' h
  obtain ⟨⟨w1, w2, w3, w4, w5⟩, hro, hg⟩ := hinv
  refine ⟨⟨by rw [length_of_map_x _ _ a8, w1], shape_of_map_x _ _ _ a8 w2,
    by rw [a3]; exact w3, by rw [a3]; exact w4, by rw [a4]; exact w5⟩, ?_,
    GenesIn_of_map_x cfg _ _ a8 hg⟩
  intro v hv
  rw [a7] at hv
  exact hro v hv

theorem Attention_inv (cfg : Config) (hq : QsortSpec cfg.qsort) (s s' : State)
    (hinv : TrialInv cfg s) (h : Attention cfg s = .ok s') : TrialInv cfg s' := by
  obtain ⟨a1, a2, _, _, _, a6, _, ⟨v, hv, _⟩, _, _⟩ := Attention_spec cfg s s' h
  obtain ⟨⟨w1, w2, w3, w4, w5⟩, hro, hg⟩ := hinv
  have hperm := (qsort_cmp_spec cfg.qsort hq s.pop).1
  rw [← a1] at hperm
  refine ⟨⟨by rw [hperm.length_eq, w1], fun ind hi => w2 ind (hperm.subset hi),
    by rw [a2]; exact w3, by rw [a2]; exact w4, by rw [a6]; exact w5⟩, ?_, ?_⟩
  · intro k hk
    exact hro k (by rw [hv]; exact List.mem_cons_of_mem _ hk)
  · intro ind hi
    exact hg ind (hperm.subset hi)

theorem Reproduction_inv (cfg : Config) (s s' : State) (hlu : cfg.lbound ≤ cfg.ubound)
    (hinv : TrialInv cfg s) (h : Reproduction_and_Reinforcement cfg s = .ok s') :
    TrialInv cfg s' ∧ GenesIn cfg s'.newpop := by
  obtain ⟨⟨w1, w2, w3, w4, w5⟩, hro, hg⟩ := hinv
  obtain ⟨a1, _, _, _, a5, _, _, a8, a9⟩ := Reproduction_spec cfg s s' h
  have hb := Reproduction_bounds cfg s s' hlu hro hg h
  have hl : s'.newpop.length = cfg.POPSIZE := by rw [shape_length _ _ a9, w3]
  have hd := shape_dims cfg.DIMS _ _ a9 w4
  refine ⟨⟨⟨by rw [a1]; exact w1, by rw [a1]; exact w2, hl, hd, by rw [a5]; exact w5⟩,
    RandOK_of_suffix cfg s s' a8 hro, by rw [a1]; exact hg⟩,
    GenesIn_of_index cfg _ hl hd hb⟩

theorem Motivation_inv (cfg : Config) (s s' : State) (hinv : TrialInv cfg s)
    (hnew : GenesIn cfg s.newpop) (h : Motivation cfg s = .ok s') : TrialInv cfg s' := by
  obtain ⟨⟨w1, w2, w3, w4, w5⟩, hro, hg⟩ := hinv
  obtain ⟨_, _, a3, _, _, a6, a7, a8, a9⟩ := Motivation_spec cfg s s' h
  refine ⟨⟨by rw [a8]; exact w1, ?_, by rw [length_of_map_x _ _ a7, w3],
    shape_of_map_x _ _ _ a7 w4, by rw [a3]; exact w5⟩, ?_, ?_⟩
  · intro ind hi
    rcases a9 ind hi with h1 | ⟨c, hc, hx⟩
    · exact w2 ind h1
    · rw [hx]; exact w4 c hc
  · intro v hv
    rw [a6] at hv
    exact hro v hv
  · intro ind hi g hgx
    rcases a9 ind hi with h1 | ⟨c, hc, hx⟩
    · exact hg ind h1 g hgx
    · rw [hx] at hgx
      exact hnew c hc g hgx

theorem generation_inv (cfg : Config) (hq : QsortSpec cfg.qsort) (s s' : State)
    (hlu : cfg.lbound ≤ cfg.ubound) (hinv : TrialInv cfg s)
    (h : generation cfg s = .ok s') : TrialInv cfg s' := by
  unfold generation at h
  cases h1 : Attention cfg s with
  | error e => simp [h1] at h
  | ok s1 =>
    simp only [h1] at h
    cases h2 : Reproduction_and_Reinforcement cfg s1 with
    | error e => simp [h2] at h
    | ok s2 =>
      simp only [h2] at h
      have i1 := Attention_inv cfg hq s s1 hinv h1
      obtain ⟨i2, i3⟩ := Reproduction_inv cfg s1 s2 hlu i1 h2
      exact Motivation_inv cfg s2 s' i2 i3 h

/-! ## The loop of Process -/

theorem Process_loop_spec (cfg : Config) :
    ∀ (fuel : Nat) (s : State) (tr : List State), Process_loop cfg fuel s = some (.ok tr) →
      ∃ rest, tr = s :: rest ∧
        List.Chain (fun a b => a.fes < cfg.FES ∧ generation cfg a = .ok b) s rest ∧
        ∃ last, (s :: rest).getLast? = some last ∧ ¬ last.fes < cfg.FES := by
  intro fuel
  induction fuel with
  | zero =>
    intro s tr h
    unfold Process_loop at h
    by_cases hc : s.fes < cfg.FES
    · simp [hc] at h
    · simp only [hc, if_false, Option.some.injEq, Except.ok.injEq] at h
      exact ⟨[], h.symm, List.Chain.nil, s, rfl, hc⟩
  | succ fuel ih =>
    intro s tr h
    unfold Process_loop at h
    by_cases hc : s.fes < cfg.FES
    · simp only [hc, if_true] at h
      cases hg : generation cfg s with
      | error e => simp [hg] at h
      | ok s1 =>
        simp only [hg] at h
        cases hl : Process_loop cfg fuel s1 with
        | none => simp [hl] at h
        | some r =>
          cases r with
          | error e => simp [hl] at h
          | ok tr1 =>
            simp only [hl, Option.some.injEq, Except.ok.injEq] at h
            obtain ⟨rest, rfl, hch, last, hlast, hfin⟩ := ih s1 tr1 hl
            refine ⟨s1 :: rest, h.symm, List.Chain.cons ⟨hc, hg⟩ hch, last, ?_, hfin⟩
            rw [List.getLast?_cons_cons]
            exact hlast
    · simp only [hc, if_false, Option.some.injEq, Except.ok.injEq] at h
      exact ⟨[], h.symm, List.Chain.nil, s, rfl, hc⟩

theorem Process_loop_terminates (cfg : Config)
    (hgen : ∀ s s', generation cfg s = .ok s' → s'.fes = s.fes + (cfg.POPSIZE : Int)) :
    ∀ (fuel : Nat) (s : State), cfg.FES - s.fes ≤ (fuel : Int) * (cfg.POPSIZE : Int) →
      ∃ r, Process_loop cfg fuel s = some r := by
  intro fuel
  induction fuel with
  | zero =>
    intro s hb
    unfold Process_loop
    have : ¬ s.fes < cfg.FES := by
      simp only [Nat.cast_zero, zero_mul] at hb
      omega
    rw [if_neg this]
    exact ⟨_, rfl⟩
  | succ fuel ih =>
    intro s hb
    unfold Process_loop
    by_cases hc : s.fes < cfg.FES
    · rw [if_pos hc]
      cases hg : generation cfg s with
      | error e => exact ⟨_, rfl⟩
      | ok s1 =>
        have hf := hgen s s1 hg
        have hb1 : cfg.FES - s1.fes ≤ (fuel : Int) * (cfg.POPSIZE : Int) := by
          rw [hf]
          push_cast at hb
          linarith
        obtain ⟨r, hr⟩ := ih s1 hb1
        simp only [hr]
        cases r with
        | error e => exact ⟨_, rfl⟩
        | ok tr => exact ⟨_, rfl⟩
    · rw [if_neg hc]
      exact ⟨_, rfl⟩

theorem chain_invariant (cfg : Config) (P : State → Prop)
    (hP : ∀ s s', P s → generation cfg s = .ok s' → P s') :
    ∀ (rest : List State) (s : State), P s →
      List.Chain (fun a b => a.fes < cfg.FES ∧ generation cfg a = .ok b) s rest →
      ∀ t ∈ s :: rest, P t := by
  intro rest
  induction rest with
  | nil =>
    intro s hs _ t ht
    simp only [List.mem_singleton] at ht
    rw [ht]
    exact hs
  | cons a rest ih =>
    intro s hs hch t ht
    rw [List.chain_cons] at hch
    rcases List.mem_cons.mp ht with rfl | ht'
    · exact hs
    · exact ih a (hP s a hs hch.1.2) hch.2 t ht'

theorem chain_fes (cfg : Config)
    (hgen : ∀ s s', generation cfg s = .ok s' → s'.fes = s.fes + (cfg.POPSIZE : Int)) :
    ∀ (rest : List State) (s last : State),
      List.Chain (fun a b => a.fes < cfg.FES ∧ generation cfg a = .ok b) s rest →
      (s :: rest).getLast? = some last →
      last.fes = s.fes + (rest.length : Int) * (cfg.POPSIZE : Int) ∧
      (rest ≠ [] → last.fes - (cfg.POPSIZE : Int) < cfg.FES) := by
  intro rest
  induction rest with
  | nil =>
    intro s last _ hl
    simp only [List.getLast?_singleton, Option.some.injEq] at hl
    subst hl
    exact ⟨by simp, fun h => absurd rfl h⟩
  | cons a rest ih =>
    intro s last hch hl
    rw [List.chain_cons] at hch
    rw [List.getLast?_cons_cons] at hl
    obtain ⟨h1, h2⟩ := ih a last hch.2 hl
    have hf := hgen s a hch.1.2
    refine ⟨?_, fun _ => ?_⟩
    · rw [h1, hf]
      simp only [List.length_cons]
      push_cast
      ring
    · by_cases hr : rest = []
      · subst hr
        simp only [List.getLast?_singleton, Option.some.injEq] at hl
        subst hl
        rw [hf]
        have := hch.1.1
        linarith
      · exact h2 hr

theorem generation_spec (cfg : Config) (s s' : State) (h : generation cfg s = .ok s') :
    s'.fes = s.fes + (cfg.POPSIZE : Int) ∧ s'.gbestval ≤ s.gbestval := by
  unfold generation at h
  cases h1 : Attention cfg s with
  | error e => simp [h1] at h
  | ok s1 =>
    simp only [h1] at h
    cases h2 : Reproduction_and_Reinforcement cfg s1 with
    | error e => simp [h2] at h
    | ok s2 =>
      simp only [h2] at h
      obtain ⟨_, _, a3, a4, _⟩ := Attention_spec cfg s s1 h1
      obtain ⟨_, b2, b3, _⟩ := Reproduction_spec cfg s1 s2 h2
      obtain ⟨c1, c2, _⟩ := Motivation_spec cfg s2 s' h
      refine ⟨by rw [c1, b2, a3], ?_⟩
      rw [← a4, ← b3]
      exact c2

theorem Process_trace_spec (cfg : Config) (fuel : Nat) (s : State) (tr : List State)
    (h : Process_trace cfg fuel s = some (.ok tr)) :
    ∃ s1 s2 rest, Initialize cfg s = .ok s1 ∧ Evaluate cfg s1 = .ok s2 ∧ tr = s2 :: rest ∧
      List.Chain (fun a b => a.fes < cfg.FES ∧ generation cfg a = .ok b) s2 rest ∧
      ∃ last, (s2 :: rest).getLast? = some last ∧ ¬ last.fes < cfg.FES := by
  unfold Process_trace at h
  cases h1 : Initialize cfg s with
  | error e => simp [h1] at h
  | ok s1 =>
    simp only [h1] at h
    cases h2 : Evaluate cfg s1 with
    | error e => simp [h2] at h
    | ok s2 =>
      simp only [h2] at h
      obtain ⟨rest, e, hch, hlast⟩ := Process_loop_spec cfg fuel s2 tr h
      exact ⟨s1, s2, rest, rfl, h2, e, hch, hlast⟩

/-! ## Claims on the whole trial -/

/-- C2: `Evaluate` and `Motivation` each leave `gbestval` less than or equal to its value
before the call, `Attention` and `Reproduction_and_Reinforcement` leave it unchanged, and
in the sequence of the states observed after `Evaluate` and after each generation of
`Process` the value of `gbestval` never increases. -/
theorem C2_gbest_monotone (cfg : Config) :
    (∀ s s', Evaluate cfg s = .ok s' → s'.gbestval ≤ s.gbestval) ∧
    (∀ s s', Motivation cfg s = .ok s' → s'.gbestval ≤ s.gbestval) ∧
    (∀ s s', Attention cfg s = .ok s' → s'.gbestval = s.gbestval) ∧
    (∀ s s', Reproduction_and_Reinforcement cfg s = .ok s' → s'.gbestval = s.gbestval) ∧
    (∀ fuel s tr, Process_trace cfg fuel s = some (.ok tr) →
      tr.Pairwise (fun a b => b.gbestval ≤ a.gbestval)) := by
  refine ⟨fun s s' h => (Evaluate_spec cfg s s' h).2.1,
    fun s s' h => (Motivation_spec cfg s s' h).2.1,
    fun s s' h => (Attention_spec cfg s s' h).2.2.2.1,
    fun s s' h => (Reproduction_spec cfg s s' h).2.2.1, ?_⟩
  intro fuel s tr h
  obtain ⟨s1, s2, rest, _, _, rfl, hch, _⟩ := Process_trace_spec cfg fuel s tr h
  haveI : IsTrans State (fun a b => b.gbestval ≤ a.gbestval) :=
    ⟨fun a b c h1 h2 => le_trans h2 h1⟩
  rw [← List.chain_iff_pairwise]
  exact hch.imp (fun a b hab => (generation_spec cfg a b hab.2).2)

/-- Witness of C2: in the trial of `demo` on `demo_rng` the two observed values of
`gbestval` do not increase. -/
theorem C2_witness :
    Process_trace demo 1 (demo_start demo_rng) = some (.ok demo_trace) ∧
    demo_trace.length = 2 ∧ demo_trace.Pairwise (fun a b => b.gbestval ≤ a.gbestval) :=
  have h : Process_trace demo 1 (demo_start demo_rng) = some (.ok demo_trace) := by decide!
  ⟨h, by decide!, (C2_gbest_monotone demo).2.2.2.2 1 (demo_start demo_rng) demo_trace h⟩

theorem forLoop_first {σ : Type} (body : Nat → σ → M σ) (k i : Nat) (s s' : σ)
    (h : forLoop body (k + 1) i s = .ok s') : ∃ s1, body i s = .ok s1 := by
  unfold forLoop at h
  cases hb : body i s with
  | error e => simp [hb] at h
  | ok s1 => exact ⟨s1, rfl⟩

theorem draw_other_stuck : ∀ l : List Nat, draw_other 1 0 l = .error Fault.randExhausted := by
  intro l
  induction l with
  | nil => rfl
  | cons v l ih =>
    unfold draw_other
    simp only [Nat.one_ne_zero, if_false, Nat.mod_one, if_true]
    exact ih

theorem Reproduction_stuck (cfg : Config) (hS : cfg.SN1 = 1) (hN : 1 ≤ cfg.POPSIZE)
    (hD : 1 ≤ cfg.DIMS) (s : State) :
    ¬ ∃ s', Reproduction_and_Reinforcement cfg s = .ok s' := by
  rintro ⟨s', h⟩
  unfold Reproduction_and_Reinforcement at h
  obtain ⟨n, hn⟩ : ∃ n, cfg.POPSIZE = n + 1 := ⟨cfg.POPSIZE - 1, by omega⟩
  obtain ⟨d, hd⟩ : ∃ d, cfg.DIMS = d + 1 := ⟨cfg.DIMS - 1, by omega⟩
  rw [hn] at h
  obtain ⟨s1, h1⟩ := forLoop_first _ _ _ _ _ h
  rw [hd] at h1
  obtain ⟨s2, h2⟩ := forLoop_first _ _ _ _ _ h1
  unfold Reproduction_gene at h2
  cases h3 : reproduce cfg 0 0 s with
  | error e => simp [h3] at h2
  | ok pr =>
    obtain ⟨v, t⟩ := pr
    obtain ⟨r, r1, k0, l1, l2, _, _, _, hd1, _⟩ := reproduce_spec cfg 0 0 s v t h3
    rw [hS, draw_other_stuck] at hd1
    simp at hd1

/-! ## Absence of faults in a valid configuration -/

theorem forLoop_progress {σ : Type} (body : Nat → σ → M σ) (P : σ → Prop)
    (hP : ∀ n t t', P t → body n t = .ok t' → P t') :
    ∀ (k i : Nat) (s : σ), P s →
      (∀ n t, i ≤ n → n < i + k → P t → OkOrStarved (body n t)) →
      OkOrStarved (forLoop body k i s) := by
  intro k
  induction k with
  | zero =>
    intro i s _ _
    exact Or.inl ⟨s, rfl⟩
  | succ k ih =>
    intro i s hs hprog
    unfold forLoop
    rcases hprog i s (le_refl _) (by omega) hs with ⟨s1, h1⟩ | h1
    · simp only [h1]
      exact ih (i + 1) s1 (hP i s s1 hs h1) (fun n t hn hn' => hprog n t (by omega) (by omega))
    · simp only [h1]
      exact Or.inr rfl

theorem forLoop_preserves {σ : Type} (body : Nat → σ → M σ) (P : σ → Prop)
    (hP : ∀ n t t', P t → body n t = .ok t' → P t') (k i : Nat) (s s' : σ) (hs : P s)
    (h : forLoop body k i s = .ok s') : P s' :=
  forLoop_inv body (fun _ t => P t) k i s s' hs (fun n t t' _ _ ht hb => hP n t t' ht hb) h

theorem gene_of_WF (cfg : Config) (p : List Individual) (i j : Nat)
    (hl : i < p.length) (hd : ∀ ind ∈ p, ind.x.length = cfg.DIMS) (hj : j < cfg.DIMS) :
    ∃ v, gene p i j = .ok v := by
  obtain ⟨ind, hi⟩ := readAt_of_lt hl
  have hx : j < ind.x.length := by rw [hd ind (readAt_mem hi)]; exact hj
  obtain ⟨v, hv⟩ := readAt_of_lt hx
  exact ⟨v, (gene_eq_ok _ _ _ _).mpr ⟨ind, hi, hv⟩⟩

theorem setGene_of_WF (cfg : Config) (p : List Individual) (i j : Nat) (v : ℚ)
    (hl : i < p.length) (hd : ∀ ind ∈ p, ind.x.length = cfg.DIMS) (hj : j < cfg.DIMS) :
    ∃ p', setGene p i j v = .ok p' := by
  obtain ⟨ind, hi⟩ := readAt_of_lt hl
  have hx : j < ind.x.length := by rw [hd ind (readAt_mem hi)]; exact hj
  exact ⟨_, (setGene_eq_ok _ _ _ _ _).mpr ⟨ind, hi, hx, rfl⟩⟩

theorem randval_progress (cfg : Config) (hR : cfg.RAND_MAX ≠ 0) (low high : ℚ) (s : State) :
    OkOrStarved (randval cfg low high s) := by
  cases hrng : s.rng with
  | nil =>
    right
    unfold randval rand
    simp only [hrng]
  | cons k rest =>
    left
    exact ⟨_, (randval_eq_ok cfg low high s _ _).mpr ⟨k, rest, hrng, hR, rfl, rfl⟩⟩

theorem draw_other_progress (m i : Nat) (hm : m ≠ 0) :
    ∀ l : List Nat, OkOrStarved (draw_other m i l) := by
  intro l
  induction l with
  | nil => exact Or.inr rfl
  | cons v l ih =>
    unfold draw_other
    simp only [hm, if_false]
    by_cases hv : v % m = i
    · simp only [hv, if_true]
      exact ih
    · simp only [hv, if_false]
      exact Or.inl ⟨_, rfl⟩

theorem draw_excluding_progress (m i : Nat) (hm : m ≠ 0) (s : State) :
    OkOrStarved (draw_excluding m i s) := by
  unfold draw_excluding
  rcases draw_other_progress m i hm s.rng with ⟨⟨r, rest⟩, h⟩ | h
  · simp only [h]
    exact Or.inl ⟨_, rfl⟩
  · simp only [h]
    exact Or.inr rfl

theorem WF_of_InitializeFrame (cfg : Config) (s t : State) (hwf : s.WF cfg)
    (h : InitializeFrame s t) : t.WF cfg := by
  obtain ⟨w1, w2, w3, w4, w5⟩ := hwf
  obtain ⟨a1, _, _, _, a5, _, _, _, a9⟩ := h
  exact ⟨by rw [shape_length _ _ a9, w1], shape_dims cfg.DIMS _ _ a9 w2,
    by rw [a1]; exact w3, by rw [a1]; exact w4, by rw [a5]; exact w5⟩

theorem WF_of_ReproductionFrame (cfg : Config) (s t : State) (hwf : s.WF cfg)
    (h : ReproductionFrame s t) : t.WF cfg := by
  obtain ⟨w1, w2, w3, w4, w5⟩ := hwf
  obtain ⟨a1, _, _, _, a5, _, _, _, a9⟩ := h
  exact ⟨by rw [a1]; exact w1, by rw [a1]; exact w2, by rw [shape_length _ _ a9, w3],
    shape_dims cfg.DIMS _ _ a9 w4, by rw [a5]; exact w5⟩

theorem Initialize_progress (cfg : Config) (hv : cfg.Valid) (s : State) (hwf : s.WF cfg) :
    OkOrStarved (Initialize cfg s) := by
  have hwf0 : ({ s with fes := 0 } : State).WF cfg := hwf
  have hrow : ∀ i t t', t.WF cfg →
      forLoop (Initialize_gene cfg i) cfg.DIMS 0 t = .ok t' → t'.WF cfg := by
    intro i t t' ht h
    exact forLoop_preserves _ (fun u => u.WF cfg)
      (fun j u u' hu hb => WF_of_InitializeFrame cfg u u' hu
        (Initialize_gene_facts cfg i j u u' hb).1) _ _ _ _ ht h
  have key := forLoop_progress (fun i => forLoop (Initialize_gene cfg i) cfg.DIMS 0)
    (fun u => u.WF cfg) hrow cfg.POPSIZE 0 _ hwf0 ?_
  · unfold Initialize
    rcases key with ⟨s1, h1⟩ | h1
    · simp only [h1]
      exact Or.inl ⟨_, rfl⟩
    · simp only [h1]
      exact Or.inr rfl
  · intro i t _ hi ht
    refine forLoop_progress _ (fun u => u.WF cfg)
      (fun j u u' hu hb => WF_of_InitializeFrame cfg u u' hu
        (Initialize_gene_facts cfg i j u u' hb).1) _ _ _ ht ?_
    intro j u _ hj hu
    unfold Initialize_gene
    rcases randval_progress cfg hv.2.2.2.2 cfg.lbound cfg.ubound u with ⟨⟨v, u1⟩, h1⟩ | h1
    · simp only [h1]
      obtain ⟨k, rest, _, _, _, rfl⟩ := (randval_eq_ok _ _ _ _ _ _).mp h1
      obtain ⟨p', hp'⟩ := setGene_of_WF cfg u.pop i j v (by rw [hu.1]; omega) hu.2.1
        (by omega)
      simp only [hp']
      exact Or.inl ⟨_, rfl⟩
    · simp only [h1]
      exact Or.inr rfl

theorem Evaluate_body_WF (cfg : Config) (i : Nat) (t t' : State) (hwf : t.WF cfg)
    (h : Evaluate_body cfg i t = .ok t') : t'.WF cfg := by
  obtain ⟨ind, hr, hp, hn, _, ht, _⟩ := Evaluate_body_spec cfg i t t' h
  obtain ⟨w1, w2, w3, w4, w5⟩ := hwf
  have hx := map_x_set _ _ ind { ind with fit := cfg.function_name ind.x cfg.DIMS } hr rfl
  rw [← hp] at hx
  exact ⟨by rw [length_of_map_x _ _ hx, w1], shape_of_map_x _ _ _ hx w2,
    by rw [hn]; exact w3, by rw [hn]; exact w4, by rw [ht]; exact w5⟩

theorem Evaluate_progress (cfg : Config) (s : State) (hwf : s.WF cfg) :
    OkOrStarved (Evaluate cfg s) := by
  unfold Evaluate
  refine forLoop_progress _ (fun u => u.WF cfg)
    (fun i u u' hu hb => Evaluate_body_WF cfg i u u' hu hb) _ _ _ hwf ?_
  intro i t _ hi ht
  obtain ⟨ind, hr⟩ := readAt_of_lt (a := t.pop) (i := i) (by rw [ht.1]; omega)
  have h2 : setFit t.pop i (cfg.function_name ind.x cfg.DIMS) =
      .ok (t.pop.set i { ind with fit := cfg.function_name ind.x cfg.DIMS }) := by
    rw [setFit_eq_ok]
    exact ⟨ind, hr, rfl⟩
  unfold Evaluate_body
  simp only [hr, h2]
  split
  · exact Or.inl ⟨_, rfl⟩
  · exact Or.inl ⟨_, rfl⟩

theorem Motivation_body_WF (cfg : Config) (i : Nat) (t t' : State) (hwf : t.WF cfg)
    (h : Motivation_body cfg i t = .ok t') : t'.WF cfg := by
  obtain ⟨child0, parent, hc, hpar, hnp, _, ht, _, _, _, hcase⟩ :=
    Motivation_body_spec cfg i t t' h
  obtain ⟨w1, w2, w3, w4, w5⟩ := hwf
  have hx := map_x_set _ _ child0
    { child0 with fit := cfg.function_name child0.x cfg.DIMS } hc rfl
  rw [← hnp] at hx
  have hcd : child0.x.length = cfg.DIMS := w4 child0 (readAt_mem hc)
  refine ⟨?_, ?_, by rw [length_of_map_x _ _ hx, w3], shape_of_map_x _ _ _ hx w4,
    by rw [ht]; exact w5⟩
  · rcases hcase with ⟨_, hp, _⟩ | ⟨_, hp, _⟩
    · rw [hp, List.length_set]; exact w1
    · rw [hp]; exact w1
  · intro ind hind
    rcases hcase with ⟨_, hp, _⟩ | ⟨_, hp, _⟩
    · rw [hp] at hind
      rcases List.mem_or_eq_of_mem_set hind with h1 | h1
      · exact w2 ind h1
      · rw [h1]; exact hcd
    · rw [hp] at hind
      exact w2 ind hind

theorem Motivation_progress (cfg : Config) (s : State) (hwf : s.WF cfg) :
    OkOrStarved (Motivation cfg s) := by
  unfold Motivation
  refine forLoop_progress _ (fun u => u.WF cfg)
    (fun i u u' hu hb => Motivation_body_WF cfg i u u' hu hb) _ _ _ hwf ?_
  intro i t _ hi ht
  obtain ⟨child0, hc⟩ := readAt_of_lt (a := t.newpop) (i := i) (by rw [ht.2.2.1]; omega)
  obtain ⟨parent, hp⟩ := readAt_of_lt (a := t.pop) (i := i) (by rw [ht.1]; omega)
  have h2 : writeAt t.newpop i { child0 with fit := cfg.function_name child0.x cfg.DIMS } =
      .ok (t.newpop.set i { child0 with fit := cfg.function_name child0.x cfg.DIMS }) := by
    rw [writeAt_eq_ok]
    exact ⟨readAt_lt hc, rfl⟩
  have h4 : writeAt t.pop i { child0 with fit := cfg.function_name child0.x cfg.DIMS } =
      .ok (t.pop.set i { child0 with fit := cfg.function_name child0.x cfg.DIMS }) := by
    rw [writeAt_eq_ok]
    exact ⟨readAt_lt hp, rfl⟩
  unfold Motivation_body
  simp only [hc, h2, hp]
  split
  · simp only [h4]
    split
    · exact Or.inl ⟨_, rfl⟩
    · exact Or.inl ⟨_, rfl⟩
  · exact Or.inl ⟨_, rfl⟩

theorem copy_column_progress (cfg : Config) (pop : List Individual) (j : Nat)
    (hd : ∀ ind ∈ pop, ind.x.length = cfg.DIMS) (hj : j < cfg.DIMS) :
    ∀ (k start : Nat), start + k ≤ pop.length → ∃ l, copy_column pop j k start = .ok l := by
  intro k
  induction k with
  | zero => intro start _; exact ⟨[], rfl⟩
  | succ k ih =>
    intro start h
    obtain ⟨v, hv⟩ := gene_of_WF cfg pop start j (by omega) hd hj
    obtain ⟨rest, hrest⟩ := ih (start + 1) (by omega)
    exact ⟨v :: rest, by unfold copy_column; simp only [hv, hrest]⟩

theorem Attention_dim_WF (cfg : Config) (j : Nat) (t t' : State) (hwf : t.WF cfg)
    (h : Attention_dim cfg j t = .ok t') : t'.WF cfg := by
  obtain ⟨_, _, _, _, _, _, _, rfl⟩ := Attention_dim_spec cfg j t t' h
  obtain ⟨w1, w2, w3, w4, w5⟩ := hwf
  exact ⟨w1, w2, w3, w4, by simp only [List.length_set]; exact w5⟩

theorem Attention_dim_progress (cfg : Config) (hv : cfg.Valid) (j : Nat) (t : State)
    (hwf : t.WF cfg) (hj : j < cfg.DIMS) : OkOrStarved (Attention_dim cfg j t) := by
  obtain ⟨_, v2, v3, v4, _⟩ := hv
  obtain ⟨w1, w2, _, _, w5⟩ := hwf
  have hS2 : cfg.SN1 + cfg.SN2 = cfg.POPSIZE := by unfold Config.SN2; omega
  obtain ⟨s1, h1⟩ := copy_column_progress cfg t.pop j w2 hj cfg.SN1 0 (by omega)
  obtain ⟨s2, h2⟩ := copy_column_progress cfg t.pop j w2 hj cfg.SN2 cfg.SN1 (by omega)
  have l1 := (copy_column_spec _ _ _ _ _ h1).1
  have l2 := (copy_column_spec _ _ _ _ _ h2).1
  have h3 := t_test_eq cfg.sqrt s1 s2 (by omega) (by omega) (by omega)
  rw [l1, l2] at h3
  have h4 : writeAt t.t_Val j
      (if pooled_S cfg.sqrt s1 s2 = 0 then 0
        else (sample_mean s1 - sample_mean s2) / pooled_S cfg.sqrt s1 s2) =
      .ok (t.t_Val.set j (if pooled_S cfg.sqrt s1 s2 = 0 then 0
        else (sample_mean s1 - sample_mean s2) / pooled_S cfg.sqrt s1 s2)) := by
    rw [writeAt_eq_ok]
    exact ⟨by omega, rfl⟩
  unfold Attention_dim
  simp only [h1, h2, h3, h4]
  exact Or.inl ⟨_, rfl⟩

theorem WF_sorted (cfg : Config) (hq : QsortSpec cfg.qsort) (s : State) (hwf : s.WF cfg) :
    ({ s with pop := cfg.qsort cmp s.pop } : State).WF cfg := by
  obtain ⟨w1, w2, w3, w4, w5⟩ := hwf
  have hperm := (qsort_cmp_spec cfg.qsort hq s.pop).1
  exact ⟨by simp only [hperm.length_eq, w1], fun ind hi => w2 ind (hperm.subset hi),
    w3, w4, w5⟩

theorem Attention_WF (cfg : Config) (hq : QsortSpec cfg.qsort) (s s' : State)
    (hwf : s.WF cfg) (h : Attention cfg s = .ok s') : s'.WF cfg := by
  obtain ⟨a1, a2, _, _, _, a6, _⟩ := Attention_spec cfg s s' h
  obtain ⟨w1, w2, w3, w4, w5⟩ := WF_sorted cfg hq s hwf
  exact ⟨by rw [a1]; exact w1, by rw [a1]; exact w2, by rw [a2]; exact w3,
    by rw [a2]; exact w4, by rw [a6]; exact w5⟩

theorem Attention_progress (cfg : Config) (hv : cfg.Valid) (hq : QsortSpec cfg.qsort)
    (s : State) (hwf : s.WF cfg) : OkOrStarved (Attention cfg s) := by
  have hloop := forLoop_progress (Attention_dim cfg) (fun u => u.WF cfg)
    (fun j u u' hu hb => Attention_dim_WF cfg j u u' hu hb) cfg.DIMS 0 _
    (WF_sorted cfg hq s hwf)
    (fun j t _ hj ht => Attention_dim_progress cfg hv j t ht (by omega))
  unfold Attention
  rcases hloop with ⟨s1, h1⟩ | h1
  · simp only [h1]
    have hwf1 : s1.WF cfg := forLoop_preserves _ (fun u => u.WF cfg)
      (fun j u u' hu hb => Attention_dim_WF cfg j u u' hu hb) _ _ _ _
      (WF_sorted cfg hq s hwf) h1
    cases hrng : s1.rng with
    | nil =>
      have : rand s1 = .error Fault.randExhausted := by
        unfold rand
        simp only [hrng]
      simp only [this]
      exact Or.inr rfl
    | cons k rest =>
      have : rand s1 = .ok (k, { s1 with rng := rest }) :=
        (rand_eq_ok _ _ _).mpr ⟨rest, hrng, rfl⟩
      have hD : cfg.DIMS ≠ 0 := by have := hv.1; omega
      obtain ⟨t, ht⟩ := readAt_of_lt (a := s1.t_Val) (i := k % cfg.DIMS) (by
        rw [hwf1.2.2.2.2]
        exact Nat.mod_lt _ (Nat.pos_of_ne_zero hD))
      simp only [this, hD, if_false, ht]
      exact Or.inl ⟨_, rfl⟩
  · simp only [h1]
    exact Or.inr rfl

theorem explore_progress (cfg : Config) (hv : cfg.Valid) (i j r1 : Nat) (s : State)
    (hwf : s.WF cfg) (hi : i < cfg.POPSIZE) (hj : j < cfg.DIMS) (hr1 : r1 < cfg.POPSIZE) :
    OkOrStarved (explore cfg i j r1 s) := by
  have hR := hv.2.2.2.2
  obtain ⟨x1, hx1⟩ := gene_of_WF cfg s.pop r1 j (by rw [hwf.1]; exact hr1) hwf.2.1 hj
  obtain ⟨xi, hxi⟩ := gene_of_WF cfg s.pop i j (by rw [hwf.1]; exact hi) hwf.2.1 hj
  unfold explore
  rcases randval_progress cfg hR 0 1 s with ⟨⟨u1, s1⟩, h1⟩ | h1
  · simp only [h1]
    obtain ⟨_, rest1, _, _, _, rfl⟩ := (randval_eq_ok _ _ _ _ _ _).mp h1
    split
    · simp only [hx1]
      exact Or.inl ⟨_, rfl⟩
    · rcases randval_progress cfg hR 0 1 { s with rng := rest1 } with ⟨⟨u2, s2⟩, h2⟩ | h2
      · simp only [h2]
        obtain ⟨_, _, _, _, _, rfl⟩ := (randval_eq_ok _ _ _ _ _ _).mp h2
        split
        · exact randval_progress cfg hR _ _ _
        · simp only [hxi]
          exact Or.inl ⟨_, rfl⟩
      · simp only [h2]
        exact Or.inr rfl
  · simp only [h1]
    exact Or.inr rfl

theorem reproduce_progress (cfg : Config) (hv : cfg.Valid) (i j : Nat) (s : State)
    (hwf : s.WF cfg) (hi : i < cfg.POPSIZE) (hj : j < cfg.DIMS) :
    OkOrStarved (reproduce cfg i j s) := by
  obtain ⟨_, v2, v3, v4, hR⟩ := hv
  have hv' : cfg.Valid := ⟨by assumption, v2, v3, v4, hR⟩
  unfold reproduce
  rcases draw_excluding_progress cfg.SN1 i (by omega) s with ⟨⟨r, s1⟩, h1⟩ | h1
  · simp only [h1]
    obtain ⟨l1, hd1, rfl⟩ := (draw_excluding_eq_ok _ _ _ _ _).mp h1
    obtain ⟨hr, _, _⟩ := draw_other_spec _ _ _ _ _ hd1
    rcases draw_excluding_progress cfg.POPSIZE i (by omega) { s with rng := l1 } with
      ⟨⟨r1, s2⟩, h2⟩ | h2
    · simp only [h2]
      obtain ⟨l2, hd2, rfl⟩ := (draw_excluding_eq_ok _ _ _ _ _).mp h2
      obtain ⟨hr1, _, _⟩ := draw_other_spec _ _ _ _ _ hd2
      rcases randval_progress cfg hR 0 1 { s with rng := l2 } with ⟨⟨nd, s3⟩, h3⟩ | h3
      · simp only [h3]
        obtain ⟨_, l3, _, _, _, rfl⟩ := (randval_eq_ok _ _ _ _ _ _).mp h3
        obtain ⟨xr, hxr⟩ := gene_of_WF cfg s.pop r j (by rw [hwf.1]; omega) hwf.2.1 hj
        obtain ⟨xi, hxi⟩ := gene_of_WF cfg s.pop i j (by rw [hwf.1]; omega) hwf.2.1 hj
        obtain ⟨t, ht⟩ := readAt_of_lt (a := s.t_Val) (i := j) (by rw [hwf.2.2.2.2]; exact hj)
        simp only [hxr, hxi, ht]
        split
        · exact Or.inl ⟨_, rfl⟩
        · split
          · exact Or.inl ⟨_, rfl⟩
          · exact explore_progress cfg hv' i j r1 { s with rng := l3 } hwf hi hj hr1
      · simp only [h3]
        exact Or.inr rfl
    · simp only [h2]
      exact Or.inr rfl
  · simp only [h1]
    exact Or.inr rfl

theorem Reproduction_gene_progress (cfg : Config) (hv : cfg.Valid) (i j : Nat) (s : State)
    (hwf : s.WF cfg) (hi : i < cfg.POPSIZE) (hj : j < cfg.DIMS) :
    OkOrStarved (Reproduction_gene cfg i j s) := by
  unfold Reproduction_gene
  rcases reproduce_progress cfg hv i j s hwf hi hj with ⟨⟨v, s1⟩, h1⟩ | h1
  · simp only [h1]
    obtain ⟨hfr, _, _⟩ := reproduce_facts cfg i j s v s1 h1
    have hnp : s1.newpop = s.newpop := by rw [hfr]
    obtain ⟨np, hnp'⟩ := setGene_of_WF cfg s.newpop i j
      (boundary_control cfg.lbound cfg.ubound v) (by rw [hwf.2.2.1]; exact hi)
      hwf.2.2.2.1 hj
    rw [hnp]
    simp only [hnp']
    exact Or.inl ⟨_, rfl⟩
  · simp only [h1]
    exact Or.inr rfl

theorem Reproduction_progress (cfg : Config) (hv : cfg.Valid) (s : State) (hwf : s.WF cfg) :
    OkOrStarved (Reproduction_and_Reinforcement cfg s) := by
  have hgene : ∀ i j u u', u.WF cfg → Reproduction_gene cfg i j u = .ok u' → u'.WF cfg :=
    fun i j u u' hu hb => WF_of_ReproductionFrame cfg u u' hu
      (Reproduction_gene_facts cfg i j u u' hb).1
  unfold Reproduction_and_Reinforcement
  refine forLoop_progress _ (fun u => u.WF cfg) ?_ _ _ _ hwf ?_
  · intro i t t' ht h
    exact forLoop_preserves _ (fun u => u.WF cfg) (hgene i) _ _ _ _ ht h
  · intro i t _ hi ht
    refine forLoop_progress _ (fun u => u.WF cfg) (hgene i) _ _ _ ht ?_
    intro j u _ hj hu
    exact Reproduction_gene_progress cfg hv i j u hu (by omega) (by omega)

theorem generation_WF (cfg : Config) (hq : QsortSpec cfg.qsort) (s s' : State)
    (hwf : s.WF cfg) (h : generation cfg s = .ok s') : s'.WF cfg := by
  unfold generation at h
  cases h1 : Attention cfg s with
  | error e => simp [h1] at h
  | ok s1 =>
    simp only [h1] at h
    cases h2 : Reproduction_and_Reinforcement cfg s1 with
    | error e => simp [h2] at h
    | ok s2 =>
      simp only [h2] at h
      have w1 := Attention_WF cfg hq s s1 hwf h1
      have w2 := WF_of_ReproductionFrame cfg s1 s2 w1 (Reproduction_spec cfg s1 s2 h2)
      unfold Motivation at h
      exact forLoop_preserves _ (fun u => u.WF cfg)
        (fun i u u' hu hb => Motivation_body_WF cfg i u u' hu hb) _ _ _ _ w2 h

theorem generation_progress (cfg : Config) (hv : cfg.Valid) (hq : QsortSpec cfg.qsort)
    (s : State) (hwf : s.WF cfg) : OkOrStarved (generation cfg s) := by
  unfold generation
  rcases Attention_progress cfg hv hq s hwf with ⟨s1, h1⟩ | h1
  · simp only [h1]
    have w1 := Attention_WF cfg hq s s1 hwf h1
    rcases Reproduction_progress cfg hv s1 w1 with ⟨s2, h2⟩ | h2
    · simp only [h2]
      exact Motivation_progress cfg s2
        (WF_of_ReproductionFrame cfg s1 s2 w1 (Reproduction_spec cfg s1 s2 h2))
    · simp only [h2]
      exact Or.inr rfl
  · simp only [h1]
    exact Or.inr rfl

theorem Process_loop_progress (cfg : Config) (hv : cfg.Valid) (hq : QsortSpec cfg.qsort) :
    ∀ (fuel : Nat) (s : State), s.WF cfg →
      cfg.FES - s.fes ≤ (fuel : Int) * (cfg.POPSIZE : Int) →
      ∃ r, Process_loop cfg fuel s = some r ∧ OkOrStarved r := by
  intro fuel
  induction fuel with
  | zero =>
    intro s _ hb
    have : ¬ s.fes < cfg.FES := by
      simp only [Nat.cast_zero, zero_mul] at hb
      omega
    unfold Process_loop
    rw [if_neg this]
    exact ⟨_, rfl, Or.inl ⟨_, rfl⟩⟩
  | succ fuel ih =>
    intro s hwf hb
    unfold Process_loop
    by_cases hc : s.fes < cfg.FES
    · rw [if_pos hc]
      rcases generation_progress cfg hv hq s hwf with ⟨s1, hg⟩ | hg
      · simp only [hg]
        have hf := (generation_spec cfg s s1 hg).1
        have hb1 : cfg.FES - s1.fes ≤ (fuel : Int) * (cfg.POPSIZE : Int) := by
          rw [hf]
          push_cast at hb
          linarith
        obtain ⟨r, hr, hok⟩ := ih s1 (generation_WF cfg hq s s1 hwf hg) hb1
        simp only [hr]
        rcases hok with ⟨tr, rfl⟩ | rfl
        · exact ⟨_, rfl, Or.inl ⟨_, rfl⟩⟩
        · exact ⟨_, rfl, Or.inr rfl⟩
      · simp only [hg]
        exact ⟨_, rfl, Or.inr rfl⟩
    · rw [if_neg hc]
      exact ⟨_, rfl, Or.inl ⟨_, rfl⟩⟩

theorem Process_trace_progress (cfg : Config) (hv : cfg.Valid) (hq : QsortSpec cfg.qsort)
    (fuel : Nat) (hfuel : cfg.FES ≤ (fuel : Int)) (s : State) (hwf : s.WF cfg) :
    ∃ r, Process_trace cfg fuel s = some r ∧ OkOrStarved r := by
  unfold Process_trace
  rcases Initialize_progress cfg hv s hwf with ⟨s1, h1⟩ | h1
  · simp only [h1]
    have w1 : s1.WF cfg := by
      obtain ⟨_, _, a3, _, a5, _, _, _, a9, _⟩ := Initialize_spec cfg s s1 h1
      obtain ⟨w1, w2, w3, w4, w5⟩ := hwf
      exact ⟨by rw [shape_length _ _ a9, w1], shape_dims cfg.DIMS _ _ a9 w2,
        by rw [a3]; exact w3, by rw [a3]; exact w4, by rw [a5]; exact w5⟩
    rcases Evaluate_progress cfg s1 w1 with ⟨s2, h2⟩ | h2
    · simp only [h2]
      have w2 : s2.WF cfg := by
        unfold Evaluate at h2
        exact forLoop_preserves _ (fun u => u.WF cfg)
          (fun i u u' hu hb => Evaluate_body_WF cfg i u u' hu hb) _ _ _ _ w1 h2
      have f1 := (Initialize_spec cfg s s1 h1).1
      have f2 := (Evaluate_spec cfg s1 s2 (by unfold Evaluate; exact h2)).1
      apply Process_loop_progress cfg hv hq fuel s2 w2
      have hN : (3 : Int) ≤ (cfg.POPSIZE : Int) := by exact_mod_cast hv.2.2.2.1
      have : (0 : Int) ≤ (fuel : Int) := Int.natCast_nonneg _
      nlinarith
    · simp only [h2]
      exact ⟨_, rfl, Or.inr rfl⟩
  · simp only [h1]
    exact ⟨_, rfl, Or.inr rfl⟩

/-! ## Boundary control -/

theorem reproduce_reinforced (cfg : Config) (i j : Nat) (u : State) (v : ℚ) (u' : State)
    (t : ℚ) (ht : readAt u.t_Val j = .ok t) (hguard : t ≥ u.AT ∨ t ≤ u.mAT)
    (h : reproduce cfg i j u = .ok (v, u')) : Reinforced cfg i j u v u' := by
  obtain ⟨r, r1, k0, l1, l2, xr, xi, t', hd1, hd2, _, _, _, _, _, _, hxr, hxi, ht', c1, c2, _⟩ :=
    reproduce_spec cfg i j u v u' h
  rw [ht] at ht'
  injection ht' with e
  subst e
  by_cases h1 : t ≥ u.AT
  · obtain ⟨hv, hs⟩ := c1 h1
    exact ⟨r, r1, k0, l1, l2, xr, xi, hd1, hd2, hxr, hxi, hs, Or.inl hv⟩
  · have h2 : t ≤ u.mAT := by
      rcases hguard with hg | hg
      · exact absurd hg h1
      · exact hg
    obtain ⟨hv, hs⟩ := c2 h1 h2
    exact ⟨r, r1, k0, l1, l2, xr, xi, hd1, hd2, hxr, hxi, hs, Or.inr hv⟩

theorem threshold_guard (t : ℚ) : t ≥ |t| ∨ t ≤ 0 - |t| := by
  rcases le_total 0 t with h | h
  · left
    rw [abs_of_nonneg h]
  · right
    rw [abs_of_nonpos h]
    linarith

theorem zero_threshold_guard (t AT mAT : ℚ) (h0 : AT = 0) (hm : mAT = -AT) :
    t ≥ AT ∨ t ≤ mAT := by
  rw [hm, h0]
  rcases le_total 0 t with h | h
  · left; exact h
  · right; simpa using h

/-- C19: after `Attention`, `AT ≥ 0` and `mAT = -AT`; the dimension `k = rand() % DIMS`
whose statistic set `AT` satisfies `t_Val[k] ≥ AT` or `t_Val[k] ≤ mAT`, so in any state
with these `t_Val`, `AT` and `mAT` the gene computation of dimension `k` takes a
reinforcement branch for every individual; and when `AT = 0` every dimension `j`
satisfies `t_Val[j] ≥ AT` or `t_Val[j] ≤ mAT`, so no gene computation of the generation
takes the exploration branch. -/
theorem C19_threshold_dimension (cfg : Config) (s s' : State)
    (h : Attention cfg s = .ok s') :
    0 ≤ s'.AT ∧ s'.mAT = -s'.AT ∧
    (∃ (rv k : Nat) (tk : ℚ), s.rng = rv :: s'.rng ∧ k = rv % cfg.DIMS ∧ k < cfg.DIMS ∧
      readAt s'.t_Val k = .ok tk ∧ s'.AT = |tk| ∧ (tk ≥ s'.AT ∨ tk ≤ s'.mAT) ∧
      ∀ (u : State) (i : Nat) (v : ℚ) (u' : State),
        u.t_Val = s'.t_Val → u.AT = s'.AT → u.mAT = s'.mAT →
        reproduce cfg i k u = .ok (v, u') → Reinforced cfg i k u v u') ∧
    (s'.AT = 0 →
      (∀ (j : Nat) (tj : ℚ), readAt s'.t_Val j = .ok tj → tj ≥ s'.AT ∨ tj ≤ s'.mAT) ∧
      ∀ (u : State) (i j : Nat) (v : ℚ) (u' : State),
        u.t_Val = s'.t_Val → u.AT = s'.AT → u.mAT = s'.mAT →
        reproduce cfg i j u = .ok (v, u') → Reinforced cfg i j u v u') := by
  obtain ⟨_, _, _, _, _, _, hD, ⟨rv, hrng, tk, htk, hAT, hmAT⟩, _, _⟩ :=
    Attention_spec cfg s s' h
  have hm : s'.mAT = -s'.AT := by rw [hmAT, hAT]; ring
  have hguard : tk ≥ s'.AT ∨ tk ≤ s'.mAT := by
    rw [hAT, hmAT]
    exact threshold_guard tk
  refine ⟨by rw [hAT]; exact abs_nonneg _, hm, ⟨rv, rv % cfg.DIMS, tk, hrng, rfl,
    Nat.mod_lt _ (Nat.pos_of_ne_zero hD), htk, hAT, hguard, ?_⟩, ?_⟩
  · intro u i v u' e1 e2 e3 hr
    exact reproduce_reinforced cfg i _ u v u' tk (by rw [e1]; exact htk)
      (by rw [e2, e3]; exact hguard) hr
  · intro h0
    refine ⟨fun j tj _ => zero_threshold_guard tj _ _ h0 hm, ?_⟩
    intro u i j v u' e1 e2 e3 hr
    obtain ⟨_, _, _, _, _, _, _, t, _, _, _, _, _, _, _, _, _, _, ht, _⟩ :=
      reproduce_spec cfg i j u v u' hr
    exact reproduce_reinforced cfg i j u v u' t ht
      (by rw [e2, e3]; exact zero_threshold_guard t _ _ h0 hm) hr

/-- Witness of C19: `Attention` on `demo_tied`. -/
theorem C19_witness :
    Attention demo demo_tied = .ok demo_attended ∧
    0 ≤ demo_attended.AT ∧ demo_attended.mAT = -demo_attended.AT :=
  have h : Attention demo demo_tied = .ok demo_attended := by decide!
  have w := C19_threshold_dimension demo demo_tied demo_attended h
  ⟨h, w.1, w.2.1⟩

/-! ## The rejection loops -/

theorem draw_other_single (m i r : Nat) (hr : r < m) (hne : r ≠ i) :
    draw_other m i [r] = .ok (r, []) := by
  have hm : m ≠ 0 := by omega
  unfold draw_other
  simp only [hm, if_false, Nat.mod_eq_of_lt hr, hne]

theorem draw_other_can_exit (m i : Nat) :
    (∃ (l : List Nat) (r : Nat) (rest : List Nat), draw_other m i l = .ok (r, rest)) ↔
      ∃ r, r < m ∧ r ≠ i := by
  constructor
  · rintro ⟨l, r, rest, h⟩
    obtain ⟨h1, h2, _⟩ := draw_other_spec m i l r rest h
    exact ⟨r, h1, h2⟩
  · rintro ⟨r, h1, h2⟩
    exact ⟨[r], r, [], draw_other_single m i r h1 h2⟩

theorem admissible_elite (SN1 i : Nat) (h1 : 1 ≤ SN1) :
    (∃ r, r < SN1 ∧ r ≠ i) ↔ (SN1 ≥ 2 ∨ i ≥ SN1) := by
  constructor
  · rintro ⟨r, hr, hne⟩
    omega
  · intro h
    by_cases hi : i = 0
    · exact ⟨1, by omega, by omega⟩
    · exact ⟨0, by omega, by omega⟩

theorem admissible_any (POPSIZE i : Nat) (hi : i < POPSIZE) :
    (∃ r, r < POPSIZE ∧ r ≠ i) ↔ POPSIZE ≥ 2 := by
  constructor
  · rintro ⟨r, hr, hne⟩
    omega
  · intro h
    by_cases h0 : i = 0
    · exact ⟨1, by omega, by omega⟩
    · exact ⟨0, by omega, by omega⟩

/-- C18 fails for `SN1 = 0` and `i = 0`: `i ≥ SN1` holds, yet no `r` lies in `[0, SN1)`,
and on no sequence of `rand()` values does the loop `do { r = rand() % SN1; } while
(r == i);` exit (`rand() % 0` divides by zero). -/
theorem C18_counterexample :
    ((0 : Nat) ≥ 2 ∨ (0 : Nat) ≥ 0) ∧ (¬ ∃ r : Nat, r < 0 ∧ r ≠ 0) ∧
    (¬ ∃ (l : List Nat) (r : Nat) (rest : List Nat), draw_other 0 0 l = .ok (r, rest)) ∧
    draw_other 0 0 [7] = .error Fault.intDivZero := by
  refine ⟨Or.inr (le_refl _), ?_, ?_, by decide⟩
  · rintro ⟨r, hr, _⟩
    exact absurd hr (Nat.not_lt_zero _)
  · rw [draw_other_can_exit]
    rintro ⟨r, hr, _⟩
    exact absurd hr (Nat.not_lt_zero _)

/-- C18 (amended): for `SN1 ≥ 1` and every index `i`, the loop that draws
`r = rand() % SN1` until `r ≠ i` has an admissible outcome, and exits on some sequence of
`rand()` values, if and only if `SN1 ≥ 2` or `i ≥ SN1`; for every `i < POPSIZE` the loop
that draws `r1 = rand() % POPSIZE` until `r1 ≠ i` has one if and only if `POPSIZE ≥ 2`;
both loops can exit for every `i < 30` with `SN1 = 15` and `POPSIZE = 30`; and for
`SN1 = 1` the loop of individual `0` exits on no sequence of `rand()` values. -/
theorem C18_exemplar_selection :
    (∀ SN1 i : Nat, 1 ≤ SN1 →
      ((∃ r, r < SN1 ∧ r ≠ i) ↔ (SN1 ≥ 2 ∨ i ≥ SN1)) ∧
      ((∃ (l : List Nat) (r : Nat) (rest : List Nat),
          draw_other SN1 i l = .ok (r, rest)) ↔ (SN1 ≥ 2 ∨ i ≥ SN1))) ∧
    (∀ POPSIZE i : Nat, i < POPSIZE →
      ((∃ r, r < POPSIZE ∧ r ≠ i) ↔ POPSIZE ≥ 2) ∧
      ((∃ (l : List Nat) (r : Nat) (rest : List Nat),
          draw_other POPSIZE i l = .ok (r, rest)) ↔ POPSIZE ≥ 2)) ∧
    (∀ i : Nat, i < 30 →
      (∃ (l : List Nat) (r : Nat) (rest : List Nat), draw_other 15 i l = .ok (r, rest)) ∧
      (∃ (l : List Nat) (r : Nat) (rest : List Nat), draw_other 30 i l = .ok (r, rest))) ∧
    (∀ l : List Nat, draw_other 1 0 l = .error Fault.randExhausted) := by
  refine ⟨?_, ?_, ?_, draw_other_stuck⟩
  · intro SN1 i h1
    exact ⟨admissible_elite SN1 i h1, (draw_other_can_exit SN1 i).trans
      (admissible_elite SN1 i h1)⟩
  · intro POPSIZE i hi
    exact ⟨admissible_any POPSIZE i hi, (draw_other_can_exit POPSIZE i).trans
      (admissible_any POPSIZE i hi)⟩
  · intro i hi
    exact ⟨(draw_other_can_exit 15 i).mpr ((admissible_elite 15 i (by omega)).mpr
        (Or.inl (by omega))),
      (draw_other_can_exit 30 i).mpr ((admissible_any 30 i hi).mpr (by omega))⟩

/-- Witness of C18 (amended): with `SN1 = 15` the loop of individual `0` rejects
`rand() = 15` and exits with `r = 1` on `rand() = 16`. -/
theorem C18_witness :
    draw_other 15 0 [15, 16, 3] = .ok (1, [3]) ∧
    ((∃ r, r < 15 ∧ r ≠ 0) ↔ (15 ≥ 2 ∨ 0 ≥ 15)) :=
  ⟨by decide, ((C18_exemplar_selection).1 15 0 (by decide)).1⟩

/-! ## The global best and the population minimum -/

theorem readAt_of_mem {α : Type} {a : List α} {v : α} (h : v ∈ a) :
    ∃ k, readAt a k = .ok v := by
  obtain ⟨k, hk, rfl⟩ := List.getElem_of_mem h
  exact ⟨k, (readAt_eq_ok _ _ _).mpr (List.getElem?_eq_getElem hk)⟩

theorem Motivation_body_min (cfg : Config) (i : Nat) (t t' : State)
    (hmin : IsPopMin t.pop t.gbestval) (h : Motivation_body cfg i t = .ok t') :
    IsPopMin t'.pop t'.gbestval := by
  obtain ⟨child0, parent, _, hpar, _, _, _, _, _, _, hcase⟩ :=
    Motivation_body_spec cfg i t t' h
  obtain ⟨hle, hd, hdm, hdf⟩ := hmin
  have hpl := readAt_lt hpar
  rcases hcase with ⟨hcp, hp, hg⟩ | ⟨_, hp, hv, _⟩
  · rcases hg with ⟨hcg, hv, _⟩ | ⟨hcg, hv, _⟩
    · rw [hp, hv]
      refine ⟨?_, _, readAt_mem (readAt_set_self _ hpl), rfl⟩
      intro ind hind
      rcases List.mem_or_eq_of_mem_set hind with h1 | h1
      · exact le_trans hcg (hle ind h1)
      · rw [h1]
    · rw [hp, hv]
      refine ⟨?_, ?_⟩
      · intro ind hind
        rcases List.mem_or_eq_of_mem_set hind with h1 | h1
        · exact hle ind h1
        · rw [h1]
          exact le_of_lt (not_le.mp hcg)
      · obtain ⟨k, hk⟩ := readAt_of_mem hdm
        by_cases hki : i = k
        · subst hki
          rw [hpar] at hk
          injection hk with e
          rw [e, hdf] at hcp
          exact absurd hcp hcg
        · exact ⟨hd, readAt_mem (by rw [readAt_set_ne _ _ hki]; exact hk), hdf⟩
  · rw [hp, hv]
    exact ⟨hle, hd, hdm, hdf⟩

theorem generation_min (cfg : Config) (hq : QsortSpec cfg.qsort) (s s' : State)
    (hmin : IsPopMin s.pop s.gbestval) (h : generation cfg s = .ok s') :
    IsPopMin s'.pop s'.gbestval := by
  unfold generation at h
  cases h1 : Attention cfg s with
  | error e => simp [h1] at h
  | ok s1 =>
    simp only [h1] at h
    cases h2 : Reproduction_and_Reinforcement cfg s1 with
    | error e => simp [h2] at h
    | ok s2 =>
      simp only [h2] at h
      obtain ⟨a1, _, _, a4, _⟩ := Attention_spec cfg s s1 h1
      obtain ⟨b1, _, b3, _⟩ := Reproduction_spec cfg s1 s2 h2
      have hperm := (qsort_cmp_spec cfg.qsort hq s.pop).1
      have m2 : IsPopMin s2.pop s2.gbestval := by
        rw [b1, b3, a1, a4]
        obtain ⟨hle, hd, hdm, hdf⟩ := hmin
        exact ⟨fun ind hi => hle ind (hperm.subset hi), hd, hperm.symm.subset hdm, hdf⟩
      unfold Motivation at h
      exact forLoop_preserves _ (fun u => IsPopMin u.pop u.gbestval)
        (fun i u u' hu hb => Motivation_body_min cfg i u u' hu hb) _ _ _ _ m2 h

/-- C17: `qsort` meeting its contract, if before a generation `gbestval` is the minimum
of the fitness values of `pop` (no individual has a lower fitness and some individual
has exactly `gbestval`), then it is the minimum of the fitness values of `pop` after
that generation's `Attention`, `Reproduction_and_Reinforcement` and `Motivation`, for
every objective function and every sequence of `rand()` values. -/
theorem C17_gbest_is_population_minimum (cfg : Config) (hq : QsortSpec cfg.qsort)
    (s s' : State) (hmin : IsPopMin s.pop s.gbestval) (h : generation cfg s = .ok s') :
    (∀ ind ∈ s'.pop, s'.gbestval ≤ ind.fit) ∧ ∃ ind ∈ s'.pop, ind.fit = s'.gbestval :=
  generation_min cfg hq s s' hmin h

/-- Witness of C17: one generation of `demo` from `demo_mid demo_rng`, where `gbestval = 1`
is the fitness of `pop[0]`. -/
theorem C17_witness :
    generation demo (demo_mid demo_rng) = .ok demo_next ∧
    IsPopMin (demo_mid demo_rng).pop (demo_mid demo_rng).gbestval ∧
    IsPopMin demo_next.pop demo_next.gbestval :=
  have h : generation demo (demo_mid demo_rng) = .ok demo_next := by decide!
  have m : IsPopMin (demo_mid demo_rng).pop (demo_mid demo_rng).gbestval := by decide!
  ⟨h, m, C17_gbest_is_population_minimum demo qsort_ref_spec _ _ m h⟩

/-! ## Reproduction and reinforcement: what is written -/

theorem Reproduction_gene_written (cfg : Config) (i j : Nat) (s0 u u' : State)
    (hf : ReproductionFrame s0 u) (h : Reproduction_gene cfg i j u = .ok u') :
    Written cfg s0 i j (gene u'.newpop i j) := by
  unfold Reproduction_gene at h
  cases h1 : reproduce cfg i j u with
  | error e => simp [h1] at h
  | ok pr =>
    obtain ⟨v, u1⟩ := pr
    simp only [h1] at h
    cases h2 : setGene u1.newpop i j (boundary_control cfg.lbound cfg.ubound v) with
    | error e => simp [h2] at h
    | ok np =>
      simp only [h2, Except.ok.injEq] at h
      subst h
      exact ⟨u, v, u1, hf, h1, (setGene_facts _ _ _ _ _ h2).1⟩

theorem Reproduction_cells (cfg : Config) (s s' : State) (Q : Nat → Nat → M ℚ → Prop)
    (hstep : ∀ i j u u', ReproductionFrame s u → i < cfg.POPSIZE → j < cfg.DIMS →
      Reproduction_gene cfg i j u = .ok u' → Q i j (gene u'.newpop i j))
    (h : Reproduction_and_Reinforcement cfg s = .ok s') :
    ∀ i j, i < cfg.POPSIZE → j < cfg.DIMS → Q i j (gene s'.newpop i j) := by
  unfold Reproduction_and_Reinforcement at h
  have row : ∀ i t t', i < cfg.POPSIZE → ReproductionFrame s t →
      (∀ a b, a < i → b < cfg.DIMS → Q a b (gene t.newpop a b)) →
      forLoop (Reproduction_gene cfg i) cfg.DIMS 0 t = .ok t' →
      ReproductionFrame s t' ∧
        ∀ a b, a < i + 1 → b < cfg.DIMS → Q a b (gene t'.newpop a b) := by
    intro i t t' hi hf hd hrow
    have key := forLoop_inv (Reproduction_gene cfg i)
      (fun n u => ReproductionFrame s u ∧
        ∀ a b, (a < i ∧ b < cfg.DIMS) ∨ (a = i ∧ b < n) → Q a b (gene u.newpop a b))
      cfg.DIMS 0 t t'
      ⟨hf, fun a b hab => by
        rcases hab with ⟨h1, h2⟩ | ⟨_, h2⟩
        · exact hd a b h1 h2
        · exact absurd h2 (Nat.not_lt_zero _)⟩ ?_ hrow
    · refine ⟨key.1, fun a b ha hb => key.2 a b ?_⟩
      by_cases hai : a = i
      · right; exact ⟨hai, by omega⟩
      · left; exact ⟨by omega, hb⟩
    · rintro n u u' _ hn ⟨f1, d1⟩ hb
      obtain ⟨g1, g2, _⟩ := Reproduction_gene_facts cfg i n u u' hb
      refine ⟨ReproductionFrame_trans _ _ _ f1 g1, ?_⟩
      intro a b hab
      by_cases hc : a = i ∧ b = n
      · obtain ⟨rfl, rfl⟩ := hc
        exact hstep a b u u' f1 hi (by omega) hb
      · rw [g2 a b hc]
        apply d1 a b
        rcases hab with h1 | ⟨h1, h2⟩
        · left; exact h1
        · right
          refine ⟨h1, ?_⟩
          by_contra hcon
          exact hc ⟨h1, by omega⟩
  have key := forLoop_inv (fun i => forLoop (Reproduction_gene cfg i) cfg.DIMS 0)
    (fun n t => ReproductionFrame s t ∧
      ∀ a b, a < n → b < cfg.DIMS → Q a b (gene t.newpop a b))
    cfg.POPSIZE 0 s s'
    ⟨ReproductionFrame_refl s, fun a b ha _ => absurd ha (Nat.not_lt_zero _)⟩ ?_ h
  · intro i j hi hj
    exact key.2 i j (by omega) hj
  · rintro n t t' _ hn ⟨f1, d1⟩ hrow
    exact row n t t' (by omega) f1 d1 hrow

theorem Reproduction_outside (cfg : Config) (s s' : State)
    (h : Reproduction_and_Reinforcement cfg s = .ok s') :
    ∀ a b, ¬ (a < cfg.POPSIZE ∧ b < cfg.DIMS) → gene s'.newpop a b = gene s.newpop a b := by
  unfold Reproduction_and_Reinforcement at h
  have key := forLoop_inv (fun i => forLoop (Reproduction_gene cfg i) cfg.DIMS 0)
    (fun _ t => ∀ a b, ¬ (a < cfg.POPSIZE ∧ b < cfg.DIMS) →
      gene t.newpop a b = gene s.newpop a b)
    cfg.POPSIZE 0 s s' (fun _ _ _ => rfl) ?_ h
  · exact key
  · intro i t t' _ hi hP hrow
    have inner := forLoop_inv (Reproduction_gene cfg i)
      (fun _ u => ∀ a b, ¬ (a < cfg.POPSIZE ∧ b < cfg.DIMS) →
        gene u.newpop a b = gene s.newpop a b)
      cfg.DIMS 0 t t' hP ?_ hrow
    · exact inner
    · intro j u u' _ hj hQ hb a b hab
      obtain ⟨_, g2, _⟩ := Reproduction_gene_facts cfg i j u u' hb
      rw [g2 a b (fun hc => hab ⟨by omega, by omega⟩)]
      exact hQ a b hab

/-- C13: whenever `Reproduction_and_Reinforcement` returns, it has left `pop` (every
gene and every fitness), `fes`, `gbestval`, `gbestind`, `t_Val`, `AT` and `mAT`
unchanged, and in `newpop` the sizes and the fitness fields; every gene `newpop[i].x[j]`
with `i < POPSIZE` and `j < DIMS` holds the value that the gene computation for `(i, j)`
produced, after boundary control, and no other gene of `newpop` has changed. -/
theorem C13_reproduction_frame (cfg : Config) (s s' : State)
    (h : Reproduction_and_Reinforcement cfg s = .ok s') :
    s'.pop = s.pop ∧ s'.fes = s.fes ∧ s'.gbestval = s.gbestval ∧
    s'.gbestind = s.gbestind ∧ s'.t_Val = s.t_Val ∧ s'.AT = s.AT ∧ s'.mAT = s.mAT ∧
    s'.newpop.map (fun ind => (ind.x.length, ind.fit)) =
      s.newpop.map (fun ind => (ind.x.length, ind.fit)) ∧
    (∀ i j, i < cfg.POPSIZE → j < cfg.DIMS →
      ∃ (u : State) (v : ℚ) (u1 : State), ReproductionFrame s u ∧
        reproduce cfg i j u = .ok (v, u1) ∧
        gene s'.newpop i j = .ok (boundary_control cfg.lbound cfg.ubound v)) ∧
    (∀ a b, ¬ (a < cfg.POPSIZE ∧ b < cfg.DIMS) →
      gene s'.newpop a b = gene s.newpop a b) := by
  obtain ⟨a1, a2, a3, a4, a5, a6, a7, _, a9⟩ := Reproduction_spec cfg s s' h
  exact ⟨a1, a2, a3, a4, a5, a6, a7, a9,
    Reproduction_cells cfg s s' (Written cfg s)
      (fun i j u u' hf _ _ hb => Reproduction_gene_written cfg i j s u u' hf hb) h,
    Reproduction_outside cfg s s' h⟩

/-- Witness of C13: `Reproduction_and_Reinforcement` of `demo` on `demo_mid demo_rng`. -/
theorem C13_witness :
    Reproduction_and_Reinforcement demo (demo_mid demo_rng) = .ok demo_offspring ∧
    demo_offspring.pop = (demo_mid demo_rng).pop ∧
    demo_offspring.fes = (demo_mid demo_rng).fes :=
  have h : Reproduction_and_Reinforcement demo (demo_mid demo_rng) = .ok demo_offspring := by
    decide!
  have w := C13_reproduction_frame demo (demo_mid demo_rng) demo_offspring h
  ⟨h, w.1, w.2.1⟩

/-! ## The initial evaluation -/

theorem Evaluate_body_step (cfg : Config) (s : State) (n : Nat) (t t' : State)
    (hP : EvaluatedTo cfg s t n) (h : Evaluate_body cfg n t = .ok t') :
    EvaluatedTo cfg s t' (n + 1) := by
  obtain ⟨ind, hr, hp, _, _, _, _, _, _, hg⟩ := Evaluate_body_spec cfg n t t' h
  obtain ⟨p1, p2, p3⟩ := hP
  have hn := readAt_lt hr
  have hne : ∀ i, i ≠ n → readAt t'.pop i = readAt t.pop i := by
    intro i hi
    rw [hp, readAt_set_ne _ _ (fun e => hi e.symm)]
  have hself : readAt t'.pop n =
      .ok { ind with fit := cfg.function_name ind.x cfg.DIMS } := by
    rw [hp]
    exact readAt_set_self _ hn
  have hle : t'.gbestval ≤ t.gbestval := by
    rcases hg with ⟨hlt, hv, _⟩ | ⟨_, hv, _⟩
    · rw [hv]; exact le_of_lt hlt
    · rw [hv]
  have hts : t.gbestval ≤ s.gbestval := by
    rcases p3 with ⟨e, _⟩ | ⟨e, _⟩
    · rw [e]
    · exact le_of_lt e
  refine ⟨?_, ?_, ?_⟩
  · intro i hi
    by_cases hin : i = n
    · subst hin
      exact ⟨_, hself, rfl⟩
    · rw [hne i hin]
      exact p1 i (by omega)
  · intro i ind' hi hri
    by_cases hin : i = n
    · subst hin
      rw [hself] at hri
      injection hri with e
      rw [← e]
      rcases hg with ⟨_, hv, _⟩ | ⟨hnlt, hv, _⟩
      · rw [hv]
      · rw [hv]; exact not_lt.mp hnlt
    · rw [hne i hin] at hri
      exact le_trans hle (p2 i ind' (by omega) hri)
  · rcases hg with ⟨hlt, hv, hi⟩ | ⟨_, hv, hi⟩
    · right
      refine ⟨by rw [hv]; exact lt_of_lt_of_le hlt hts, by rw [hi]; omega,
        ⟨_, by rw [hi]; exact hself, by rw [hv]⟩, ?_⟩
      intro i ind' hlt' hri
      rw [hi] at hlt'
      rw [hne i (by omega)] at hri
      rw [hv]
      exact lt_of_lt_of_le hlt (p2 i ind' hlt' hri)
    · rcases p3 with ⟨e1, e2⟩ | ⟨e1, e2, ⟨ind', e3, e4⟩, e5⟩
      · left
        exact ⟨by rw [hv, e1], by rw [hi, e2]⟩
      · right
        refine ⟨by rw [hv]; exact e1, by rw [hi]; omega,
          ⟨ind', by rw [hi, hne _ (by omega)]; exact e3, by rw [hv]; exact e4⟩, ?_⟩
        intro i ind'' hlt' hri
        rw [hi] at hlt'
        rw [hne i (by omega)] at hri
        rw [hv]
        exact e5 i ind'' hlt' hri

theorem Evaluate_min (cfg : Config) (s s' : State) (h : Evaluate cfg s = .ok s') :
    EvaluatedTo cfg s s' cfg.POPSIZE := by
  unfold Evaluate at h
  have key := forLoop_inv (Evaluate_body cfg) (fun n t => EvaluatedTo cfg s t n)
    cfg.POPSIZE 0 s s'
    ⟨fun i hi => absurd hi (Nat.not_lt_zero _),
      fun i _ hi => absurd hi (Nat.not_lt_zero _), Or.inl ⟨rfl, rfl⟩⟩
    (fun n t t' _ _ hP hb => Evaluate_body_step cfg s n t t' hP hb) h
  simpa using key

/-- C12 fails for an objective function whose values are not below the sentinel
`1e300`: in `demo_huge` every individual has fitness `10 ^ 301` after `Initialize` and
`Evaluate`, while `gbestval` is still `10 ^ 300`, which is not the minimum of the fitness
values. -/
theorem C12_counterexample :
    (Initialize demo_huge (demo_start demo_rng) >>= Evaluate demo_huge) =
      .ok demo_huge_evaluated ∧
    demo_huge_evaluated.gbestval = (10 : ℚ) ^ 300 ∧
    demo_huge_evaluated.pop.length = demo_huge.POPSIZE ∧
    (∀ ind ∈ demo_huge_evaluated.pop, ind.fit = (10 : ℚ) ^ 301) ∧
    ¬ IsPopMin demo_huge_evaluated.pop demo_huge_evaluated.gbestval := by
  decide!

/-- C12 (amended): after `Initialize` followed by `Evaluate`, for every objective
function, `pop[i].fit` is the objective value of `pop[i].x` for every `i < POPSIZE`; if
some of these fitness values is below the sentinel `1e300`, then `gbestval` is their
minimum and `gbestind` is the smallest index attaining it; otherwise `gbestval` is the
sentinel and `gbestind` is the index left by the state before `Initialize`. -/
theorem C12_initial_evaluation (cfg : Config) (s s1 s2 : State)
    (h1 : Initialize cfg s = .ok s1) (h2 : Evaluate cfg s1 = .ok s2) :
    (∀ i, i < cfg.POPSIZE →
      ∃ ind, readAt s2.pop i = .ok ind ∧ ind.fit = cfg.function_name ind.x cfg.DIMS) ∧
    ((∃ i ind, i < cfg.POPSIZE ∧ readAt s2.pop i = .ok ind ∧ ind.fit < (10 : ℚ) ^ 300) →
      (∀ i ind, i < cfg.POPSIZE → readAt s2.pop i = .ok ind → s2.gbestval ≤ ind.fit) ∧
      s2.gbestind < cfg.POPSIZE ∧
      (∃ ind, readAt s2.pop s2.gbestind = .ok ind ∧ ind.fit = s2.gbestval) ∧
      ∀ i ind, i < s2.gbestind → readAt s2.pop i = .ok ind → s2.gbestval < ind.fit) ∧
    ((¬ ∃ i ind, i < cfg.POPSIZE ∧ readAt s2.pop i = .ok ind ∧ ind.fit < (10 : ℚ) ^ 300) →
      s2.gbestval = (10 : ℚ) ^ 300 ∧ s2.gbestind = s.gbestind) := by
  obtain ⟨_, a2, _, a4, _⟩ := Initialize_spec cfg s s1 h1
  obtain ⟨p1, p2, p3⟩ := Evaluate_min cfg s1 s2 h2
  rw [a2, a4] at p3
  refine ⟨p1, ?_, ?_⟩
  · rintro ⟨i, ind, hi, hr, hlt⟩
    rcases p3 with ⟨e, _⟩ | ⟨_, e2, e3, e4⟩
    · have := p2 i ind hi hr
      rw [e] at this
      exact absurd hlt (not_lt.mpr this)
    · exact ⟨p2, e2, e3, e4⟩
  · intro hno
    rcases p3 with ⟨e1, e2⟩ | ⟨e1, e2, ⟨ind, e3, e4⟩, _⟩
    · exact ⟨e1, e2⟩
    · exact absurd ⟨s2.gbestind, ind, e2, e3, by rw [e4]; exact e1⟩ hno

/-- Witness of C12 (amended): `Initialize` and `Evaluate` of `demo` on `demo_rng`. -/
theorem C12_witness :
    (∃ s1, Initialize demo (demo_start demo_rng) = .ok s1 ∧
      Evaluate demo s1 = .ok (demo_trace.headD (demo_start []))) ∧
    ∀ i, i < demo.POPSIZE →
      ∃ ind, readAt (demo_trace.headD (demo_start [])).pop i = .ok ind ∧
        ind.fit = demo.function_name ind.x demo.DIMS := by
  have h : (Initialize demo (demo_start demo_rng) >>= Evaluate demo) =
      .ok (demo_trace.headD (demo_start [])) := by decide!
  cases h1 : Initialize demo (demo_start demo_rng) with
  | error e =>
    rw [h1] at h
    exact absurd h (by intro hc; cases hc)
  | ok s1 =>
    rw [h1] at h
    have h2 : Evaluate demo s1 = .ok (demo_trace.headD (demo_start [])) := h
    exact ⟨⟨s1, rfl, h2⟩, (C12_initial_evaluation demo _ s1 _ h1 h2).1⟩

/-! ## The index of the global best -/

/-- C11 is violated by the code in the trial of `demo` on `demo_rng`: when `Process`
returns, `gbestind = 2`, `pop[2].fit` differs from `gbestval`, and the individual whose
fitness is `gbestval` sits at index `0`, where `qsort` moved it. -/
theorem C11_stale_index :
    Process demo 1 (demo_start demo_rng) = some (.ok demo_final) ∧
    demo_final.gbestind = 2 ∧
    demo_final.gbestval = 10000 / 1073676289 ∧
    Except.map Individual.fit (readAt demo_final.pop demo_final.gbestind) =
      .ok (219024000000 / 21911761) ∧
    Except.map Individual.fit (readAt demo_final.pop demo_final.gbestind) ≠
      .ok demo_final.gbestval ∧
    Except.map Individual.fit (readAt demo_final.pop 0) = .ok demo_final.gbestval := by
  decide!

/-! ## Configurations outside the intended range -/

theorem forLoop_skip {σ : Type} :
    ∀ (k i : Nat) (s : σ), forLoop (fun _ t => (.ok t : M σ)) k i s = .ok s := by
  intro k
  induction k with
  | zero => intro i s; rfl
  | succ k ih =>
    intro i s
    unfold forLoop
    exact ih (i + 1) s

theorem Initialize_flat (cfg : Config) (hD : cfg.DIMS = 0) (s : State) :
    Initialize cfg s = .ok { s with fes := 0, gbestval := (10 : ℚ) ^ 300 } := by
  unfold Initialize
  rw [hD]
  have e : (fun i => forLoop (Initialize_gene cfg i) 0 0) =
      fun (_ : Nat) (t : State) => (.ok t : M State) := by
    funext i t
    rfl
  rw [e, forLoop_skip]

theorem Evaluate_body_total (cfg : Config) (i : Nat) (t : State) (hi : i < t.pop.length) :
    ∃ t', Evaluate_body cfg i t = .ok t' := by
  obtain ⟨ind, hr⟩ := readAt_of_lt (a := t.pop) (i := i) hi
  have h2 : setFit t.pop i (cfg.function_name ind.x cfg.DIMS) =
      .ok (t.pop.set i { ind with fit := cfg.function_name ind.x cfg.DIMS }) := by
    rw [setFit_eq_ok]
    exact ⟨ind, hr, rfl⟩
  unfold Evaluate_body
  simp only [hr, h2]
  split
  · exact ⟨_, rfl⟩
  · exact ⟨_, rfl⟩

theorem Evaluate_total (cfg : Config) (s : State) (hlen : cfg.POPSIZE ≤ s.pop.length) :
    ∃ s', Evaluate cfg s = .ok s' := by
  unfold Evaluate
  refine forLoop_total _ (fun _ t => cfg.POPSIZE ≤ t.pop.length) _ _ _ hlen ?_
  intro n t _ hn ht
  have ht' : cfg.POPSIZE ≤ t.pop.length := ht
  obtain ⟨t', hb⟩ := Evaluate_body_total cfg n t (by omega)
  refine ⟨t', hb, ?_⟩
  obtain ⟨ind, _, hp, _⟩ := Evaluate_body_spec cfg n t t' hb
  show cfg.POPSIZE ≤ t'.pop.length
  rw [hp, List.length_set]
  exact ht'

theorem Attention_flat (cfg : Config) (hD : cfg.DIMS = 0) (s : State) (k : Nat)
    (rest : List Nat) (hr : s.rng = k :: rest) :
    Attention cfg s = .error Fault.intDivZero := by
  have h1 : rand { s with pop := cfg.qsort cmp s.pop } =
      .ok (k, { { s with pop := cfg.qsort cmp s.pop } with rng := rest }) := by
    unfold rand
    simp only [hr]
  unfold Attention
  rw [hD]
  simp [forLoop, h1]

theorem Process_flat (cfg : Config) (hD : cfg.DIMS = 0)
    (hF : (cfg.POPSIZE : Int) < cfg.FES) (s : State) (fuel k : Nat) (rest : List Nat)
    (hlen : cfg.POPSIZE ≤ s.pop.length) (hr : s.rng = k :: rest) :
    ∃ s2, Initialize cfg s = .ok { s with fes := 0, gbestval := (10 : ℚ) ^ 300 } ∧
      Evaluate cfg { s with fes := 0, gbestval := (10 : ℚ) ^ 300 } = .ok s2 ∧
      s2.fes = cfg.POPSIZE ∧
      Process_trace cfg (fuel + 1) s = some (.error Fault.intDivZero) := by
  have h1 := Initialize_flat cfg hD s
  obtain ⟨s2, h2⟩ := Evaluate_total cfg { s with fes := 0, gbestval := (10 : ℚ) ^ 300 } hlen
  obtain ⟨e1, _, _, _, _, _, e7, _⟩ := Evaluate_spec cfg _ s2 h2
  have hfes : s2.fes = cfg.POPSIZE := by simpa using e1
  have h3 : Attention cfg s2 = .error Fault.intDivZero :=
    Attention_flat cfg hD s2 k rest (by rw [e7]; exact hr)
  refine ⟨s2, h1, h2, hfes, ?_⟩
  unfold Process_trace
  simp only [h1, h2]
  unfold Process_loop
  rw [if_pos (by rw [hfes]; exact hF)]
  unfold generation
  simp only [h3]

/-- C15 fails: no configuration is rejected at the start of a trial.  With the bounds
exchanged (`lbound = 100`, `ubound = -100`), the trial of `demo_reversed` on `demo_rng`
returns after one generation like any other trial; with `DIMS = 0`, `Initialize` and
`Evaluate` of `demo_flat` return, three evaluations are counted, and the trial then
stops inside the first generation on the division `rand() % DIMS` by zero. -/
theorem C15_counterexample :
    (Process_trace demo_reversed 1 (demo_start demo_rng) = some (.ok demo_reversed_trace) ∧
      demo_reversed_trace.length = 2 ∧
      demo_reversed_trace.map State.fes = [3, 6]) ∧
    ((Initialize demo_flat (demo_start demo_rng) >>= Evaluate demo_flat) =
        .ok demo_flat_evaluated ∧
      demo_flat_evaluated.fes = 3 ∧
      Process_trace demo_flat 1 (demo_start demo_rng) = some (.error Fault.intDivZero)) := by
  decide!

/-- C15 (amended): `Process` validates nothing and raises no configuration error; a trial
always begins with `Initialize` and `Evaluate`.  With `lbound >= ubound` and the other
parameters in range (`DIMS >= 1`, `1 <= SN1 < POPSIZE`, `POPSIZE >= 3`) a trial given
enough generations returns, or stops only because the values of `rand()` are used up,
exactly as with `lbound < ubound`.  With `DIMS = 0` and `POPSIZE < FES`, `Initialize` and
`Evaluate` return, `POPSIZE` evaluations are counted, and the trial fails mid-run, in the
first `Attention`, on the integer division `rand() % DIMS` by zero. -/
theorem C15_no_validation (cfg : Config) :
    (cfg.ubound ≤ cfg.lbound → cfg.Valid → QsortSpec cfg.qsort →
      ∀ (s : State) (fuel : Nat), s.WF cfg → cfg.FES ≤ (fuel : Int) →
        ∃ r, Process_trace cfg fuel s = some r ∧ OkOrStarved r) ∧
    (cfg.DIMS = 0 → (cfg.POPSIZE : Int) < cfg.FES →
      ∀ (s : State) (fuel k : Nat) (rest : List Nat),
        cfg.POPSIZE ≤ s.pop.length → s.rng = k :: rest →
        ∃ s1 s2, Initialize cfg s = .ok s1 ∧ Evaluate cfg s1 = .ok s2 ∧
          s2.fes = cfg.POPSIZE ∧
          Process_trace cfg (fuel + 1) s = some (.error Fault.intDivZero)) := by
  constructor
  · intro _ hv hq s fuel hwf hfuel
    exact Process_trace_progress cfg hv hq fuel hfuel s hwf
  · intro hD hF s fuel k rest hlen hr
    obtain ⟨s2, h1, h2, h3, h4⟩ := Process_flat cfg hD hF s fuel k rest hlen hr
    exact ⟨_, s2, h1, h2, h3, h4⟩

/-- Witness of C15 (amended): the configurations `demo_reversed` and `demo_flat`. -/
theorem C15_witness :
    (∃ r, Process_trace demo_reversed 6 (demo_start demo_rng) = some r ∧ OkOrStarved r) ∧
    (∃ s1 s2, Initialize demo_flat (demo_start demo_rng) = .ok s1 ∧
      Evaluate demo_flat s1 = .ok s2 ∧ s2.fes = demo_flat.POPSIZE ∧
      Process_trace demo_flat (0 + 1) (demo_start demo_rng) =
        some (.error Fault.intDivZero)) :=
  ⟨(C15_no_validation demo_reversed).1 (by decide!)
      ⟨by decide, by decide, by decide, by decide, by decide⟩ qsort_ref_spec
      (demo_start demo_rng) 6 (by simp [State.WF, demo_start, demo_reversed, demo])
      (by decide),
    (C15_no_validation demo_flat).2 (by decide) (by decide) (demo_start demo_rng) 0 0
      (List.tail demo_rng) (by decide) (by decide)⟩

/-! ## Independence of the state before the trial -/

theorem forLoop_sim {σ : Type} (body : Nat → σ → M σ) (R : Nat → σ → σ → Prop) :
    ∀ (k i : Nat) (s1 s2 : σ), R i s1 s2 →
      (∀ n a b, i ≤ n → n < i + k → R n a b → OkSim (R (n + 1)) (body n a) (body n b)) →
      OkSim (R (i + k)) (forLoop body k i s1) (forLoop body k i s2) := by
  intro k
  induction k with
  | zero =>
    intro i s1 s2 h0 _ a ha
    simp [forLoop] at ha
    subst ha
    exact ⟨s2, rfl, by simpa using h0⟩
  | succ k ih =>
    intro i s1 s2 h0 hstep a ha
    unfold forLoop at ha
    cases hb : body i s1 with
    | error e => simp [hb] at ha
    | ok t1 =>
      simp only [hb] at ha
      obtain ⟨t2, hb2, hR⟩ := hstep i s1 s2 (le_refl _) (by omega) h0 t1 hb
      obtain ⟨b, hb3, hR3⟩ := ih (i + 1) t1 t2 hR
        (fun n x y hn hn' => hstep n x y (by omega) (by omega)) a ha
      refine ⟨b, ?_, ?_⟩
      · unfold forLoop
        simp only [hb2]
        exact hb3
      · have e : i + 1 + k = i + (k + 1) := by omega
        rwa [e] at hR3

theorem nested_sim (cfg : Config) (body : Nat → Nat → State → M State)
    (fld : State → List Individual) (B : State → State → Prop)
    (hbody : ∀ i j a b, i < cfg.POPSIZE → j < cfg.DIMS → B a b →
      OkSim (fun a' b' => B a' b' ∧ gene (fld a') i j = gene (fld b') i j ∧
        (∀ x y, ¬ (x = i ∧ y = j) → gene (fld a') x y = gene (fld a) x y) ∧
        (∀ x y, ¬ (x = i ∧ y = j) → gene (fld b') x y = gene (fld b) x y))
        (body i j a) (body i j b))
    (s1 s2 : State) (h0 : B s1 s2) :
    OkSim (fun a' b' => B a' b' ∧
        ∀ i j, i < cfg.POPSIZE → j < cfg.DIMS → gene (fld a') i j = gene (fld b') i j)
      (forLoop (fun i => forLoop (body i) cfg.DIMS 0) cfg.POPSIZE 0 s1)
      (forLoop (fun i => forLoop (body i) cfg.DIMS 0) cfg.POPSIZE 0 s2) := by
  have hrow : ∀ i a b, i < cfg.POPSIZE →
      (B a b ∧ CellsAgree cfg.DIMS (fld a) (fld b) i 0) →
      OkSim (fun a' b' => B a' b' ∧ CellsAgree cfg.DIMS (fld a') (fld b') (i + 1) 0)
        (forLoop (body i) cfg.DIMS 0 a) (forLoop (body i) cfg.DIMS 0 b) := by
    intro i a b hi hab a' ha'
    have key := forLoop_sim (body i)
      (fun j x y => B x y ∧ CellsAgree cfg.DIMS (fld x) (fld y) i j) cfg.DIMS 0 a b hab
      (by
        rintro j x y _ hj ⟨hB, hC⟩ x' hx'
        obtain ⟨y', hy', hB', hg, hx, hy⟩ := hbody i j x y hi (by omega) hB x' hx'
        refine ⟨y', hy', hB', ?_⟩
        intro u v huv
        by_cases hc : u = i ∧ v = j
        · rw [hc.1, hc.2]
          exact hg
        · rw [hx u v hc, hy u v hc]
          apply hC
          rcases huv with h1 | ⟨h1, h2⟩
          · exact Or.inl h1
          · exact Or.inr ⟨h1, by
              rcases Nat.lt_succ_iff_lt_or_eq.mp h2 with h3 | h3
              · exact h3
              · exact absurd ⟨h1, h3⟩ hc⟩) a' ha'
    obtain ⟨b', hb', hB', hC'⟩ := key
    refine ⟨b', hb', hB', ?_⟩
    intro u v huv
    apply hC'
    rcases huv with ⟨h1, h2⟩ | ⟨_, h2⟩
    · rcases Nat.lt_succ_iff_lt_or_eq.mp h1 with h3 | h3
      · exact Or.inl ⟨h3, h2⟩
      · exact Or.inr ⟨h3, by omega⟩
    · exact absurd h2 (Nat.not_lt_zero _)
  intro a' ha'
  have key := forLoop_sim (fun i => forLoop (body i) cfg.DIMS 0)
    (fun i x y => B x y ∧ CellsAgree cfg.DIMS (fld x) (fld y) i 0) cfg.POPSIZE 0 s1 s2
    ⟨h0, by
      intro u v huv
      rcases huv with ⟨h1, _⟩ | ⟨_, h2⟩
      · exact absurd h1 (Nat.not_lt_zero _)
      · exact absurd h2 (Nat.not_lt_zero _)⟩
    (fun i x y _ hi hxy => hrow i x y (by omega) hxy) a' ha'
  obtain ⟨b', hb', hB', hC'⟩ := key
  refine ⟨b', hb', hB', ?_⟩
  intro i j hi hj
  exact hC' i j (Or.inl ⟨by omega, hj⟩)

theorem gene_getElem (p : List Individual) (i j : Nat) (hi : i < p.length)
    (hj : j < (p.get ⟨i, hi⟩).x.length) :
    gene p i j = .ok ((p.get ⟨i, hi⟩).x.get ⟨j, hj⟩) := by
  rw [gene_eq_ok]
  refine ⟨p.get ⟨i, hi⟩, ?_, ?_⟩
  · rw [readAt_eq_ok]
    simp
  · rw [readAt_eq_ok]
    simp

theorem map_x_of_genes (cfg : Config) (p q : List Individual) (hp : Shaped cfg p)
    (hq : Shaped cfg q)
    (h : ∀ i j, i < cfg.POPSIZE → j < cfg.DIMS → gene p i j = gene q i j) :
    p.map Individual.x = q.map Individual.x := by
  apply List.ext_get
  · simp [hp.1, hq.1]
  · intro i h1 h2
    have hi1 : i < p.length := by simpa using h1
    have hi2 : i < q.length := by simpa using h2
    have e1 : (p.map Individual.x).get ⟨i, h1⟩ = (p.get ⟨i, hi1⟩).x := by simp
    have e2 : (q.map Individual.x).get ⟨i, h2⟩ = (q.get ⟨i, hi2⟩).x := by simp
    rw [e1, e2]
    have l1 : (p.get ⟨i, hi1⟩).x.length = cfg.DIMS := hp.2 _ (List.get_mem _ _ _)
    have l2 : (q.get ⟨i, hi2⟩).x.length = cfg.DIMS := hq.2 _ (List.get_mem _ _ _)
    apply List.ext_get
    · rw [l1, l2]
    · intro j hj1 hj2
      have := h i j (by rw [← hp.1]; exact hi1) (by rw [← l1]; exact hj1)
      rw [gene_getElem p i j hi1 hj1, gene_getElem q i j hi2 hj2] at this
      injection this

theorem ext_of_readAt {α : Type} (p q : List α) (hl : p.length = q.length)
    (h : ∀ i, i < p.length → readAt p i = readAt q i) : p = q := by
  apply List.ext_get hl
  intro i h1 h2
  have := h i h1
  have e1 : readAt p i = .ok (p.get ⟨i, h1⟩) := by rw [readAt_eq_ok]; simp
  have e2 : readAt q i = .ok (q.get ⟨i, h2⟩) := by rw [readAt_eq_ok]; simp
  rw [e1, e2] at this
  injection this

theorem x_of_map_x (p q : List Individual) (n : Nat) (ia ib : Individual)
    (ha : readAt p n = .ok ia) (hb : readAt q n = .ok ib)
    (h : p.map Individual.x = q.map Individual.x) : ia.x = ib.x := by
  rw [readAt_eq_ok] at ha hb
  have h1 : (p.map Individual.x)[n]? = some ia.x := by rw [List.getElem?_map, ha]; rfl
  have h2 : (q.map Individual.x)[n]? = some ib.x := by rw [List.getElem?_map, hb]; rfl
  rw [h, h2] at h1
  injection h1 with e
  exact e.symm

theorem Shaped_of_shape (cfg : Config) (p p' : List Individual)
    (h : p'.map (fun ind => (ind.x.length, ind.fit)) =
      p.map (fun ind => (ind.x.length, ind.fit)))
    (hs : Shaped cfg p) : Shaped cfg p' :=
  ⟨by rw [shape_length _ _ h, hs.1], shape_dims cfg.DIMS _ _ h hs.2⟩

theorem Shaped_of_map_x (cfg : Config) (p p' : List Individual)
    (h : p'.map Individual.x = p.map Individual.x) (hs : Shaped cfg p) : Shaped cfg p' :=
  ⟨by rw [length_of_map_x _ _ h, hs.1], shape_of_map_x _ _ _ h hs.2⟩

/-! ### Initialize -/

theorem Initialize_gene_sim (cfg : Config) (i j : Nat) (a b : State)
    (hi : i < cfg.POPSIZE) (hj : j < cfg.DIMS)
    (hB : a.WF cfg ∧ b.WF cfg ∧ a.rng = b.rng ∧ a.fes = b.fes) :
    OkSim (fun a' b' => (a'.WF cfg ∧ b'.WF cfg ∧ a'.rng = b'.rng ∧ a'.fes = b'.fes) ∧
        gene a'.pop i j = gene b'.pop i j ∧
        (∀ x y, ¬ (x = i ∧ y = j) → gene a'.pop x y = gene a.pop x y) ∧
        (∀ x y, ¬ (x = i ∧ y = j) → gene b'.pop x y = gene b.pop x y))
      (Initialize_gene cfg i j a) (Initialize_gene cfg i j b) := by
  intro a' h
  obtain ⟨wa, wb, hr, hf⟩ := hB
  have h0 := h
  unfold Initialize_gene at h
  cases h1 : randval cfg cfg.lbound cfg.ubound a with
  | error e => simp [h1] at h
  | ok pr =>
    obtain ⟨v, a1⟩ := pr
    simp only [h1] at h
    obtain ⟨k, rest, hrng, hR, hv, rfl⟩ := (randval_eq_ok _ _ _ _ _ _).mp h1
    cases h2 : setGene a.pop i j v with
    | error e => simp [h2] at h
    | ok p =>
      simp only [h2, Except.ok.injEq] at h
      have hb1 : randval cfg cfg.lbound cfg.ubound b = .ok (v, { b with rng := rest }) :=
        (randval_eq_ok _ _ _ _ _ _).mpr ⟨k, rest, by rw [← hr]; exact hrng, hR, hv, rfl⟩
      obtain ⟨q, hb2⟩ := setGene_of_WF cfg b.pop i j v (by rw [wb.1]; exact hi) wb.2.1 hj
      have hb : Initialize_gene cfg i j b = .ok { b with rng := rest, pop := q } := by
        unfold Initialize_gene
        simp only [hb1, hb2]
      refine ⟨_, hb, ⟨WF_of_InitializeFrame cfg a a' wa (Initialize_gene_facts cfg i j a a' h0).1,
        WF_of_InitializeFrame cfg b _ wb (Initialize_gene_facts cfg i j b _ hb).1, ?_, ?_⟩,
        ?_, ?_, ?_⟩
      · rw [← h]
      · rw [← h]
        exact hf
      · rw [← h]
        show gene p i j = gene q i j
        rw [(setGene_facts _ _ _ _ _ h2).1, (setGene_facts _ _ _ _ _ hb2).1]
      · rw [← h]
        exact (setGene_facts _ _ _ _ _ h2).2.1
      · exact (setGene_facts _ _ _ _ _ hb2).2.1

theorem WF_gbestval (cfg : Config) (s : State) (v : ℚ) (h : s.WF cfg) :
    ({ s with gbestval := v } : State).WF cfg := h

theorem Initialize_sim (cfg : Config) (a b : State) (wa : a.WF cfg) (wb : b.WF cfg)
    (hr : a.rng = b.rng) :
    OkSim (fun a' b' => a'.WF cfg ∧ b'.WF cfg ∧ a'.rng = b'.rng ∧ a'.fes = b'.fes ∧
        a'.gbestval = b'.gbestval ∧ a'.pop.map Individual.x = b'.pop.map Individual.x)
      (Initialize cfg a) (Initialize cfg b) := by
  intro a' h
  unfold Initialize at h
  cases hl : forLoop (fun i => forLoop (Initialize_gene cfg i) cfg.DIMS 0) cfg.POPSIZE 0
      { a with fes := 0 } with
  | error e => simp [hl] at h
  | ok a1 =>
    simp only [hl, Except.ok.injEq] at h
    obtain ⟨b1, hb1, ⟨wa1, wb1, hr1, hf1⟩, hg⟩ :=
      nested_sim cfg (Initialize_gene cfg) State.pop
        (fun x y => x.WF cfg ∧ y.WF cfg ∧ x.rng = y.rng ∧ x.fes = y.fes)
        (fun i j x y hi hj hB => Initialize_gene_sim cfg i j x y hi hj hB)
        { a with fes := 0 } { b with fes := 0 } ⟨wa, wb, hr, rfl⟩ a1 hl
    refine ⟨{ b1 with gbestval := (10 : ℚ) ^ 300 }, ?_, ?_⟩
    · unfold Initialize
      simp only [hb1]
    · subst h
      exact ⟨WF_gbestval cfg a1 _ wa1, WF_gbestval cfg b1 _ wb1, hr1, hf1, Eq.refl _,
        map_x_of_genes cfg _ _ ⟨wa1.1, wa1.2.1⟩ ⟨wb1.1, wb1.2.1⟩ hg⟩

/-! ### Evaluate -/

theorem Evaluate_body_sim (cfg : Config) (n : Nat) (a b : State) (hn : n < cfg.POPSIZE)
    (hR : (a.WF cfg ∧ b.WF cfg ∧ a.rng = b.rng ∧ a.fes = b.fes ∧
        a.gbestval = b.gbestval ∧ a.pop.map Individual.x = b.pop.map Individual.x) ∧
      ∀ i, i < n → readAt a.pop i = readAt b.pop i) :
    OkSim (fun a' b' => (a'.WF cfg ∧ b'.WF cfg ∧ a'.rng = b'.rng ∧ a'.fes = b'.fes ∧
        a'.gbestval = b'.gbestval ∧ a'.pop.map Individual.x = b'.pop.map Individual.x) ∧
      ∀ i, i < n + 1 → readAt a'.pop i = readAt b'.pop i)
      (Evaluate_body cfg n a) (Evaluate_body cfg n b) := by
  intro a' h
  obtain ⟨⟨wa, wb, hr, hf, hg, hx⟩, hreads⟩ := hR
  obtain ⟨b', hb⟩ := Evaluate_body_total cfg n b (by rw [wb.1]; exact hn)
  obtain ⟨ia, ra, pa, _, fa, _, _, _, rnga, ca⟩ := Evaluate_body_spec cfg n a a' h
  obtain ⟨ib, rb, pb, _, fb, _, _, _, rngb, cb⟩ := Evaluate_body_spec cfg n b b' hb
  have ex : ia.x = ib.x := x_of_map_x _ _ n ia ib ra rb hx
  rw [← ex, ← hg] at cb
  rw [← ex] at pb
  have hxa := map_x_set _ _ ia { ia with fit := cfg.function_name ia.x cfg.DIMS } ra (by rfl)
  have hxb := map_x_set _ _ ib { x := ia.x, fit := cfg.function_name ia.x cfg.DIMS } rb ex
  refine ⟨b', hb, ⟨Evaluate_body_WF cfg n a a' wa h, Evaluate_body_WF cfg n b b' wb hb,
    by rw [rnga, rngb, hr], by rw [fa, fb, hf], ?_, by rw [pa, pb, hxa, hxb, hx]⟩, ?_⟩
  · rcases ca with ⟨c1, c2, _⟩ | ⟨c1, c2, _⟩ <;> rcases cb with ⟨d1, d2, _⟩ | ⟨d1, d2, _⟩
    · rw [c2, d2]
    · exact absurd c1 d1
    · exact absurd d1 c1
    · rw [c2, d2]
  · intro i hi
    rw [pa, pb]
    by_cases hin : i = n
    · subst hin
      rw [readAt_set_self _ (readAt_lt ra), readAt_set_self _ (readAt_lt rb)]
    · rw [readAt_set_ne _ _ (fun e => hin e.symm), readAt_set_ne _ _ (fun e => hin e.symm)]
      exact hreads i (by omega)

theorem Evaluate_sim (cfg : Config) (a b : State)
    (hR : a.WF cfg ∧ b.WF cfg ∧ a.rng = b.rng ∧ a.fes = b.fes ∧
        a.gbestval = b.gbestval ∧ a.pop.map Individual.x = b.pop.map Individual.x) :
    OkSim (SameTrial cfg) (Evaluate cfg a) (Evaluate cfg b) := by
  intro a' h
  unfold Evaluate at h
  obtain ⟨b', hb, ⟨wa, wb, hr, hf, hg, _⟩, hreads⟩ := forLoop_sim (Evaluate_body cfg)
    (fun n x y => (x.WF cfg ∧ y.WF cfg ∧ x.rng = y.rng ∧ x.fes = y.fes ∧
        x.gbestval = y.gbestval ∧ x.pop.map Individual.x = y.pop.map Individual.x) ∧
      ∀ i, i < n → readAt x.pop i = readAt y.pop i) cfg.POPSIZE 0 a b
    ⟨hR, fun i hi => absurd hi (Nat.not_lt_zero _)⟩
    (fun n x y _ hn hxy => Evaluate_body_sim cfg n x y (by omega) hxy) a' h
  refine ⟨b', hb, ?_, hf, hg, hr, by rw [wa.2.2.2.2, wb.2.2.2.2],
    ⟨wa.2.2.1, wa.2.2.2.1⟩, ⟨wb.2.2.1, wb.2.2.2.1⟩⟩
  apply ext_of_readAt _ _ (by rw [wa.1, wb.1])
  intro i hi
  exact hreads i (by rw [wa.1] at hi; omega)

/-! ### Attention -/

theorem Attention_dim_sim (cfg : Config) (n : Nat) (a b : State)
    (hR : SameTrial cfg a b ∧ ∀ j, j < n → readAt a.t_Val j = readAt b.t_Val j) :
    OkSim (fun a' b' => SameTrial cfg a' b' ∧
        ∀ j, j < n + 1 → readAt a'.t_Val j = readAt b'.t_Val j)
      (Attention_dim cfg n a) (Attention_dim cfg n b) := by
  intro a' h
  obtain ⟨⟨hp, hf, hg, hr, hl, sa, sb⟩, hreads⟩ := hR
  obtain ⟨c1, c2, tv, h1, h2, h3, hn, rfl⟩ := Attention_dim_spec cfg n a a' h
  have hnb : n < b.t_Val.length := by rw [← hl]; exact hn
  have hw : writeAt b.t_Val n tv = .ok (b.t_Val.set n tv) :=
    (writeAt_eq_ok _ _ _ _).mpr ⟨hnb, rfl⟩
  have hb : Attention_dim cfg n b = .ok { b with t_Val := b.t_Val.set n tv } := by
    unfold Attention_dim
    rw [← hp]
    simp only [h1, h2, h3, hw]
  refine ⟨_, hb, ⟨hp, hf, hg, hr, ?_, sa, sb⟩, ?_⟩
  · show (a.t_Val.set n tv).length = (b.t_Val.set n tv).length
    rw [List.length_set, List.length_set]
    exact hl
  · intro j hj
    show readAt (a.t_Val.set n tv) j = readAt (b.t_Val.set n tv) j
    by_cases hjn : j = n
    · subst hjn
      rw [readAt_set_self _ hn, readAt_set_self _ hnb]
    · rw [readAt_set_ne _ _ (fun e => hjn e.symm), readAt_set_ne _ _ (fun e => hjn e.symm)]
      exact hreads j (by omega)

theorem Attention_sim (cfg : Config) (a b : State) (hR : SameTrial cfg a b) :
    OkSim (SameAttended cfg) (Attention cfg a) (Attention cfg b) := by
  intro a' h
  obtain ⟨hp, hf, hg, hr, hl, sa, sb⟩ := hR
  unfold Attention at h
  cases hl1 : forLoop (Attention_dim cfg) cfg.DIMS 0
      { a with pop := cfg.qsort cmp a.pop } with
  | error e => simp [hl1] at h
  | ok a1 =>
    simp only [hl1] at h
    obtain ⟨b1, hb1, ⟨hp1, hf1, hg1, hr1, hlen1, sa1, sb1⟩, hreads0⟩ :=
      forLoop_sim (Attention_dim cfg)
        (fun n x y => SameTrial cfg x y ∧ ∀ j, j < n → readAt x.t_Val j = readAt y.t_Val j)
        cfg.DIMS 0 { a with pop := cfg.qsort cmp a.pop } { b with pop := cfg.qsort cmp b.pop }
        ⟨⟨by show cfg.qsort cmp a.pop = cfg.qsort cmp b.pop; rw [hp], hf, hg, hr, hl, sa, sb⟩,
          fun j hj => absurd hj (Nat.not_lt_zero _)⟩
        (fun n x y _ _ hxy => Attention_dim_sim cfg n x y hxy) a1 hl1
    have hreads : ∀ j, j < cfg.DIMS → readAt a1.t_Val j = readAt b1.t_Val j :=
      fun j hj => hreads0 j (by omega)
    cases hrand : rand a1 with
    | error e => simp [hrand] at h
    | ok pr =>
      obtain ⟨v, a2⟩ := pr
      simp only [hrand] at h
      obtain ⟨rest, hrng, rfl⟩ := (rand_eq_ok _ _ _).mp hrand
      by_cases hD : cfg.DIMS = 0
      · simp [hD] at h
      · simp only [hD, if_false] at h
        cases hread : readAt a1.t_Val (v % cfg.DIMS) with
        | error e => simp [hread] at h
        | ok t =>
          simp only [hread, Except.ok.injEq] at h
          have hrandb : rand b1 = .ok (v, { b1 with rng := rest }) :=
            (rand_eq_ok _ _ _).mpr ⟨rest, by rw [← hr1]; exact hrng, rfl⟩
          have hreadb : readAt b1.t_Val (v % cfg.DIMS) = .ok t := by
            rw [← hreads _ (Nat.mod_lt _ (Nat.pos_of_ne_zero hD))]
            exact hread
          have hb : Attention cfg b =
              .ok { b1 with rng := rest, AT := |t|, mAT := 0 - |t| } := by
            unfold Attention
            simp only [hb1, hrandb, hD, if_false, hreadb]
          subst h
          exact ⟨_, hb, ⟨hp1, hf1, hg1, rfl, hlen1, sa1, sb1⟩, hreads, rfl, rfl⟩

/-! ### Reproduction and reinforcement -/

theorem explore_transfer (cfg : Config) (i j r1 : Nat) (a b : State) (hp : a.pop = b.pop)
    (hr : a.rng = b.rng) (v : ℚ) (a' : State) (h : explore cfg i j r1 a = .ok (v, a')) :
    explore cfg i j r1 b = .ok (v, { b with rng := a'.rng }) := by
  obtain ⟨pa, na, fa, ga, ia, ta, ATa, mATa, ra⟩ := a
  obtain ⟨pb, nb, fb, gb, ib, tb, ATb, mATb, rb⟩ := b
  simp only at hp hr
  subst hp hr
  unfold explore at h ⊢
  cases h1 : randval cfg 0 1 ⟨pa, na, fa, ga, ia, ta, ATa, mATa, ra⟩ with
  | error e => simp [h1] at h
  | ok p1 =>
    obtain ⟨u1, a1⟩ := p1
    simp only [h1] at h
    obtain ⟨k1, l1, hrng, hR, hu1, rfl⟩ := (randval_eq_ok cfg 0 1 _ u1 a1).mp h1
    have hb1 : randval cfg 0 1 ⟨pa, nb, fb, gb, ib, tb, ATb, mATb, ra⟩ =
        .ok (u1, ⟨pa, nb, fb, gb, ib, tb, ATb, mATb, l1⟩) :=
      (randval_eq_ok _ _ _ _ _ _).mpr ⟨k1, l1, hrng, hR, hu1, rfl⟩
    simp only [hb1]
    by_cases hlt : u1 < cfg.p_i
    · simp only [hlt, if_true] at h ⊢
      cases hg : gene pa r1 j with
      | error e => simp [hg] at h
      | ok w =>
        simp only [hg, Except.ok.injEq, Prod.mk.injEq] at h ⊢
        obtain ⟨rfl, rfl⟩ := h
        exact ⟨rfl, rfl⟩
    · simp only [hlt, if_false] at h ⊢
      cases h2 : randval cfg 0 1 ⟨pa, na, fa, ga, ia, ta, ATa, mATa, l1⟩ with
      | error e => simp [h2] at h
      | ok p2 =>
        obtain ⟨u2, a2⟩ := p2
        simp only [h2] at h
        obtain ⟨k2, l2, hrng2, _, hu2, rfl⟩ := (randval_eq_ok cfg 0 1 _ u2 a2).mp h2
        have hb2 : randval cfg 0 1 ⟨pa, nb, fb, gb, ib, tb, ATb, mATb, l1⟩ =
            .ok (u2, ⟨pa, nb, fb, gb, ib, tb, ATb, mATb, l2⟩) :=
          (randval_eq_ok _ _ _ _ _ _).mpr ⟨k2, l2, hrng2, hR, hu2, rfl⟩
        simp only [hb2]
        by_cases hlt2 : u2 < cfg.p_r
        · simp only [hlt2, if_true] at h ⊢
          obtain ⟨k3, l3, hrng3, _, hv, rfl⟩ := (randval_eq_ok cfg _ _ _ v a').mp h
          exact (randval_eq_ok _ _ _ _ _ _).mpr ⟨k3, l3, hrng3, hR, hv, rfl⟩
        · simp only [hlt2, if_false] at h ⊢
          cases hg : gene pa i j with
          | error e => simp [hg] at h
          | ok w =>
            simp only [hg, Except.ok.injEq, Prod.mk.injEq] at h ⊢
            obtain ⟨rfl, rfl⟩ := h
            exact ⟨rfl, rfl⟩

theorem reproduce_transfer (cfg : Config) (i j : Nat) (a b : State) (hp : a.pop = b.pop)
    (hr : a.rng = b.rng) (ht : readAt a.t_Val j = readAt b.t_Val j) (hA : a.AT = b.AT)
    (hm : a.mAT = b.mAT) (v : ℚ) (a' : State) (h : reproduce cfg i j a = .ok (v, a')) :
    reproduce cfg i j b = .ok (v, { b with rng := a'.rng }) := by
  obtain ⟨pa, na, fa, ga, ia, ta, ATa, mATa, ra⟩ := a
  obtain ⟨pb, nb, fb, gb, ib, tb, ATb, mATb, rb⟩ := b
  simp only at hp hr ht hA hm
  subst hp hr hA hm
  unfold reproduce at h ⊢
  cases h1 : draw_excluding cfg.SN1 i ⟨pa, na, fa, ga, ia, ta, ATa, mATa, ra⟩ with
  | error e => simp [h1] at h
  | ok p1 =>
    obtain ⟨r, a1⟩ := p1
    simp only [h1] at h
    obtain ⟨l1, hd1, rfl⟩ := (draw_excluding_eq_ok _ _ _ _ _).mp h1
    have hb1 : draw_excluding cfg.SN1 i ⟨pa, nb, fb, gb, ib, tb, ATa, mATa, ra⟩ =
        .ok (r, ⟨pa, nb, fb, gb, ib, tb, ATa, mATa, l1⟩) :=
      (draw_excluding_eq_ok _ _ _ _ _).mpr ⟨l1, hd1, rfl⟩
    simp only [hb1]
    cases h2 : draw_excluding cfg.POPSIZE i ⟨pa, na, fa, ga, ia, ta, ATa, mATa, l1⟩ with
    | error e => simp [h2] at h
    | ok p2 =>
      obtain ⟨r1, a2⟩ := p2
      simp only [h2] at h
      obtain ⟨l2, hd2, rfl⟩ := (draw_excluding_eq_ok _ _ _ _ _).mp h2
      have hb2 : draw_excluding cfg.POPSIZE i ⟨pa, nb, fb, gb, ib, tb, ATa, mATa, l1⟩ =
          .ok (r1, ⟨pa, nb, fb, gb, ib, tb, ATa, mATa, l2⟩) :=
        (draw_excluding_eq_ok _ _ _ _ _).mpr ⟨l2, hd2, rfl⟩
      simp only [hb2]
      cases h3 : randval cfg 0 1 ⟨pa, na, fa, ga, ia, ta, ATa, mATa, l2⟩ with
      | error e => simp [h3] at h
      | ok p3 =>
        obtain ⟨nd, a3⟩ := p3
        simp only [h3] at h
        obtain ⟨k0, l3, hrng3, hR, hnd, rfl⟩ := (randval_eq_ok _ _ _ _ _ _).mp h3
        have hb3 : randval cfg 0 1 ⟨pa, nb, fb, gb, ib, tb, ATa, mATa, l2⟩ =
            .ok (nd, ⟨pa, nb, fb, gb, ib, tb, ATa, mATa, l3⟩) :=
          (randval_eq_ok _ _ _ _ _ _).mpr ⟨k0, l3, hrng3, hR, hnd, rfl⟩
        simp only [hb3, ← ht]
        cases h4 : gene pa r j with
        | error e => simp [h4] at h
        | ok xr =>
          simp only [h4] at h ⊢
          cases h5 : gene pa i j with
          | error e => simp [h5] at h
          | ok xi =>
            simp only [h5] at h ⊢
            cases h6 : readAt ta j with
            | error e => simp [h6] at h
            | ok t =>
              simp only [h6] at h ⊢
              by_cases c1 : t ≥ ATa
              · simp only [c1, if_true, Except.ok.injEq, Prod.mk.injEq] at h ⊢
                obtain ⟨rfl, rfl⟩ := h
                exact ⟨rfl, rfl⟩
              · simp only [c1, if_false] at h ⊢
                by_cases c2 : t ≤ mATa
                · simp only [c2, if_true, Except.ok.injEq, Prod.mk.injEq] at h ⊢
                  obtain ⟨rfl, rfl⟩ := h
                  exact ⟨rfl, rfl⟩
                · simp only [c2, if_false] at h ⊢
                  exact explore_transfer cfg i j r1
                    ⟨pa, na, fa, ga, ia, ta, ATa, mATa, l3⟩
                    ⟨pa, nb, fb, gb, ib, tb, ATa, mATa, l3⟩ rfl rfl v a' h

theorem Reproduction_gene_sim (cfg : Config) (i j : Nat) (a b : State)
    (hi : i < cfg.POPSIZE) (hj : j < cfg.DIMS) (hB : SameAttended cfg a b) :
    OkSim (fun a' b' => SameAttended cfg a' b' ∧
        gene a'.newpop i j = gene b'.newpop i j ∧
        (∀ x y, ¬ (x = i ∧ y = j) → gene a'.newpop x y = gene a.newpop x y) ∧
        (∀ x y, ¬ (x = i ∧ y = j) → gene b'.newpop x y = gene b.newpop x y))
      (Reproduction_gene cfg i j a) (Reproduction_gene cfg i j b) := by
  intro a' h
  obtain ⟨⟨hp, hf, hg, hr, hl, sa, sb⟩, hreads, hA, hm⟩ := hB
  unfold Reproduction_gene at h
  cases h1 : reproduce cfg i j a with
  | error e => simp [h1] at h
  | ok pr =>
    obtain ⟨v, a1⟩ := pr
    simp only [h1] at h
    obtain ⟨l, hl1⟩ : ∃ l, a1 = { a with rng := l } :=
      ⟨_, (reproduce_facts cfg i j a v a1 h1).1⟩
    subst hl1
    have hb1 : reproduce cfg i j b = .ok (v, { b with rng := l }) :=
      reproduce_transfer cfg i j a b hp hr (hreads j hj) hA hm v _ h1
    cases h2 : setGene a.newpop i j (boundary_control cfg.lbound cfg.ubound v) with
    | error e => simp [h2] at h
    | ok np =>
      simp only [h2, Except.ok.injEq] at h
      obtain ⟨nq, hb2⟩ := setGene_of_WF cfg b.newpop i j
        (boundary_control cfg.lbound cfg.ubound v) (by rw [sb.1]; exact hi) sb.2 hj
      have hb : Reproduction_gene cfg i j b = .ok { b with rng := l, newpop := nq } := by
        unfold Reproduction_gene
        simp only [hb1, hb2]
      subst h
      refine ⟨_, hb, ⟨⟨hp, hf, hg, rfl, hl,
        Shaped_of_shape cfg _ _ (setGene_facts _ _ _ _ _ h2).2.2.1 sa,
        Shaped_of_shape cfg _ _ (setGene_facts _ _ _ _ _ hb2).2.2.1 sb⟩, hreads, hA, hm⟩,
        ?_, (setGene_facts _ _ _ _ _ h2).2.1, (setGene_facts _ _ _ _ _ hb2).2.1⟩
      show gene np i j = gene nq i j
      rw [(setGene_facts _ _ _ _ _ h2).1, (setGene_facts _ _ _ _ _ hb2).1]

theorem Reproduction_sim (cfg : Config) (a b : State) (hB : SameAttended cfg a b) :
    OkSim (fun a' b' => SameTrial cfg a' b' ∧
        a'.newpop.map Individual.x = b'.newpop.map Individual.x)
      (Reproduction_and_Reinforcement cfg a) (Reproduction_and_Reinforcement cfg b) := by
  intro a' h
  unfold Reproduction_and_Reinforcement at h
  obtain ⟨b', hb, hB', hg⟩ := nested_sim cfg (Reproduction_gene cfg) State.newpop
    (SameAttended cfg) (fun i j x y hi hj hxy => Reproduction_gene_sim cfg i j x y hi hj hxy)
    a b hB a' h
  exact ⟨b', hb, hB'.1, map_x_of_genes cfg _ _ hB'.1.2.2.2.2.2.1 hB'.1.2.2.2.2.2.2 hg⟩

/-! ### Motivation -/

theorem Motivation_body_total (cfg : Config) (i : Nat) (t : State)
    (h1 : i < t.newpop.length) (h2 : i < t.pop.length) :
    ∃ t', Motivation_body cfg i t = .ok t' := by
  obtain ⟨child0, hc⟩ := readAt_of_lt (a := t.newpop) (i := i) h1
  obtain ⟨parent, hp⟩ := readAt_of_lt (a := t.pop) (i := i) h2
  have h2 : writeAt t.newpop i { child0 with fit := cfg.function_name child0.x cfg.DIMS } =
      .ok (t.newpop.set i { child0 with fit := cfg.function_name child0.x cfg.DIMS }) := by
    rw [writeAt_eq_ok]
    exact ⟨readAt_lt hc, rfl⟩
  have h4 : writeAt t.pop i { child0 with fit := cfg.function_name child0.x cfg.DIMS } =
      .ok (t.pop.set i { child0 with fit := cfg.function_name child0.x cfg.DIMS }) := by
    rw [writeAt_eq_ok]
    exact ⟨readAt_lt hp, rfl⟩
  unfold Motivation_body
  simp only [hc, h2, hp]
  split
  · simp only [h4]
    split
    · exact ⟨_, rfl⟩
    · exact ⟨_, rfl⟩
  · exact ⟨_, rfl⟩

theorem Motivation_body_sim (cfg : Config) (n : Nat) (a b : State) (hn : n < cfg.POPSIZE)
    (hR : SameTrial cfg a b ∧ a.newpop.map Individual.x = b.newpop.map Individual.x) :
    OkSim (fun a' b' => SameTrial cfg a' b' ∧
        a'.newpop.map Individual.x = b'.newpop.map Individual.x)
      (Motivation_body cfg n a) (Motivation_body cfg n b) := by
  intro a' h
  obtain ⟨⟨hp, hf, hg, hr, hl, sa, sb⟩, hx⟩ := hR
  obtain ⟨ca, para, rca, rpa, npa, fa, ta, _, _, rnga, casea⟩ :=
    Motivation_body_spec cfg n a a' h
  obtain ⟨b', hb⟩ := Motivation_body_total cfg n b (by rw [sb.1]; exact hn)
    (by rw [← hp]; exact readAt_lt rpa)
  obtain ⟨cb, parb, rcb, rpb, npb, fb, tb, _, _, rngb, caseb⟩ :=
    Motivation_body_spec cfg n b b' hb
  have ex : ca.x = cb.x := x_of_map_x _ _ n ca cb rca rcb hx
  have epar : parb = para := by
    rw [hp, rpb] at rpa
    injection rpa
  subst epar
  rw [← ex, ← hg] at caseb
  rw [← ex] at npb
  have hxa := map_x_set _ _ ca { ca with fit := cfg.function_name ca.x cfg.DIMS } rca (by rfl)
  have hxb := map_x_set _ _ cb { x := ca.x, fit := cfg.function_name ca.x cfg.DIMS } rcb ex
  rw [← npa] at hxa
  rw [← npb] at hxb
  have hcases : a'.pop = b'.pop ∧ a'.gbestval = b'.gbestval := by
    rcases casea with ⟨c1, pa, ga⟩ | ⟨c1, pa, ga, _⟩ <;>
      rcases caseb with ⟨d1, pb, gb⟩ | ⟨d1, pb, gb, _⟩
    · refine ⟨by rw [pa, pb, hp], ?_⟩
      rcases ga with ⟨e1, e2, _⟩ | ⟨e1, e2, _⟩ <;> rcases gb with ⟨f1, f2, _⟩ | ⟨f1, f2, _⟩
      · rw [e2, f2]
      · exact absurd e1 f1
      · exact absurd f1 e1
      · rw [e2, f2]
    · exact absurd c1 d1
    · exact absurd d1 c1
    · exact ⟨by rw [pa, pb, hp], by rw [ga, gb]⟩
  exact ⟨b', hb, ⟨hcases.1, by rw [fa, fb, hf], hcases.2, by rw [rnga, rngb, hr],
    by rw [ta, tb]; exact hl, Shaped_of_map_x cfg _ _ hxa sa, Shaped_of_map_x cfg _ _ hxb sb⟩,
    by rw [hxa, hxb, hx]⟩

theorem Motivation_sim (cfg : Config) (a b : State)
    (hR : SameTrial cfg a b ∧ a.newpop.map Individual.x = b.newpop.map Individual.x) :
    OkSim (SameTrial cfg) (Motivation cfg a) (Motivation cfg b) := by
  intro a' h
  unfold Motivation at h
  obtain ⟨b', hb, hR', _⟩ := forLoop_sim (Motivation_body cfg)
    (fun _ x y => SameTrial cfg x y ∧ x.newpop.map Individual.x = y.newpop.map Individual.x)
    cfg.POPSIZE 0 a b hR
    (fun n x y _ hn hxy => Motivation_body_sim cfg n x y (by omega) hxy) a' h
  exact ⟨b', hb, hR'⟩

/-! ### Generations and trials -/

theorem generation_sim (cfg : Config) (a b : State) (hR : SameTrial cfg a b) :
    OkSim (SameTrial cfg) (generation cfg a) (generation cfg b) := by
  intro a' h
  unfold generation at h
  cases h1 : Attention cfg a with
  | error e => simp [h1] at h
  | ok a1 =>
    simp only [h1] at h
    obtain ⟨b1, hb1, hR1⟩ := Attention_sim cfg a b hR a1 h1
    cases h2 : Reproduction_and_Reinforcement cfg a1 with
    | error e => simp [h2] at h
    | ok a2 =>
      simp only [h2] at h
      obtain ⟨b2, hb2, hR2⟩ := Reproduction_sim cfg a1 b1 hR1 a2 h2
      obtain ⟨b', hb, hR3⟩ := Motivation_sim cfg a2 b2 hR2 a' h
      refine ⟨b', ?_, hR3⟩
      unfold generation
      simp only [hb1, hb2]
      exact hb

theorem observed_of_SameTrial (cfg : Config) (a b : State) (hR : SameTrial cfg a b) :
    observed a = observed b := by
  unfold observed
  rw [hR.1, hR.2.1, hR.2.2.1]

theorem Process_loop_sim (cfg : Config) :
    ∀ (fuel : Nat) (a b : State), SameTrial cfg a b →
      ∀ tra, Process_loop cfg fuel a = some (.ok tra) →
        ∃ trb, Process_loop cfg fuel b = some (.ok trb) ∧
          tra.map observed = trb.map observed := by
  intro fuel
  induction fuel with
  | zero =>
    intro a b hR tra h
    have ho := observed_of_SameTrial cfg a b hR
    unfold Process_loop at h ⊢
    rw [← hR.2.1]
    by_cases hlt : a.fes < cfg.FES
    · simp [hlt] at h
    · simp only [hlt, if_false, Option.some.injEq, Except.ok.injEq] at h
      subst h
      exact ⟨[b], by simp only [hlt, if_false], by simp only [List.map_cons, ho]⟩
  | succ fuel ih =>
    intro a b hR tra h
    have ho := observed_of_SameTrial cfg a b hR
    unfold Process_loop at h ⊢
    rw [← hR.2.1]
    by_cases hlt : a.fes < cfg.FES
    · simp only [hlt, if_true] at h ⊢
      cases h1 : generation cfg a with
      | error e => simp [h1] at h
      | ok a1 =>
        simp only [h1] at h
        obtain ⟨b1, hb1, hR1⟩ := generation_sim cfg a b hR a1 h1
        simp only [hb1]
        cases h2 : Process_loop cfg fuel a1 with
        | none => simp [h2] at h
        | some r =>
          cases r with
          | error e => simp [h2] at h
          | ok tr =>
            simp only [h2, Option.some.injEq, Except.ok.injEq] at h
            obtain ⟨trb, hb2, hobs⟩ := ih a1 b1 hR1 tr h2
            simp only [hb2]
            subst h
            exact ⟨b :: trb, rfl, by simp only [List.map_cons, ho, hobs]⟩
    · simp only [hlt, if_false, Option.some.injEq, Except.ok.injEq] at h
      subst h
      exact ⟨[b], by simp only [hlt, if_false], by simp only [List.map_cons, ho]⟩

theorem Process_trace_sim (cfg : Config) (fuel : Nat) (a b : State) (wa : a.WF cfg)
    (wb : b.WF cfg) (hr : a.rng = b.rng) (tra : List State)
    (h : Process_trace cfg fuel a = some (.ok tra)) :
    ∃ trb, Process_trace cfg fuel b = some (.ok trb) ∧
      tra.map observed = trb.map observed := by
  unfold Process_trace at h
  cases h1 : Initialize cfg a with
  | error e => simp [h1] at h
  | ok a1 =>
    simp only [h1] at h
    obtain ⟨b1, hb1, hR1⟩ := Initialize_sim cfg a b wa wb hr a1 h1
    cases h2 : Evaluate cfg a1 with
    | error e => simp [h2] at h
    | ok a2 =>
      simp only [h2] at h
      obtain ⟨b2, hb2, hR2⟩ := Evaluate_sim cfg a1 b1 hR1 a2 h2
      obtain ⟨trb, hb3, hobs⟩ := Process_loop_sim cfg fuel a2 b2 hR2 tra h
      refine ⟨trb, ?_, hobs⟩
      unfold Process_trace
      simp only [hb1, hb2]
      exact hb3

/-- C14: the outcome of `Process` does not depend on the globals left over from an earlier
trial.  For every configuration, every two prior states whose arrays have their declared
sizes and every sequence of values of `rand()` fed to both: if the trial started in the
first state returns, so does the trial started in the second, and the two trials observe
the same `gbestval`, the same population with its fitness values and the same `fes` after
`Evaluate` and after every generation, in particular when `Process` returns. -/
theorem C14_trial_reproducible (cfg : Config) (fuel : Nat) (s1 s2 : State)
    (hw1 : s1.WF cfg) (hw2 : s2.WF cfg) (hrng : s1.rng = s2.rng) (tr1 : List State)
    (h : Process_trace cfg fuel s1 = some (.ok tr1)) :
    ∃ tr2, Process_trace cfg fuel s2 = some (.ok tr2) ∧
      tr1.map observed = tr2.map observed ∧
      tr1.map State.gbestval = tr2.map State.gbestval ∧
      tr1.getLast?.map observed = tr2.getLast?.map observed := by
  obtain ⟨tr2, h2, hobs⟩ := Process_trace_sim cfg fuel s1 s2 hw1 hw2 hrng tr1 h
  refine ⟨tr2, h2, hobs, ?_, ?_⟩
  · have := congrArg (List.map Prod.fst) hobs
    simpa [observed, Function.comp_def] using this
  · rw [← List.getLast?_map, ← List.getLast?_map, hobs]

/-- Witness of C14: the trial of `demo` on `demo_rng`, started from the zero-initialized
globals and from the globals left by an earlier trial. -/
theorem C14_witness :
    demo_start demo_rng ≠ demo_leftover ∧
    Process_trace demo 1 (demo_start demo_rng) = some (.ok demo_trace) ∧
    ∃ tr2, Process_trace demo 1 demo_leftover = some (.ok tr2) ∧
      demo_trace.map observed = tr2.map observed ∧
      demo_trace.map State.gbestval = tr2.map State.gbestval ∧
      demo_trace.getLast?.map observed = tr2.getLast?.map observed :=
  have h : Process_trace demo 1 (demo_start demo_rng) = some (.ok demo_trace) := by decide!
  ⟨by decide!, h,
    C14_trial_reproducible demo 1 (demo_start demo_rng) demo_leftover
      (by simp [State.WF, demo_start, demo])
      (by simp [State.WF, demo_leftover, demo_survivors, demo_mid, demo])
      (by rfl) demo_trace h⟩

/-! ## Arithmetic of `double`: signs and divisors -/

/-- C5 is violated by the code on the constant samples `{0.1, 0.1, 0.1}` and
`{0.2, 0.2, 0.2}`.  In exact arithmetic the pooled term is `0` and `t_test` returns `0`.
On `double` the sum `0.1 + 0.1 + 0.1` rounds to `0.30000000000000004` and the mean to
`0.10000000000000002`, which differs from the elements; the sums of squares are positive,
`S_1_2 == 0` is false, and `t_test` returns `-4557322397432435`.  For two samples of one
element the division by `df = 0` has a zero divisor. -/
theorem C5_guard_misses :
    round_double (1 / 10) = .ok double_0_1 ∧ round_double (2 / 10) = .ok double_0_2 ∧
    t_test sqrt_ref [double_0_1, double_0_1, double_0_1] 3
      [double_0_2, double_0_2, double_0_2] 3 = .ok 0 ∧
    t_test_double [double_0_1, double_0_1, double_0_1] 3
      [double_0_2, double_0_2, double_0_2] 3 = .ok (-4557322397432435) ∧
    t_test_double [3] 1 [5] 1 = .error Fault.fpDivZero := by
  decide!

/-- C1 is violated by the code for the bounds `lbound = -2`, `ubound = 0.1` when `rand()`
returns `RAND_MAX`: in exact arithmetic `randval(lbound, ubound)` is `ubound`; on `double`
`high - low` rounds to `2.1000000000000000888`, and `1.0 * 2.1000000000000000888 + (-2)`
is `0.1000000000000000888`, above `ubound = 0.1000000000000000055`.  `Initialize` stores
that value in `pop[0].x[0]`, and nothing repairs the genes of `pop`. -/
theorem C1_gene_above_ubound :
    demo_narrow.lbound ≤ demo_narrow.ubound ∧
    round_double (1 / 10) = .ok demo_narrow.ubound ∧
    randval demo_narrow demo_narrow.lbound demo_narrow.ubound (demo_start [32767]) =
      .ok (demo_narrow.ubound, demo_start []) ∧
    randval_double demo_narrow demo_narrow.lbound demo_narrow.ubound (demo_start [32767]) =
      .ok (225179981368525 / 2251799813685248, demo_start []) ∧
    demo_narrow.ubound < 225179981368525 / 2251799813685248 ∧
    Initialize_double demo_narrow (demo_start [32767, 0, 16384]) =
      .ok demo_narrow_initialized ∧
    gene demo_narrow_initialized.pop 0 0 = .ok (225179981368525 / 2251799813685248) ∧
    gene demo_narrow_initialized.pop 1 0 = .ok (-2) := by
  decide!

theorem explore_returns (cfg : Config) (i j r1 : Nat) (s : State) (k1 : Nat)
    (l1 : List Nat) (x1 xi : ℚ) (hrng : s.rng = k1 :: l1) (hR : cfg.RAND_MAX ≠ 0)
    (hx1 : gene s.pop r1 j = .ok x1) (hxi : gene s.pop i j = .ok xi) :
    ((k1 : ℚ) / (cfg.RAND_MAX : ℚ) < cfg.p_i →
      explore cfg i j r1 s = .ok (x1, { s with rng := l1 })) ∧
    (¬ (k1 : ℚ) / (cfg.RAND_MAX : ℚ) < cfg.p_i →
      ∀ (k2 : Nat) (l2 : List Nat), l1 = k2 :: l2 →
        ((k2 : ℚ) / (cfg.RAND_MAX : ℚ) < cfg.p_r →
          ∀ (k3 : Nat) (l3 : List Nat), l2 = k3 :: l3 →
            explore cfg i j r1 s =
              .ok ((k3 : ℚ) / (cfg.RAND_MAX : ℚ) * (cfg.ubound - cfg.lbound) + cfg.lbound,
                { s with rng := l3 })) ∧
        (¬ (k2 : ℚ) / (cfg.RAND_MAX : ℚ) < cfg.p_r →
          explore cfg i j r1 s = .ok (xi, { s with rng := l2 }))) := by
  have h1 : randval cfg 0 1 s = .ok ((k1 : ℚ) / (cfg.RAND_MAX : ℚ), { s with rng := l1 }) :=
    (randval_eq_ok _ _ _ _ _ _).mpr ⟨k1, l1, hrng, hR, by ring, rfl⟩
  constructor
  · intro hlt
    unfold explore
    simp only [h1, hlt, if_true, hx1]
  · intro hlt k2 l2 hl1
    have h2 : randval cfg 0 1 { s with rng := l1 } =
        .ok ((k2 : ℚ) / (cfg.RAND_MAX : ℚ), { s with rng := l2 }) :=
      (randval_eq_ok _ _ _ _ _ _).mpr ⟨k2, l2, hl1, hR, by ring, rfl⟩
    constructor
    · intro hlt2 k3 l3 hl2
      have h3 : randval cfg cfg.lbound cfg.ubound { s with rng := l2 } =
          .ok ((k3 : ℚ) / (cfg.RAND_MAX : ℚ) * (cfg.ubound - cfg.lbound) + cfg.lbound,
            { s with rng := l3 }) :=
        (randval_eq_ok _ _ _ _ _ _).mpr ⟨k3, l3, hl2, hR, rfl, rfl⟩
      unfold explore
      simp only [h1, hlt, if_false, h2, hlt2, if_true, h3]
    · intro hlt2
      unfold explore
      simp only [h1, hlt, if_false, h2, hlt2, hxi]

theorem reproduce_returns (cfg : Config) (i j : Nat) (s : State) (hwf : s.WF cfg)
    (hi : i < cfg.POPSIZE) (hj : j < cfg.DIMS) (hS : cfg.SN1 ≤ cfg.POPSIZE)
    (hR : cfg.RAND_MAX ≠ 0) (r r1 k0 : Nat) (l1 l2 : List Nat)
    (hd1 : draw_other cfg.SN1 i s.rng = .ok (r, l1))
    (hd2 : draw_other cfg.POPSIZE i l1 = .ok (r1, k0 :: l2)) :
    ∃ (xr xi x1 t : ℚ), gene s.pop r j = .ok xr ∧ gene s.pop i j = .ok xi ∧
      gene s.pop r1 j = .ok x1 ∧ readAt s.t_Val j = .ok t ∧
      (t ≥ s.AT →
        reproduce cfg i j s =
          .ok (xr + (k0 : ℚ) / (cfg.RAND_MAX : ℚ) * |xr - xi|, { s with rng := l2 })) ∧
      (¬ t ≥ s.AT → t ≤ s.mAT →
        reproduce cfg i j s =
          .ok (xr - (k0 : ℚ) / (cfg.RAND_MAX : ℚ) * |xr - xi|, { s with rng := l2 })) ∧
      (¬ t ≥ s.AT → ¬ t ≤ s.mAT →
        ∀ (k1 : Nat) (l3 : List Nat), l2 = k1 :: l3 →
          ((k1 : ℚ) / (cfg.RAND_MAX : ℚ) < cfg.p_i →
            reproduce cfg i j s = .ok (x1, { s with rng := l3 })) ∧
          (¬ (k1 : ℚ) / (cfg.RAND_MAX : ℚ) < cfg.p_i →
            ∀ (k2 : Nat) (l4 : List Nat), l3 = k2 :: l4 →
              ((k2 : ℚ) / (cfg.RAND_MAX : ℚ) < cfg.p_r →
                ∀ (k3 : Nat) (l5 : List Nat), l4 = k3 :: l5 →
                  reproduce cfg i j s =
                    .ok ((k3 : ℚ) / (cfg.RAND_MAX : ℚ) * (cfg.ubound - cfg.lbound) +
                      cfg.lbound, { s with rng := l5 })) ∧
              (¬ (k2 : ℚ) / (cfg.RAND_MAX : ℚ) < cfg.p_r →
                reproduce cfg i j s = .ok (xi, { s with rng := l4 })))) := by
  obtain ⟨hr, _, _⟩ := draw_other_spec _ _ _ _ _ hd1
  obtain ⟨hr1, _, _⟩ := draw_other_spec _ _ _ _ _ hd2
  obtain ⟨xr, hxr⟩ := gene_of_WF cfg s.pop r j (by rw [hwf.1]; omega) hwf.2.1 hj
  obtain ⟨xi, hxi⟩ := gene_of_WF cfg s.pop i j (by rw [hwf.1]; omega) hwf.2.1 hj
  obtain ⟨x1, hx1⟩ := gene_of_WF cfg s.pop r1 j (by rw [hwf.1]; omega) hwf.2.1 hj
  obtain ⟨t, ht⟩ := readAt_of_lt (a := s.t_Val) (i := j) (by rw [hwf.2.2.2.2]; exact hj)
  have h1 : draw_excluding cfg.SN1 i s = .ok (r, { s with rng := l1 }) :=
    (draw_excluding_eq_ok _ _ _ _ _).mpr ⟨l1, hd1, rfl⟩
  have h2 : draw_excluding cfg.POPSIZE i { s with rng := l1 } =
      .ok (r1, { s with rng := k0 :: l2 }) :=
    (draw_excluding_eq_ok _ _ _ _ _).mpr ⟨k0 :: l2, hd2, rfl⟩
  have h3 : randval cfg 0 1 { s with rng := k0 :: l2 } =
      .ok ((k0 : ℚ) / (cfg.RAND_MAX : ℚ), { s with rng := l2 }) :=
    (randval_eq_ok _ _ _ _ _ _).mpr ⟨k0, l2, rfl, hR, by ring, rfl⟩
  refine ⟨xr, xi, x1, t, hxr, hxi, hx1, ht, ?_, ?_, ?_⟩
  · intro c1
    unfold reproduce
    simp only [h1, h2, h3, hxr, hxi, ht, c1, if_true]
  · intro c1 c2
    unfold reproduce
    simp only [h1, h2, h3, hxr, hxi, ht, c1, if_false, c2, if_true]
  · intro c1 c2 k1 l3 hl2
    have key := explore_returns cfg i j r1 { s with rng := l2 } k1 l3 x1 xi hl2 hR hx1 hxi
    have e : reproduce cfg i j s = explore cfg i j r1 { s with rng := l2 } := by
      unfold reproduce
      simp only [h1, h2, h3, hxr, hxi, ht, c1, if_false, c2]
    rw [e]
    exact key

/-- C7: the gene computation of `Reproduction_and_Reinforcement` for individual `i` and
dimension `j`.  Whenever it returns, the drawn elite index `r` satisfies `r < SN1`,
`r ≠ i`, the drawn index `r1` satisfies `r1 < POPSIZE`, `r1 ≠ i`, and with
`nd = k0 / RAND_MAX` the next uniform draw and `delta = |pop[r].x[j] - pop[i].x[j]|` the
value before boundary repair is `pop[r].x[j] + nd * delta` if `t_Val[j] ≥ AT`; otherwise
`pop[r].x[j] - nd * delta` if `t_Val[j] ≤ mAT`; otherwise `pop[r1].x[j]` if a first
uniform draw is `< p_i`; otherwise a fresh `randval(lbound, ubound)` if a second uniform
draw is `< p_r`; otherwise `pop[i].x[j]`.  Conversely, in a state whose arrays have their
declared sizes, once the two rejection loops have produced `r`, `r1` and the values that
`rand()` returns next are at hand, the computation does return, with that value, in each
of the five cases.  The guards partition the cases, so exactly one applies. -/
theorem C7_gene_update_rule (cfg : Config) (i j : Nat) (s : State) :
    (∀ (v : ℚ) (s' : State), reproduce cfg i j s = .ok (v, s') →
      ∃ (r r1 k0 : Nat) (l1 l2 : List Nat) (xr xi t : ℚ),
        draw_other cfg.SN1 i s.rng = .ok (r, l1) ∧
        draw_other cfg.POPSIZE i l1 = .ok (r1, k0 :: l2) ∧
        r < cfg.SN1 ∧ r ≠ i ∧ r1 < cfg.POPSIZE ∧ r1 ≠ i ∧ cfg.RAND_MAX ≠ 0 ∧
        (k0 ≤ cfg.RAND_MAX →
          0 ≤ (k0 : ℚ) / (cfg.RAND_MAX : ℚ) ∧ (k0 : ℚ) / (cfg.RAND_MAX : ℚ) ≤ 1) ∧
        gene s.pop r j = .ok xr ∧ gene s.pop i j = .ok xi ∧ readAt s.t_Val j = .ok t ∧
        (t ≥ s.AT →
          v = xr + (k0 : ℚ) / (cfg.RAND_MAX : ℚ) * |xr - xi| ∧ s' = { s with rng := l2 }) ∧
        (¬ t ≥ s.AT → t ≤ s.mAT →
          v = xr - (k0 : ℚ) / (cfg.RAND_MAX : ℚ) * |xr - xi| ∧ s' = { s with rng := l2 }) ∧
        (¬ t ≥ s.AT → ¬ t ≤ s.mAT →
          ∃ (k1 : Nat) (l3 : List Nat), l2 = k1 :: l3 ∧
            ((k1 : ℚ) / (cfg.RAND_MAX : ℚ) < cfg.p_i →
              gene s.pop r1 j = .ok v ∧ s' = { s with rng := l3 }) ∧
            (¬ (k1 : ℚ) / (cfg.RAND_MAX : ℚ) < cfg.p_i →
              ∃ (k2 : Nat) (l4 : List Nat), l3 = k2 :: l4 ∧
                ((k2 : ℚ) / (cfg.RAND_MAX : ℚ) < cfg.p_r →
                  ∃ (k3 : Nat) (l5 : List Nat), l4 = k3 :: l5 ∧
                    v = (k3 : ℚ) / (cfg.RAND_MAX : ℚ) * (cfg.ubound - cfg.lbound) +
                      cfg.lbound ∧
                    s' = { s with rng := l5 }) ∧
                (¬ (k2 : ℚ) / (cfg.RAND_MAX : ℚ) < cfg.p_r →
                  v = xi ∧ s' = { s with rng := l4 })))) ∧
    (s.WF cfg → i < cfg.POPSIZE → j < cfg.DIMS → cfg.SN1 ≤ cfg.POPSIZE →
      cfg.RAND_MAX ≠ 0 →
      ∀ (r r1 k0 : Nat) (l1 l2 : List Nat),
        draw_other cfg.SN1 i s.rng = .ok (r, l1) →
        draw_other cfg.POPSIZE i l1 = .ok (r1, k0 :: l2) →
        ∃ (xr xi x1 t : ℚ), gene s.pop r j = .ok xr ∧ gene s.pop i j = .ok xi ∧
          gene s.pop r1 j = .ok x1 ∧ readAt s.t_Val j = .ok t ∧
          (t ≥ s.AT →
            reproduce cfg i j s =
              .ok (xr + (k0 : ℚ) / (cfg.RAND_MAX : ℚ) * |xr - xi|, { s with rng := l2 })) ∧
          (¬ t ≥ s.AT → t ≤ s.mAT →
            reproduce cfg i j s =
              .ok (xr - (k0 : ℚ) / (cfg.RAND_MAX : ℚ) * |xr - xi|, { s with rng := l2 })) ∧
          (¬ t ≥ s.AT → ¬ t ≤ s.mAT →
            ∀ (k1 : Nat) (l3 : List Nat), l2 = k1 :: l3 →
              ((k1 : ℚ) / (cfg.RAND_MAX : ℚ) < cfg.p_i →
                reproduce cfg i j s = .ok (x1, { s with rng := l3 })) ∧
              (¬ (k1 : ℚ) / (cfg.RAND_MAX : ℚ) < cfg.p_i →
                ∀ (k2 : Nat) (l4 : List Nat), l3 = k2 :: l4 →
                  ((k2 : ℚ) / (cfg.RAND_MAX : ℚ) < cfg.p_r →
                    ∀ (k3 : Nat) (l5 : List Nat), l4 = k3 :: l5 →
                      reproduce cfg i j s =
                        .ok ((k3 : ℚ) / (cfg.RAND_MAX : ℚ) * (cfg.ubound - cfg.lbound) +
                          cfg.lbound, { s with rng := l5 })) ∧
                  (¬ (k2 : ℚ) / (cfg.RAND_MAX : ℚ) < cfg.p_r →
                    reproduce cfg i j s = .ok (xi, { s with rng := l4 }))))) :=
  ⟨fun v s' h => reproduce_spec cfg i j s v s' h,
    fun hwf hi hj hS hR r r1 k0 l1 l2 hd1 hd2 =>
      reproduce_returns cfg i j s hwf hi hj hS hR r r1 k0 l1 l2 hd1 hd2⟩

/-- Witness of C7: individual `0`, dimension `0` of `demo` (`pop[0..2].x[0] = 1, 2, 3`,
`AT = 1`, `mAT = -1`), with the draws `r = 1`, `r1 = 2`, `nd = 16384 / 32767`, in each of
the five cases: positive reinforcement (`t_Val[0] = 2`), negative reinforcement
(`t_Val[0] = -2`), and, for `t_Val[0] = 0`, imitation, reinitialization and retention. -/
theorem C7_witness :
    reproduce demo 0 0 (demo_stat 2 [1, 2, 16384, 5]) =
      .ok (2 + 16384 / 32767, demo_stat 2 [5]) ∧
    reproduce demo 0 0 (demo_stat (-2) [1, 2, 16384, 5]) =
      .ok (2 - 16384 / 32767, demo_stat (-2) [5]) ∧
    reproduce demo 0 0 (demo_stat 0 [1, 2, 16384, 0, 5]) = .ok (3, demo_stat 0 [5]) ∧
    reproduce demo 0 0 (demo_stat 0 [1, 2, 16384, 32767, 0, 16384, 5]) =
      .ok (100 / 32767, demo_stat 0 [5]) ∧
    reproduce demo 0 0 (demo_stat 0 [1, 2, 16384, 32767, 32767, 5]) =
      .ok (1, demo_stat 0 [5]) ∧
    ∃ r r1 : Nat, r < demo.SN1 ∧ r ≠ 0 ∧ r1 < demo.POPSIZE ∧ r1 ≠ 0 := by
  have h : reproduce demo 0 0 (demo_stat 0 [1, 2, 16384, 0, 5]) = .ok (3, demo_stat 0 [5]) := by
    decide!
  obtain ⟨r, r1, _, _, _, _, _, _, _, _, h1, h2, h3, h4, _⟩ :=
    (C7_gene_update_rule demo 0 0 (demo_stat 0 [1, 2, 16384, 0, 5])).1 3 (demo_stat 0 [5]) h
  obtain ⟨xr, xi, x1, t, g1, g2, _, g4, pos, _, _⟩ :=
    (C7_gene_update_rule demo 0 0 (demo_stat 2 [1, 2, 16384, 5])).2
      (by simp [State.WF, demo_stat, demo_mid, demo]) (by decide) (by decide) (by decide)
      (by decide) 1 2 16384 [2, 16384, 5] [5] (by decide) (by decide)
  have e1 : xr = 2 := by
    have : gene (demo_stat 2 [1, 2, 16384, 5]).pop 1 0 = .ok 2 := by decide!
    rw [this] at g1
    injection g1 with g1
    exact g1.symm
  have e2 : xi = 1 := by
    have : gene (demo_stat 2 [1, 2, 16384, 5]).pop 0 0 = .ok 1 := by decide!
    rw [this] at g2
    injection g2 with g2
    exact g2.symm
  have e4 : t = 2 := by
    have : readAt (demo_stat 2 [1, 2, 16384, 5]).t_Val 0 = .ok 2 := by decide!
    rw [this] at g4
    injection g4 with g4
    exact g4.symm
  have hpos := pos (by rw [e4]; decide!)
  refine ⟨?_, by decide!, h, by decide!, by decide!, r, r1, h1, h2, h3, h4⟩
  rw [hpos, e1, e2]
  decide!

/-! ## A `qsort` that rearranges the array -/

theorem WF_sorted_perm (cfg : Config) (hp : QsortPermutes cfg.qsort) (s : State) (hwf : s.WF cfg) :
    ({ s with pop := cfg.qsort cmp s.pop } : State).WF cfg := by
  obtain ⟨w1, w2, w3, w4, w5⟩ := hwf
  have hperm := hp s.pop
  exact ⟨by simp only [hperm.length_eq, w1], fun ind hi => w2 ind (hperm.subset hi),
    w3, w4, w5⟩

theorem Attention_WF_perm (cfg : Config) (hp : QsortPermutes cfg.qsort) (s s' : State)
    (hwf : s.WF cfg) (h : Attention cfg s = .ok s') : s'.WF cfg := by
  obtain ⟨a1, a2, _, _, _, a6, _⟩ := Attention_spec cfg s s' h
  obtain ⟨w1, w2, w3, w4, w5⟩ := WF_sorted_perm cfg hp s hwf
  exact ⟨by rw [a1]; exact w1, by rw [a1]; exact w2, by rw [a2]; exact w3,
    by rw [a2]; exact w4, by rw [a6]; exact w5⟩

theorem Attention_progress_perm (cfg : Config) (hv : cfg.Valid)
    (hp : QsortPermutes cfg.qsort) (s : State) (hwf : s.WF cfg) : OkOrStarved (Attention cfg s) := by
  have hloop := forLoop_progress (Attention_dim cfg) (fun u => u.WF cfg)
    (fun j u u' hu hb => Attention_dim_WF cfg j u u' hu hb) cfg.DIMS 0 _
    (WF_sorted_perm cfg hp s hwf)
    (fun j t _ hj ht => Attention_dim_progress cfg hv j t ht (by omega))
  unfold Attention
  rcases hloop with ⟨s1, h1⟩ | h1
  · simp only [h1]
    have hwf1 : s1.WF cfg := forLoop_preserves _ (fun u => u.WF cfg)
      (fun j u u' hu hb => Attention_dim_WF cfg j u u' hu hb) _ _ _ _
      (WF_sorted_perm cfg hp s hwf) h1
    cases hrng : s1.rng with
    | nil =>
      have : rand s1 = .error Fault.randExhausted := by
        unfold rand
        simp only [hrng]
      simp only [this]
      exact Or.inr rfl
    | cons k rest =>
      have : rand s1 = .ok (k, { s1 with rng := rest }) :=
        (rand_eq_ok _ _ _).mpr ⟨rest, hrng, rfl⟩
      have hD : cfg.DIMS ≠ 0 := by have := hv.1; omega
      obtain ⟨t, ht⟩ := readAt_of_lt (a := s1.t_Val) (i := k % cfg.DIMS) (by
        rw [hwf1.2.2.2.2]
        exact Nat.mod_lt _ (Nat.pos_of_ne_zero hD))
      simp only [this, hD, if_false, ht]
      exact Or.inl ⟨_, rfl⟩
  · simp only [h1]
    exact Or.inr rfl

theorem generation_WF_perm (cfg : Config) (hp : QsortPermutes cfg.qsort) (s s' : State)
    (hwf : s.WF cfg) (h : generation cfg s = .ok s') : s'.WF cfg := by
  unfold generation at h
  cases h1 : Attention cfg s with
  | error e => simp [h1] at h
  | ok s1 =>
    simp only [h1] at h
    cases h2 : Reproduction_and_Reinforcement cfg s1 with
    | error e => simp [h2] at h
    | ok s2 =>
      simp only [h2] at h
      have w1 := Attention_WF_perm cfg hp s s1 hwf h1
      have w2 := WF_of_ReproductionFrame cfg s1 s2 w1 (Reproduction_spec cfg s1 s2 h2)
      unfold Motivation at h
      exact forLoop_preserves _ (fun u => u.WF cfg)
        (fun i u u' hu hb => Motivation_body_WF cfg i u u' hu hb) _ _ _ _ w2 h

theorem generation_progress_perm (cfg : Config) (hv : cfg.Valid) (hp : QsortPermutes cfg.qsort)
    (s : State) (hwf : s.WF cfg) : OkOrStarved (generation cfg s) := by
  unfold generation
  rcases Attention_progress_perm cfg hv hp s hwf with ⟨s1, h1⟩ | h1
  · simp only [h1]
    have w1 := Attention_WF_perm cfg hp s s1 hwf h1
    rcases Reproduction_progress cfg hv s1 w1 with ⟨s2, h2⟩ | h2
    · simp only [h2]
      exact Motivation_progress cfg s2
        (WF_of_ReproductionFrame cfg s1 s2 w1 (Reproduction_spec cfg s1 s2 h2))
    · simp only [h2]
      exact Or.inr rfl
  · simp only [h1]
    exact Or.inr rfl

theorem Process_loop_progress_perm (cfg : Config) (hv : cfg.Valid) (hp : QsortPermutes cfg.qsort) :
    ∀ (fuel : Nat) (s : State), s.WF cfg →
      cfg.FES - s.fes ≤ (fuel : Int) * (cfg.POPSIZE : Int) →
      ∃ r, Process_loop cfg fuel s = some r ∧ OkOrStarved r := by
  intro fuel
  induction fuel with
  | zero =>
    intro s _ hb
    have : ¬ s.fes < cfg.FES := by
      simp only [Nat.cast_zero, zero_mul] at hb
      omega
    unfold Process_loop
    rw [if_neg this]
    exact ⟨_, rfl, Or.inl ⟨_, rfl⟩⟩
  | succ fuel ih =>
    intro s hwf hb
    unfold Process_loop
    by_cases hc : s.fes < cfg.FES
    · rw [if_pos hc]
      rcases generation_progress_perm cfg hv hp s hwf with ⟨s1, hg⟩ | hg
      · simp only [hg]
        have hf := (generation_spec cfg s s1 hg).1
        have hb1 : cfg.FES - s1.fes ≤ (fuel : Int) * (cfg.POPSIZE : Int) := by
          rw [hf]
          push_cast at hb
          linarith
        obtain ⟨r, hr, hok⟩ := ih s1 (generation_WF_perm cfg hp s s1 hwf hg) hb1
        simp only [hr]
        rcases hok with ⟨tr, rfl⟩ | rfl
        · exact ⟨_, rfl, Or.inl ⟨_, rfl⟩⟩
        · exact ⟨_, rfl, Or.inr rfl⟩
      · simp only [hg]
        exact ⟨_, rfl, Or.inr rfl⟩
    · rw [if_neg hc]
      exact ⟨_, rfl, Or.inl ⟨_, rfl⟩⟩

theorem Process_trace_progress_perm (cfg : Config) (hv : cfg.Valid) (hp : QsortPermutes cfg.qsort)
    (fuel : Nat) (hfuel : cfg.FES ≤ (fuel : Int)) (s : State) (hwf : s.WF cfg) :
    ∃ r, Process_trace cfg fuel s = some r ∧ OkOrStarved r := by
  unfold Process_trace
  rcases Initialize_progress cfg hv s hwf with ⟨s1, h1⟩ | h1
  · simp only [h1]
    have w1 : s1.WF cfg := by
      obtain ⟨_, _, a3, _, a5, _, _, _, a9, _⟩ := Initialize_spec cfg s s1 h1
      obtain ⟨w1, w2, w3, w4, w5⟩ := hwf
      exact ⟨by rw [shape_length _ _ a9, w1], shape_dims cfg.DIMS _ _ a9 w2,
        by rw [a3]; exact w3, by rw [a3]; exact w4, by rw [a5]; exact w5⟩
    rcases Evaluate_progress cfg s1 w1 with ⟨s2, h2⟩ | h2
    · simp only [h2]
      have w2 : s2.WF cfg := by
        unfold Evaluate at h2
        exact forLoop_preserves _ (fun u => u.WF cfg)
          (fun i u u' hu hb => Evaluate_body_WF cfg i u u' hu hb) _ _ _ _ w1 h2
      have f1 := (Initialize_spec cfg s s1 h1).1
      have f2 := (Evaluate_spec cfg s1 s2 (by unfold Evaluate; exact h2)).1
      apply Process_loop_progress_perm cfg hv hp fuel s2 w2
      have hN : (3 : Int) ≤ (cfg.POPSIZE : Int) := by exact_mod_cast hv.2.2.2.1
      have : (0 : Int) ≤ (fuel : Int) := Int.natCast_nonneg _
      nlinarith
    · simp only [h2]
      exact ⟨_, rfl, Or.inr rfl⟩
  · simp only [h1]
    exact ⟨_, rfl, Or.inr rfl⟩

/-! ## Sequences of `rand()` values on which a trial returns -/

theorem Fed_extend {α : Type} (rest : α → List Nat) (P : α → Prop) (k1 k2 : Nat)
    (l l1 : List Nat) (r : M α) (hs : l1 <:+ l) (hl : l.length ≤ l1.length + k1)
    (h : Fed rest P k2 l1 r) : Fed rest P (k1 + k2) l r := by
  rcases h with ⟨a, ha, hP, hsa, hla⟩ | ⟨he, hlt⟩
  · exact Or.inl ⟨a, ha, hP, hsa.trans hs, by omega⟩
  · exact Or.inr ⟨he, by omega⟩

theorem Fed_mono {α : Type} (rest : α → List Nat) (P : α → Prop) (k k' : Nat)
    (l : List Nat) (r : M α) (hk : k ≤ k') (h : Fed rest P k l r) : Fed rest P k' l r := by
  rcases h with ⟨a, ha, hP, hsa, hla⟩ | ⟨he, hlt⟩
  · exact Or.inl ⟨a, ha, hP, hsa, by omega⟩
  · exact Or.inr ⟨he, by omega⟩

theorem draw_other_fed (m i : Nat) (hm : m ≠ 0) (l : List Nat)
    (hch : l.Chain' (fun a b => a % m ≠ b % m)) :
    Fed (fun p : Nat × List Nat => p.2) (fun p => p.1 < m ∧ p.1 ≠ i) 2 l
      (draw_other m i l) := by
  cases l with
  | nil => exact Or.inr ⟨rfl, by simp⟩
  | cons a l1 =>
    unfold draw_other
    simp only [hm, if_false]
    by_cases ha : a % m = i
    · simp only [ha, if_true]
      cases l1 with
      | nil => exact Or.inr ⟨rfl, by simp⟩
      | cons b l2 =>
        have hab : a % m ≠ b % m := (List.chain'_cons.mp hch).1
        have hb : ¬ b % m = i := fun h => hab (by rw [ha, h])
        unfold draw_other
        simp only [hm, if_false, hb]
        exact Or.inl ⟨_, rfl, ⟨Nat.mod_lt _ (Nat.pos_of_ne_zero hm), hb⟩, ⟨[a, b], rfl⟩,
          by simp⟩
    · simp only [ha, if_false]
      exact Or.inl ⟨_, rfl, ⟨Nat.mod_lt _ (Nat.pos_of_ne_zero hm), ha⟩, ⟨[a], rfl⟩, by simp⟩

theorem draw_excluding_fed (m i : Nat) (hm : m ≠ 0) (s : State)
    (hch : s.rng.Chain' (fun a b => a % m ≠ b % m)) :
    Fed (fun p : Nat × State => p.2.rng)
      (fun p => p.1 < m ∧ p.1 ≠ i ∧ p.2 = { s with rng := p.2.rng }) 2 s.rng
      (draw_excluding m i s) := by
  unfold draw_excluding
  rcases draw_other_fed m i hm s.rng hch with ⟨⟨r, rest⟩, h, ⟨h1, h2⟩, hs, hl⟩ | ⟨h, hl⟩
  · simp only [h]
    exact Or.inl ⟨_, rfl, ⟨h1, h2, rfl⟩, hs, hl⟩
  · simp only [h]
    exact Or.inr ⟨rfl, hl⟩

theorem randval_fed (cfg : Config) (hR : cfg.RAND_MAX ≠ 0) (lo hi : ℚ) (s : State) :
    Fed (fun p : ℚ × State => p.2.rng) (fun p => p.2 = { s with rng := p.2.rng }) 1 s.rng
      (randval cfg lo hi s) := by
  cases hrng : s.rng with
  | nil =>
    right
    refine ⟨?_, by simp⟩
    unfold randval rand
    simp only [hrng]
  | cons k rest =>
    left
    exact ⟨(_, { s with rng := rest }),
      (randval_eq_ok cfg lo hi s _ _).mpr ⟨k, rest, hrng, hR, rfl, rfl⟩, rfl,
      ⟨[k], rfl⟩, by simp⟩

theorem explore_fed (cfg : Config) (hR : cfg.RAND_MAX ≠ 0) (i j r1 : Nat) (s : State)
    (x1 xi : ℚ) (hx1 : gene s.pop r1 j = .ok x1) (hxi : gene s.pop i j = .ok xi) :
    Fed (fun p : ℚ × State => p.2.rng) (fun p => p.2 = { s with rng := p.2.rng }) 3 s.rng
      (explore cfg i j r1 s) := by
  unfold explore
  rcases randval_fed cfg hR 0 1 s with ⟨⟨u1, s1⟩, h1, e1, hs1, hl1⟩ | ⟨h1, hl1⟩
  · simp only [h1]
    obtain ⟨l1, rfl⟩ : ∃ l, s1 = { s with rng := l } := ⟨_, e1⟩
    simp only at hs1 hl1
    by_cases hlt : u1 < cfg.p_i
    · simp only [hlt, if_true, hx1]
      exact Or.inl ⟨_, rfl, rfl, hs1, by simp only; omega⟩
    · simp only [hlt, if_false]
      rcases randval_fed cfg hR 0 1 { s with rng := l1 } with
        ⟨⟨u2, s2⟩, h2, e2, hs2, hl2⟩ | ⟨h2, hl2⟩
      · simp only [h2]
        obtain ⟨l2, rfl⟩ : ∃ l, s2 = { s with rng := l } := ⟨_, e2⟩
        simp only at hs2 hl2
        by_cases hlt2 : u2 < cfg.p_r
        · simp only [hlt2, if_true]
          rcases randval_fed cfg hR cfg.lbound cfg.ubound { s with rng := l2 } with
            ⟨⟨u3, s3⟩, h3, e3, hs3, hl3⟩ | ⟨h3, hl3⟩
          · simp only at hs3 hl3
            exact Or.inl ⟨(u3, s3), h3, e3, hs3.trans (hs2.trans hs1), by simp only; omega⟩
          · simp only at hl3
            exact Or.inr ⟨h3, by omega⟩
        · simp only [hlt2, if_false, hxi]
          exact Or.inl ⟨_, rfl, rfl, hs2.trans hs1, by simp only; omega⟩
      · simp only [h2]
        simp only at hl2
        exact Or.inr ⟨rfl, by omega⟩
  · simp only [h1]
    exact Or.inr ⟨rfl, by omega⟩

theorem Spread_suffix (cfg : Config) (l l1 : List Nat) (h : Spread cfg l) (hs : l1 <:+ l) :
    Spread cfg l1 :=
  List.Chain'.suffix h hs

theorem reproduce_fed (cfg : Config) (hv : cfg.Valid) (i j : Nat) (s : State)
    (hwf : s.WF cfg) (hi : i < cfg.POPSIZE) (hj : j < cfg.DIMS) (hsp : Spread cfg s.rng) :
    Fed (fun p : ℚ × State => p.2.rng) (fun p => p.2 = { s with rng := p.2.rng }) 8 s.rng
      (reproduce cfg i j s) := by
  obtain ⟨_, v2, v3, v4, hR⟩ := hv
  unfold reproduce
  rcases draw_excluding_fed cfg.SN1 i (by omega) s (hsp.imp (fun _ _ h => h.1)) with
    ⟨⟨r, s1⟩, h1, ⟨hr, _, e1⟩, hs1, hl1⟩ | ⟨h1, hl1⟩
  · simp only [h1]
    obtain ⟨l1, rfl⟩ : ∃ l, s1 = { s with rng := l } := ⟨_, e1⟩
    simp only at hs1 hl1 hr
    have hsp1 : Spread cfg l1 := Spread_suffix cfg _ _ hsp hs1
    rcases draw_excluding_fed cfg.POPSIZE i (by omega) { s with rng := l1 }
        (hsp1.imp (fun _ _ h => h.2)) with
      ⟨⟨r1, s2⟩, h2, ⟨hr1, _, e2⟩, hs2, hl2⟩ | ⟨h2, hl2⟩
    · simp only [h2]
      obtain ⟨l2, rfl⟩ : ∃ l, s2 = { s with rng := l } := ⟨_, e2⟩
      simp only at hs2 hl2 hr1
      rcases randval_fed cfg hR 0 1 { s with rng := l2 } with
        ⟨⟨nd, s3⟩, h3, e3, hs3, hl3⟩ | ⟨h3, hl3⟩
      · simp only [h3]
        obtain ⟨l3, rfl⟩ : ∃ l, s3 = { s with rng := l } := ⟨_, e3⟩
        simp only at hs3 hl3
        obtain ⟨xr, hxr⟩ := gene_of_WF cfg s.pop r j (by rw [hwf.1]; omega) hwf.2.1 hj
        obtain ⟨xi, hxi⟩ := gene_of_WF cfg s.pop i j (by rw [hwf.1]; omega) hwf.2.1 hj
        obtain ⟨x1, hx1⟩ := gene_of_WF cfg s.pop r1 j (by rw [hwf.1]; omega) hwf.2.1 hj
        obtain ⟨t, ht⟩ := readAt_of_lt (a := s.t_Val) (i := j) (by rw [hwf.2.2.2.2]; exact hj)
        simp only [hxr, hxi, ht]
        have hs : l3 <:+ s.rng := hs3.trans (hs2.trans hs1)
        split
        · exact Or.inl ⟨_, rfl, rfl, hs, by simp only; omega⟩
        · split
          · exact Or.inl ⟨_, rfl, rfl, hs, by simp only; omega⟩
          · have key := explore_fed cfg hR i j r1 { s with rng := l3 } x1 xi hx1 hxi
            have := Fed_extend (fun p : ℚ × State => p.2.rng)
              (fun p => p.2 = { s with rng := p.2.rng }) 5 3 s.rng l3 _ hs (by omega) key
            exact this
      · simp only [h3]
        simp only at hl3
        exact Or.inr ⟨rfl, by omega⟩
    · simp only [h2]
      simp only at hl2
      exact Or.inr ⟨rfl, by omega⟩
  · simp only [h1]
    exact Or.inr ⟨rfl, by omega⟩

theorem Reproduction_gene_fed (cfg : Config) (hv : cfg.Valid) (i j : Nat) (s : State)
    (hwf : s.WF cfg) (hi : i < cfg.POPSIZE) (hj : j < cfg.DIMS) (hsp : Spread cfg s.rng) :
    Fed State.rng (fun t => t.WF cfg) 8 s.rng (Reproduction_gene cfg i j s) := by
  rcases reproduce_fed cfg hv i j s hwf hi hj hsp with
    ⟨⟨v, s1⟩, h1, e1, hs1, hl1⟩ | ⟨h1, hl1⟩
  · obtain ⟨l1, rfl⟩ : ∃ l, s1 = { s with rng := l } := ⟨_, e1⟩
    simp only at hs1 hl1
    obtain ⟨np, hnp⟩ := setGene_of_WF cfg s.newpop i j
      (boundary_control cfg.lbound cfg.ubound v) (by rw [hwf.2.2.1]; exact hi)
      hwf.2.2.2.1 hj
    have hres : Reproduction_gene cfg i j s = .ok { s with rng := l1, newpop := np } := by
      unfold Reproduction_gene
      simp only [h1, hnp]
    exact Or.inl ⟨_, hres, WF_of_ReproductionFrame cfg s _ hwf
      (Reproduction_gene_facts cfg i j s _ hres).1, hs1, hl1⟩
  · right
    refine ⟨?_, hl1⟩
    unfold Reproduction_gene
    simp only [h1]

theorem forLoop_fed (cfg : Config) (body : Nat → State → M State) (c : Nat) :
    ∀ (k i : Nat) (s : State), s.WF cfg →
      (∀ n t, i ≤ n → n < i + k → t.WF cfg → t.rng <:+ s.rng →
        Fed State.rng (fun u => u.WF cfg) c t.rng (body n t)) →
      Fed State.rng (fun u => u.WF cfg) (k * c) s.rng (forLoop body k i s) := by
  intro k
  induction k with
  | zero =>
    intro i s hwf _
    exact Or.inl ⟨s, rfl, hwf, List.suffix_refl _, by omega⟩
  | succ k ih =>
    intro i s hwf hb
    unfold forLoop
    rcases hb i s (le_refl _) (by omega) hwf (List.suffix_refl _) with
      ⟨t, h1, hwt, hst, hlt⟩ | ⟨h1, hl1⟩
    · simp only [h1]
      have key := ih (i + 1) t hwt
        (fun n u hn hn' hu hsu => hb n u (by omega) (by omega) hu (hsu.trans hst))
      have := Fed_extend State.rng (fun u => u.WF cfg) c (k * c) s.rng t.rng _ hst hlt key
      have e : c + k * c = (k + 1) * c := by ring
      rw [e] at this
      exact this
    · simp only [h1]
      refine Or.inr ⟨rfl, ?_⟩
      have : c ≤ (k + 1) * c := by nlinarith
      omega

theorem Reproduction_fed (cfg : Config) (hv : cfg.Valid) (s : State) (hwf : s.WF cfg)
    (hsp : Spread cfg s.rng) :
    Fed State.rng (fun t => t.WF cfg) (cfg.POPSIZE * (cfg.DIMS * 8)) s.rng
      (Reproduction_and_Reinforcement cfg s) := by
  unfold Reproduction_and_Reinforcement
  refine forLoop_fed cfg _ (cfg.DIMS * 8) cfg.POPSIZE 0 s hwf ?_
  intro i t _ hi ht hst
  refine forLoop_fed cfg _ 8 cfg.DIMS 0 t ht ?_
  intro j u _ hj hu hsu
  exact Reproduction_gene_fed cfg hv i j u hu (by omega) (by omega)
    (Spread_suffix cfg _ _ hsp (hsu.trans hst))

theorem Initialize_gene_fed (cfg : Config) (hR : cfg.RAND_MAX ≠ 0) (i j : Nat) (s : State)
    (hwf : s.WF cfg) (hi : i < cfg.POPSIZE) (hj : j < cfg.DIMS) :
    Fed State.rng (fun t => t.WF cfg) 1 s.rng (Initialize_gene cfg i j s) := by
  rcases randval_fed cfg hR cfg.lbound cfg.ubound s with
    ⟨⟨v, s1⟩, h1, e1, hs1, hl1⟩ | ⟨h1, hl1⟩
  · obtain ⟨l1, rfl⟩ : ∃ l, s1 = { s with rng := l } := ⟨_, e1⟩
    simp only at hs1 hl1
    obtain ⟨p, hp⟩ := setGene_of_WF cfg s.pop i j v (by rw [hwf.1]; exact hi) hwf.2.1 hj
    have hres : Initialize_gene cfg i j s = .ok { s with rng := l1, pop := p } := by
      unfold Initialize_gene
      simp only [h1, hp]
    exact Or.inl ⟨_, hres, WF_of_InitializeFrame cfg s _ hwf
      (Initialize_gene_facts cfg i j s _ hres).1, hs1, hl1⟩
  · right
    refine ⟨?_, hl1⟩
    unfold Initialize_gene
    simp only [h1]

theorem Initialize_fed (cfg : Config) (hR : cfg.RAND_MAX ≠ 0) (s : State) (hwf : s.WF cfg) :
    Fed State.rng (fun t => t.WF cfg) (cfg.POPSIZE * (cfg.DIMS * 1)) s.rng
      (Initialize cfg s) := by
  have hwf0 : ({ s with fes := 0 } : State).WF cfg := hwf
  have key := forLoop_fed cfg (fun i => forLoop (Initialize_gene cfg i) cfg.DIMS 0)
    (cfg.DIMS * 1) cfg.POPSIZE 0 { s with fes := 0 } hwf0 (by
      intro i t _ hi ht _
      refine forLoop_fed cfg _ 1 cfg.DIMS 0 t ht ?_
      intro j u _ hj hu _
      exact Initialize_gene_fed cfg hR i j u hu (by omega) (by omega))
  unfold Initialize
  rcases key with ⟨t, h1, hwt, hst, hlt⟩ | ⟨h1, hl1⟩
  · simp only [h1]
    exact Or.inl ⟨_, rfl, WF_gbestval cfg t _ hwt, hst, hlt⟩
  · simp only [h1]
    exact Or.inr ⟨rfl, hl1⟩

theorem Attention_dim_total (cfg : Config) (hv : cfg.Valid) (j : Nat) (t : State)
    (hwf : t.WF cfg) (hj : j < cfg.DIMS) : ∃ t', Attention_dim cfg j t = .ok t' := by
  obtain ⟨_, v2, v3, v4, _⟩ := hv
  obtain ⟨w1, w2, _, _, w5⟩ := hwf
  have hS2 : cfg.SN1 + cfg.SN2 = cfg.POPSIZE := by unfold Config.SN2; omega
  obtain ⟨s1, h1⟩ := copy_column_progress cfg t.pop j w2 hj cfg.SN1 0 (by omega)
  obtain ⟨s2, h2⟩ := copy_column_progress cfg t.pop j w2 hj cfg.SN2 cfg.SN1 (by omega)
  have l1 := (copy_column_spec _ _ _ _ _ h1).1
  have l2 := (copy_column_spec _ _ _ _ _ h2).1
  have h3 := t_test_eq cfg.sqrt s1 s2 (by omega) (by omega) (by omega)
  rw [l1, l2] at h3
  have h4 : writeAt t.t_Val j
      (if pooled_S cfg.sqrt s1 s2 = 0 then 0
        else (sample_mean s1 - sample_mean s2) / pooled_S cfg.sqrt s1 s2) =
      .ok (t.t_Val.set j (if pooled_S cfg.sqrt s1 s2 = 0 then 0
        else (sample_mean s1 - sample_mean s2) / pooled_S cfg.sqrt s1 s2)) := by
    rw [writeAt_eq_ok]
    exact ⟨by omega, rfl⟩
  unfold Attention_dim
  simp only [h1, h2, h3, h4]
  exact ⟨_, rfl⟩

theorem Attention_fed (cfg : Config) (hv : cfg.Valid) (s : State)
    (hperm : (cfg.qsort cmp s.pop).Perm s.pop) (hwf : s.WF cfg) :
    Fed State.rng (fun t => t.WF cfg) 1 s.rng (Attention cfg s) := by
  have hwf0 : ({ s with pop := cfg.qsort cmp s.pop } : State).WF cfg := by
    obtain ⟨w1, w2, w3, w4, w5⟩ := hwf
    exact ⟨by simp only [hperm.length_eq, w1],
      fun ind hi => w2 ind (hperm.subset hi), w3, w4, w5⟩
  obtain ⟨s1, hloop⟩ := forLoop_total (Attention_dim cfg) (fun _ t => t.WF cfg)
    cfg.DIMS 0 { s with pop := cfg.qsort cmp s.pop } hwf0 (by
      intro j t _ hj ht
      obtain ⟨t', ht'⟩ := Attention_dim_total cfg hv j t ht (by omega)
      exact ⟨t', ht', Attention_dim_WF cfg j t t' ht ht'⟩)
  have hwf1 : s1.WF cfg := forLoop_preserves _ (fun u => u.WF cfg)
    (fun j u u' hu hb => Attention_dim_WF cfg j u u' hu hb) _ _ _ _ hwf0 hloop
  have hrng1 : s1.rng = s.rng := by
    have := forLoop_preserves (Attention_dim cfg) (fun u => u.rng = s.rng)
      (fun j u u' hu hb => by
        obtain ⟨_, _, _, _, _, _, _, rfl⟩ := Attention_dim_spec cfg j u u' hb
        exact hu) cfg.DIMS 0 { s with pop := cfg.qsort cmp s.pop } s1 rfl hloop
    exact this
  unfold Attention
  simp only [hloop]
  cases hrng : s1.rng with
  | nil =>
    have : rand s1 = .error Fault.randExhausted := by
      unfold rand
      simp only [hrng]
    simp only [this]
    refine Or.inr ⟨rfl, ?_⟩
    rw [← hrng1, hrng]
    simp
  | cons k rest =>
    have : rand s1 = .ok (k, { s1 with rng := rest }) :=
      (rand_eq_ok _ _ _).mpr ⟨rest, hrng, rfl⟩
    have hD : cfg.DIMS ≠ 0 := by have := hv.1; omega
    obtain ⟨t, ht⟩ := readAt_of_lt (a := s1.t_Val) (i := k % cfg.DIMS) (by
      rw [hwf1.2.2.2.2]
      exact Nat.mod_lt _ (Nat.pos_of_ne_zero hD))
    simp only [this, hD, if_false, ht]
    refine Or.inl ⟨_, rfl, hwf1, ?_, ?_⟩
    · rw [← hrng1, hrng]
      exact ⟨[k], rfl⟩
    · rw [← hrng1, hrng]
      simp

theorem Evaluate_returns (cfg : Config) (s : State) (hwf : s.WF cfg) :
    ∃ s', Evaluate cfg s = .ok s' ∧ s'.WF cfg ∧ s'.rng = s.rng := by
  obtain ⟨s', h⟩ := Evaluate_total cfg s (by rw [hwf.1])
  refine ⟨s', h, ?_, (Evaluate_spec cfg s s' h).2.2.2.2.2.2.1⟩
  unfold Evaluate at h
  exact forLoop_preserves _ (fun u => u.WF cfg)
    (fun i u u' hu hb => Evaluate_body_WF cfg i u u' hu hb) _ _ _ _ hwf h

theorem Motivation_returns (cfg : Config) (s : State) (hwf : s.WF cfg) :
    ∃ s', Motivation cfg s = .ok s' ∧ s'.WF cfg ∧ s'.rng = s.rng := by
  obtain ⟨s', h⟩ := forLoop_total (Motivation_body cfg) (fun _ t => t.WF cfg)
    cfg.POPSIZE 0 s hwf (by
      intro n t _ hn ht
      have ht' : t.WF cfg := ht
      obtain ⟨t', hb⟩ := Motivation_body_total cfg n t (by rw [ht'.2.2.1]; omega)
        (by rw [ht'.1]; omega)
      exact ⟨t', hb, Motivation_body_WF cfg n t t' ht' hb⟩)
  have h' : Motivation cfg s = .ok s' := h
  refine ⟨s', h', ?_, (Motivation_spec cfg s s' h').2.2.2.2.2.1⟩
  exact forLoop_preserves _ (fun u => u.WF cfg)
    (fun i u u' hu hb => Motivation_body_WF cfg i u u' hu hb) _ _ _ _ hwf h

theorem generation_fed (cfg : Config) (hv : cfg.Valid)
    (hperm : QsortPermutes cfg.qsort) (s : State) (hwf : s.WF cfg)
    (hsp : Spread cfg s.rng) :
    Fed State.rng (fun t => t.WF cfg) (1 + cfg.POPSIZE * (cfg.DIMS * 8)) s.rng
      (generation cfg s) := by
  unfold generation
  rcases Attention_fed cfg hv s (hperm s.pop) hwf with ⟨s1, h1, w1, hs1, hl1⟩ | ⟨h1, hl1⟩
  · simp only [h1]
    have key := Reproduction_fed cfg hv s1 w1 (Spread_suffix cfg _ _ hsp hs1)
    have key' := Fed_extend State.rng (fun t => t.WF cfg) 1 _ s.rng s1.rng _ hs1 hl1 key
    rcases key' with ⟨s2, h2, w2, hs2, hl2⟩ | ⟨h2, hl2⟩
    · simp only [h2]
      obtain ⟨s3, h3, w3, e3⟩ := Motivation_returns cfg s2 w2
      exact Or.inl ⟨s3, h3, w3, by rw [e3]; exact hs2, by rw [e3]; exact hl2⟩
    · simp only [h2]
      exact Or.inr ⟨rfl, hl2⟩
  · simp only [h1]
    refine Or.inr ⟨rfl, ?_⟩
    omega

theorem Process_loop_returns (cfg : Config) (hv : cfg.Valid)
    (hperm : QsortPermutes cfg.qsort) :
    ∀ (fuel : Nat) (s : State), s.WF cfg → Spread cfg s.rng →
      cfg.FES - s.fes ≤ (fuel : Int) * (cfg.POPSIZE : Int) →
      fuel * (1 + cfg.POPSIZE * (cfg.DIMS * 8)) ≤ s.rng.length →
      ∃ tr, Process_loop cfg fuel s = some (.ok tr) := by
  intro fuel
  induction fuel with
  | zero =>
    intro s _ _ hb _
    have : ¬ s.fes < cfg.FES := by
      simp only [Nat.cast_zero, zero_mul] at hb
      omega
    unfold Process_loop
    rw [if_neg this]
    exact ⟨_, rfl⟩
  | succ fuel ih =>
    intro s hwf hsp hb hlen
    unfold Process_loop
    by_cases hc : s.fes < cfg.FES
    · rw [if_pos hc]
      have hK : (fuel + 1) * (1 + cfg.POPSIZE * (cfg.DIMS * 8)) =
          fuel * (1 + cfg.POPSIZE * (cfg.DIMS * 8)) + (1 + cfg.POPSIZE * (cfg.DIMS * 8)) := by
        ring
      rcases generation_fed cfg hv hperm s hwf hsp with ⟨s1, hg, w1, hs1, hl1⟩ | ⟨hg, hl⟩
      · simp only [hg]
        have hf := (generation_spec cfg s s1 hg).1
        have hb1 : cfg.FES - s1.fes ≤ (fuel : Int) * (cfg.POPSIZE : Int) := by
          rw [hf]
          push_cast at hb
          linarith
        obtain ⟨tr, htr⟩ := ih s1 w1 (Spread_suffix cfg _ _ hsp hs1) hb1 (by omega)
        simp only [htr]
        exact ⟨_, rfl⟩
      · omega
    · rw [if_neg hc]
      exact ⟨_, rfl⟩

theorem Process_trace_returns (cfg : Config) (hv : cfg.Valid)
    (hperm : QsortPermutes cfg.qsort) (fuel : Nat)
    (hfuel : cfg.FES ≤ (cfg.POPSIZE : Int) * (1 + (fuel : Int))) (s : State)
    (hwf : s.WF cfg) (hsp : Spread cfg s.rng)
    (hlen : cfg.POPSIZE * cfg.DIMS + fuel * (1 + cfg.POPSIZE * (cfg.DIMS * 8)) ≤
      s.rng.length) :
    ∃ tr, Process_trace cfg fuel s = some (.ok tr) := by
  unfold Process_trace
  rcases Initialize_fed cfg hv.2.2.2.2 s hwf with ⟨s1, h1, w1, hs1, hl1⟩ | ⟨h1, hl1⟩
  · simp only [h1]
    obtain ⟨s2, h2, w2, e2⟩ := Evaluate_returns cfg s1 w1
    simp only [h2]
    have f1 := (Initialize_spec cfg s s1 h1).1
    have f2 := (Evaluate_spec cfg s1 s2 h2).1
    refine Process_loop_returns cfg hv hperm fuel s2 w2
      (by rw [e2]; exact Spread_suffix cfg _ _ hsp hs1) ?_ ?_
    · rw [f2, f1]
      linarith
    · rw [e2]
      simp only [mul_one] at hl1
      omega
  · simp only [mul_one] at hl1
    omega

theorem fes_in_trace (cfg : Config) :
    ∀ (rest : List State) (s : State), 0 ≤ s.fes →
      List.Chain (fun a b => a.fes < cfg.FES ∧ generation cfg a = .ok b) s rest →
      ∀ t ∈ s :: rest, 0 ≤ t.fes ∧
        (t.fes ≤ s.fes ∨ t.fes < cfg.FES + (cfg.POPSIZE : Int)) := by
  intro rest
  induction rest with
  | nil =>
    intro s h0 _ t ht
    simp only [List.mem_singleton] at ht
    subst ht
    exact ⟨h0, Or.inl (le_refl _)⟩
  | cons b rest ih =>
    intro s h0 hch t ht
    rw [List.chain_cons] at hch
    obtain ⟨⟨hlt, hg⟩, hrest⟩ := hch
    have hf := (generation_spec cfg s b hg).1
    have hN : (0 : Int) ≤ (cfg.POPSIZE : Int) := Int.natCast_nonneg _
    rcases List.mem_cons.mp ht with rfl | ht'
    · exact ⟨h0, Or.inl (le_refl _)⟩
    · obtain ⟨c1, c2⟩ := ih b (by omega) hrest t ht'
      refine ⟨c1, Or.inr ?_⟩
      rcases c2 with c2 | c2
      · omega
      · exact c2

theorem int_wrap_of_range (z : Int) (h0 : 0 ≤ z) (h1 : z ≤ 2147483647) : int_wrap z = z := by
  unfold int_wrap
  omega

theorem trace_in_int_range (cfg : Config) (hF : 1 ≤ cfg.FES)
    (hmax : cfg.FES + (cfg.POPSIZE : Int) ≤ 2147483648) (fuel : Nat) (s : State)
    (tr : List State) (h : Process_trace cfg fuel s = some (.ok tr)) :
    ∀ t ∈ tr, 0 ≤ t.fes ∧ t.fes ≤ 2147483647 ∧ int_wrap t.fes = t.fes := by
  obtain ⟨s1, s2, rest, h1, h2, rfl, hch, _⟩ := Process_trace_spec cfg fuel s tr h
  have f1 := (Initialize_spec cfg s s1 h1).1
  have f2 := (Evaluate_spec cfg s1 s2 h2).1
  have hN : (0 : Int) ≤ (cfg.POPSIZE : Int) := Int.natCast_nonneg _
  intro t ht
  obtain ⟨c1, c2⟩ := fes_in_trace cfg rest s2 (by rw [f2, f1]; omega) hch t ht
  have hle : t.fes ≤ 2147483647 := by
    rcases c2 with c2 | c2
    · rw [f2, f1] at c2
      omega
    · omega
  exact ⟨c1, hle, int_wrap_of_range t.fes c1 hle⟩

/-! ## The comparator and the contract of `qsort` in ISO C -/

theorem cmp_tie (a b : Individual) (h : a.fit = b.fit) : cmp a b = -1 ∧ cmp b a = -1 := by
  unfold cmp
  rw [h]
  simp

theorem cmp_inconsistent (l : List Individual)
    (h : ¬ l.Pairwise (fun a b => a.fit ≠ b.fit)) : ¬ Consistent cmp l := by
  intro hc
  apply h
  refine hc.1.imp ?_
  intro a b hab hfit
  obtain ⟨h1, h2⟩ := cmp_tie a b hfit
  rw [h1, h2] at hab
  omega

theorem int_wrap_step (a : Int) : int_wrap (int_wrap a + 1) = int_wrap (a + 1) := by
  unfold int_wrap
  omega

theorem int_wrap_below (k : Int) : int_wrap (30 * k) < 2147483647 := by
  unfold int_wrap
  omega

theorem maxbudget_overflows (fuel : Nat) (s : State) (tr : List State)
    (h : Process_trace demo_maxbudget fuel s = some (.ok tr)) :
    ∃ t ∈ tr, 2147483647 < t.fes ∧ int_wrap t.fes ≠ t.fes := by
  obtain ⟨s1, s2, rest, h1, h2, rfl, hch, last, hlast, hfin⟩ :=
    Process_trace_spec demo_maxbudget fuel s tr h
  have f1 := (Initialize_spec demo_maxbudget s s1 h1).1
  have f2 := (Evaluate_spec demo_maxbudget s1 s2 h2).1
  obtain ⟨c1, _⟩ := chain_fes demo_maxbudget
    (fun a b h => (generation_spec demo_maxbudget a b h).1) rest s2 last hch hlast
  have hN : (demo_maxbudget.POPSIZE : Int) = 30 := rfl
  have hF : demo_maxbudget.FES = 2147483647 := rfl
  rw [f2, f1, hN] at c1
  rw [hF] at hfin
  have hbig : 2147483647 < last.fes := by omega
  refine ⟨last, List.mem_of_mem_getLast? hlast, hbig, ?_⟩
  unfold int_wrap
  omega

theorem maxbudget_returns (n : Nat) (hn : 17251451938 ≤ n + 1) :
    ∃ tr, Process_trace demo_maxbudget 71582788 (demo_maxbudget_start (List.range (n + 1))) =
      some (.ok tr) := by
  have hv : demo_maxbudget.Valid := ⟨by decide, by decide, by decide, by decide, by decide⟩
  have hp : QsortPermutes demo_maxbudget.qsort :=
    fun l => (qsort_cmp_spec qsort_ref qsort_ref_spec l).1
  have hwf : (demo_maxbudget_start (List.range (n + 1))).WF demo_maxbudget := by
    simp [State.WF, demo_maxbudget_start, demo_maxbudget, demo]
  have hsp : Spread demo_maxbudget (demo_maxbudget_start (List.range (n + 1))).rng := by
    unfold Spread
    have e : (demo_maxbudget_start (List.range (n + 1))).rng = List.range (n + 1) := rfl
    rw [e, List.chain'_range_succ]
    intro m _
    have h1 : demo_maxbudget.SN1 = 15 := rfl
    have h2 : demo_maxbudget.POPSIZE = 30 := rfl
    rw [h1, h2]
    omega
  have hN : demo_maxbudget.POPSIZE = 30 := rfl
  have hD : demo_maxbudget.DIMS = 1 := rfl
  have hF : demo_maxbudget.FES = 2147483647 := rfl
  have hl : (demo_maxbudget_start (List.range (n + 1))).rng.length = n + 1 :=
    List.length_range _
  exact Process_trace_returns demo_maxbudget hv hp 71582788
    (by rw [hF, hN]; norm_num) (demo_maxbudget_start (List.range (n + 1))) hwf hsp
    (by rw [hN, hD, hl]; omega)

/-- C3 fails in two ways.  For `POPSIZE = 3`, `FES = 6`, `SN1 = POPSIZE / 2 = 1` the loop
`do { r = rand() % SN1; } while (r == i);` of individual `0` uses up every sequence of
`rand()` values without exiting, `Reproduction_and_Reinforcement` therefore never returns,
on `demo_rng` that operator is reached in the first generation, and for no sequence of
`rand()` values and no number of generations does `Process` return.  For `POPSIZE = 30`
and `FES = INT_MAX = 2147483647` the loop of `Process` can only exit with
`fes ≥ 2147483670`, which the `int` counter `fes` cannot hold: with a counter of unbounded
range the trial on the values `0, 1, 2, ...` of `rand()` returns, and every trial that
returns passes through a state with `fes > 2147483647`, where the `int` overflows; with a
counter that wraps around, `fes < FES` holds after every number of evaluations that is a
multiple of `30`. -/
theorem C3_counterexample :
    ((1 ≤ demo_sn1.POPSIZE ∧ 1 ≤ demo_sn1.FES) ∧
      (∀ l : List Nat, draw_other demo_sn1.SN1 0 l = .error Fault.randExhausted) ∧
      ((Initialize demo_sn1 (demo_start demo_rng) >>= Evaluate demo_sn1 >>=
          Attention demo_sn1) = .ok demo_sn1_attended ∧
        demo_sn1_attended.fes < demo_sn1.FES ∧
        Reproduction_and_Reinforcement demo_sn1 demo_sn1_attended =
          .error Fault.randExhausted) ∧
      ¬ ∃ (rng : List Nat) (fuel : Nat) (tr : List State),
          Process_trace demo_sn1 fuel (demo_start rng) = some (.ok tr)) ∧
    ((1 ≤ demo_maxbudget.POPSIZE ∧ 1 ≤ demo_maxbudget.FES) ∧
      (∃ (fuel : Nat) (s : State) (tr : List State),
        Process_trace demo_maxbudget fuel s = some (.ok tr)) ∧
      (∀ (fuel : Nat) (s : State) (tr : List State),
        Process_trace demo_maxbudget fuel s = some (.ok tr) →
        ∃ t ∈ tr, 2147483647 < t.fes ∧ int_wrap t.fes ≠ t.fes) ∧
      (∀ a : Int, int_wrap (int_wrap a + 1) = int_wrap (a + 1)) ∧
      (∀ k : Int, int_wrap ((demo_maxbudget.POPSIZE : Int) * k) < demo_maxbudget.FES)) := by
  refine ⟨⟨by decide, draw_other_stuck, ⟨by decide!, by decide!, by decide!⟩, ?_⟩,
    ⟨by decide, ⟨71582788, demo_maxbudget_start (List.range (17251451937 + 1)),
      maxbudget_returns 17251451937 (by omega)⟩, maxbudget_overflows, int_wrap_step,
      int_wrap_below⟩⟩
  rintro ⟨rng, fuel, tr, h⟩
  obtain ⟨s1, s2, rest, h1, h2, rfl, hch, last, hlast, hfin⟩ :=
    Process_trace_spec demo_sn1 fuel _ tr h
  have f1 := (Initialize_spec demo_sn1 _ s1 h1).1
  have f2 := (Evaluate_spec demo_sn1 s1 s2 h2).1
  cases rest with
  | nil =>
    simp only [List.getLast?_singleton, Option.some.injEq] at hlast
    subst hlast
    apply hfin
    rw [f2, f1]
    decide
  | cons a rest =>
    rw [List.chain_cons] at hch
    have hg := hch.1.2
    unfold generation at hg
    cases h3 : Attention demo_sn1 s2 with
    | error e => simp [h3] at hg
    | ok s3 =>
      simp only [h3] at hg
      cases h4 : Reproduction_and_Reinforcement demo_sn1 s3 with
      | error e => simp [h4] at hg
      | ok s4 =>
        exact Reproduction_stuck demo_sn1 rfl (by decide) (by decide) s3 ⟨s4, h4⟩

theorem budget_outcome (cfg : Config) (hN : 1 ≤ cfg.POPSIZE) (hF : 1 ≤ cfg.FES)
    (hmax : cfg.FES + (cfg.POPSIZE : Int) ≤ 2147483648) (s : State) (fuel : Nat)
    (hfuel : cfg.FES ≤ (fuel : Int)) :
    ∃ r, Process_trace cfg fuel s = some r ∧
      ∀ tr, r = .ok tr →
        (∀ t ∈ tr, 0 ≤ t.fes ∧ t.fes ≤ 2147483647 ∧ int_wrap t.fes = t.fes) ∧
        ∃ last, tr.getLast? = some last ∧ Process cfg fuel s = some (.ok last) ∧
          last.fes = (cfg.POPSIZE : Int) * (tr.length : Int) ∧
          last.fes ≥ cfg.FES ∧ last.fes - (cfg.POPSIZE : Int) < cfg.FES := by
  have hNq : (1 : Int) ≤ (cfg.POPSIZE : Int) := by exact_mod_cast hN
  have hex : ∃ r, Process_trace cfg fuel s = some r := by
    cases h1 : Initialize cfg s with
    | error e =>
      unfold Process_trace
      simp only [h1]
      exact ⟨_, rfl⟩
    | ok s1 =>
      cases h2 : Evaluate cfg s1 with
      | error e =>
        unfold Process_trace
        simp only [h1, h2]
        exact ⟨_, rfl⟩
      | ok s2 =>
        have f1 := (Initialize_spec cfg s s1 h1).1
        have f2 := (Evaluate_spec cfg s1 s2 h2).1
        unfold Process_trace
        simp only [h1, h2]
        apply Process_loop_terminates cfg (fun a b h => (generation_spec cfg a b h).1)
        have : (0 : Int) ≤ (fuel : Int) := Int.natCast_nonneg _
        nlinarith
  obtain ⟨r, hr⟩ := hex
  refine ⟨r, hr, ?_⟩
  rintro tr rfl
  refine ⟨trace_in_int_range cfg hF hmax fuel s tr hr, ?_⟩
  obtain ⟨s1, s2, rest, h1, h2, rfl, hch, last, hlast, hfin⟩ :=
    Process_trace_spec cfg fuel s _ hr
  have f1 := (Initialize_spec cfg s s1 h1).1
  have f2 := (Evaluate_spec cfg s1 s2 h2).1
  obtain ⟨c1, c2⟩ := chain_fes cfg (fun a b h => (generation_spec cfg a b h).1)
    rest s2 last hch hlast
  refine ⟨last, hlast, ?_, ?_, by omega, ?_⟩
  · unfold Process
    simp only [hr, hlast]
  · rw [c1, f2, f1]
    simp only [List.length_cons]
    push_cast
    ring
  · by_cases hrest : rest = []
    · subst hrest
      simp only [List.getLast?_singleton, Option.some.injEq] at hlast
      subst hlast
      rw [f2, f1]
      omega
    · exact c2 hrest

/-- C3 (amended): `Initialize` sets `fes` to `0`; `Evaluate` raises it by exactly
`POPSIZE`; `Attention` and `Reproduction_and_Reinforcement` leave it unchanged and
`Motivation` raises it by exactly `POPSIZE`, so a generation raises it by exactly
`POPSIZE`.  For `POPSIZE ≥ 1` and `FES ≥ 1` with `FES + POPSIZE ≤ 2 ^ 31` the loop of
`Process` needs at most `FES` generations: with that many allowed, `Process` has an
outcome, and when the outcome is not a fault raised inside an operator, `fes` stays within
the range of `int` in every state observed (and between two of them it only grows), and
the final state has `fes = POPSIZE * (number of observed states)`, `fes ≥ FES` and
`fes - POPSIZE < FES`.  In a valid configuration, with a `qsort` that rearranges the
array, the only fault that can keep `Process` from returning is the exhaustion of the
values of `rand()`; and `Process` does return on every sequence of `rand()` values in
which no two consecutive values are congruent modulo `SN1` or modulo `POPSIZE`, as soon as
`POPSIZE * DIMS` values for `Initialize` and `1 + 8 * POPSIZE * DIMS` values for each
generation are at hand. -/
theorem C3_evaluation_budget (cfg : Config) :
    (∀ s s', Initialize cfg s = .ok s' → s'.fes = 0) ∧
    (∀ s s', Evaluate cfg s = .ok s' → s'.fes = s.fes + (cfg.POPSIZE : Int)) ∧
    (∀ s s', Attention cfg s = .ok s' → s'.fes = s.fes) ∧
    (∀ s s', Reproduction_and_Reinforcement cfg s = .ok s' → s'.fes = s.fes) ∧
    (∀ s s', Motivation cfg s = .ok s' → s'.fes = s.fes + (cfg.POPSIZE : Int)) ∧
    (∀ s s', generation cfg s = .ok s' → s'.fes = s.fes + (cfg.POPSIZE : Int)) ∧
    (1 ≤ cfg.POPSIZE → 1 ≤ cfg.FES → cfg.FES + (cfg.POPSIZE : Int) ≤ 2147483648 →
      ∀ (s : State) (fuel : Nat), cfg.FES ≤ (fuel : Int) →
      ∃ r, Process_trace cfg fuel s = some r ∧
        ∀ tr, r = .ok tr →
          (∀ t ∈ tr, 0 ≤ t.fes ∧ t.fes ≤ 2147483647 ∧ int_wrap t.fes = t.fes) ∧
          ∃ last, tr.getLast? = some last ∧ Process cfg fuel s = some (.ok last) ∧
            last.fes = (cfg.POPSIZE : Int) * (tr.length : Int) ∧
            last.fes ≥ cfg.FES ∧ last.fes - (cfg.POPSIZE : Int) < cfg.FES) ∧
    (cfg.Valid → QsortPermutes cfg.qsort → ∀ (s : State) (fuel : Nat), s.WF cfg →
      cfg.FES ≤ (fuel : Int) →
      (∃ tr, Process_trace cfg fuel s = some (.ok tr)) ∨
        Process_trace cfg fuel s = some (.error Fault.randExhausted)) ∧
    (cfg.Valid → QsortPermutes cfg.qsort → ∀ (s : State) (fuel : Nat), s.WF cfg →
      Spread cfg s.rng → cfg.FES ≤ (cfg.POPSIZE : Int) * (1 + (fuel : Int)) →
      cfg.POPSIZE * cfg.DIMS + fuel * (1 + cfg.POPSIZE * (cfg.DIMS * 8)) ≤ s.rng.length →
      ∃ tr, Process_trace cfg fuel s = some (.ok tr)) := by
  refine ⟨fun s s' h => (Initialize_spec cfg s s' h).1,
    fun s s' h => (Evaluate_spec cfg s s' h).1,
    fun s s' h => (Attention_spec cfg s s' h).2.2.1,
    fun s s' h => (Reproduction_spec cfg s s' h).2.1,
    fun s s' h => (Motivation_spec cfg s s' h).1,
    fun s s' h => (generation_spec cfg s s' h).1,
    fun hN hF hmax s fuel hfuel => budget_outcome cfg hN hF hmax s fuel hfuel, ?_, ?_⟩
  · intro hv hp s fuel hwf hfuel
    obtain ⟨r, hr, hok⟩ := Process_trace_progress_perm cfg hv hp fuel hfuel s hwf
    rcases hok with ⟨tr, rfl⟩ | rfl
    · exact Or.inl ⟨tr, hr⟩
    · exact Or.inr hr
  · intro hv hp s fuel hwf hsp hfuel hlen
    exact Process_trace_returns cfg hv hp fuel hfuel s hwf hsp hlen

/-- Witness of C3 (amended): the trial of `demo` (`POPSIZE = 3`, `FES = 6`) ends after one
generation with `fes = 6`, on `demo_rng` and on the values `0, 1, ..., 27` of `rand()`. -/
theorem C3_witness :
    Process_trace demo 6 (demo_start demo_rng) = some (.ok demo_trace) ∧
    demo_trace.map State.fes = [3, 6] ∧
    (∃ r, Process_trace demo 6 (demo_start demo_rng) = some r ∧
      ∀ tr, r = .ok tr →
        (∀ t ∈ tr, 0 ≤ t.fes ∧ t.fes ≤ 2147483647 ∧ int_wrap t.fes = t.fes) ∧
        ∃ last, tr.getLast? = some last ∧
          Process demo 6 (demo_start demo_rng) = some (.ok last) ∧
          last.fes = (demo.POPSIZE : Int) * (tr.length : Int) ∧
          last.fes ≥ demo.FES ∧ last.fes - (demo.POPSIZE : Int) < demo.FES) ∧
    Spread demo (List.range 28) ∧
    ∃ tr, Process_trace demo 1 (demo_start (List.range 28)) = some (.ok tr) :=
  have hv : demo.Valid := ⟨by decide, by decide, by decide, by decide, by decide⟩
  have hp : QsortPermutes demo.qsort := fun l => (qsort_cmp_spec qsort_ref qsort_ref_spec l).1
  have hsp : Spread demo (List.range 28) := by
    unfold Spread
    rw [List.chain'_range_succ]
    intro m _
    have h1 : demo.SN1 = 2 := rfl
    have h2 : demo.POPSIZE = 3 := rfl
    rw [h1, h2]
    omega
  ⟨by decide!, by decide!,
    (C3_evaluation_budget demo).2.2.2.2.2.2.1 (by decide) (by decide) (by decide)
      (demo_start demo_rng) 6 (by decide), hsp,
    (C3_evaluation_budget demo).2.2.2.2.2.2.2.2 hv hp (demo_start (List.range 28)) 1
      (by simp [State.WF, demo_start, demo]) hsp (by decide) (by decide)⟩

end SLA
